import Mathlib

/-!
UDP forwarder of the user-space filter (client/firewall/uspfilter/forwarder).

A shallow embedding of `udp.go`: the flow table `udpForwarder.conns`, the
admission callback `handleUDP`, the relay supervisor `proxyUDP`, the idle reaper
`cleanup` and `Stop`.  Every goroutine is cut at the places where it acquires or
releases the table lock; one cut piece is one atomic step of the machine `step`.
Calls on objects outside the table (cancel functions, `Close`, dialing, endpoint
creation, goroutine start) are recorded in an effect log, tagged with the function
that makes the call.

After the forwarder come the status recorder of `client/internal/peer/status.go`
(namespace `Peer`), the netflow manager of `client/internal/netflow/manager.go`
(namespace `Netflow`) and the message conversions and the connection manager of
`client/internal` (namespace `Internal`).  The definitions of all four parts come
first, the theorems after them.
-/

namespace Forwarder

/-- The key of the flow table, `stack.TransportEndpointID`: the four-tuple of a flow. -/
structure TransportEndpointID where
  LocalPort : Nat
  LocalAddress : Nat
  RemotePort : Nat
  RemoteAddress : Nat
deriving DecidableEq, Repr

/-- A connection object. `virt a` is the `gonet.UDPConn` that admission attempt `a`
creates on the virtual stack (field `conn`), `real a` is the socket that attempt `a`
dials on the real network (field `outConn`). -/
inductive Conn where
  | virt (a : Nat)
  | real (a : Nat)
deriving DecidableEq, Repr

/-- The function of `udp.go` that makes a call. -/
inductive Site where
  | handleUDP
  | proxyUDP
  | cleanup
  | Stop
deriving DecidableEq, Repr

/-- A call on an object outside the flow table. -/
inductive Effect where
  | dial (a : Nat)
  | createEndpoint (a : Nat)
  | cancel (site : Site) (p : Nat)
  | close (site : Site) (c : Conn)
  | spawn (p : Nat)
deriving DecidableEq, Repr

/-- Where the goroutine that owns an admission attempt stands.
* `dialing`: `handleUDP` passed the lookup of l.133-139 and has not dialed yet (l.141);
* `dialFailed`: returned at l.145; `epFailed`: returned at l.156;
* `built`: the `udpPacketConn` is constructed and stamped (l.159-167), the write lock
  of l.169 is not taken yet;
* `lost`: the re-check of l.171 found a duplicate and released the lock (l.172);
* `discarded`: returned at l.180;
* `inserted`: stored in the table and lock released (l.182-183);
* `running`: `go f.proxyUDP` executed (l.186);
* `closing`: the deferred function of `proxyUDP` ran l.191-197 and waits for the lock;
* `finished`: `proxyUDP` deleted the key (l.199-201) and returned. -/
inductive Phase where
  | dialing
  | dialFailed
  | epFailed
  | built
  | lost
  | discarded
  | inserted
  | running
  | closing
  | finished
deriving DecidableEq, Repr

/-- One admission attempt and the `*udpPacketConn` it builds, addressed by its index `p`
in `State.flows`.  The fields `conn`, `outConn` and `cancel` of the Go struct never
change and belong to this object alone: they are `Conn.virt p`, `Conn.real p` and the
target of `Effect.cancel _ p`.  `lastSeen` is the atomic field (nanoseconds).  `id` and
`phase` are the local `id` and the program counter of the owning goroutine. -/
structure udpPacketConn where
  id : TransportEndpointID
  lastSeen : Int
  phase : Phase
deriving DecidableEq, Repr

/-- The Go map `map[stack.TransportEndpointID]*udpPacketConn`, as an association list. -/
abbrev Table := List (TransportEndpointID × Nat)

/-- The map read `m[id]`. -/
def Table.get : Table → TransportEndpointID → Option Nat
  | [], _ => none
  | (k, p) :: rest, id => if k = id then some p else Table.get rest id

/-- The builtin `delete(m, id)`. -/
def Table.delete (t : Table) (id : TransportEndpointID) : Table :=
  t.filter (fun e => decide (e.1 ≠ id))

/-- The map write `m[id] = p`. -/
def Table.set (t : Table) (id : TransportEndpointID) (p : Nat) : Table :=
  (id, p) :: Table.delete t id

/-- The forwarder together with the goroutines working on it. -/
structure State where
  /-- `Forwarder.ctx.Err() != nil`: the lifetime context read at l.128. -/
  ctxDone : Bool
  /-- The context of `udpForwarder`, cancelled at l.61. -/
  udpCtxDone : Bool
  /-- Number of `Stop` calls that are between l.61 and l.63. -/
  stops : Nat
  /-- The table `udpForwarder.conns`. -/
  conns : Table
  /-- All admission attempts made so far. -/
  flows : List udpPacketConn
  /-- The part of the local `idleConns` of `cleanup` (l.88) not processed yet. -/
  idleConns : Table
  /-- Whether `cleanup` ran l.105-111 for the head of `idleConns` and waits at l.113. -/
  idleClosed : Bool
  /-- The calls made so far, oldest first. -/
  log : List Effect
deriving DecidableEq, Repr

/-- The state right after `newUDPForwarder` (l.41-57). -/
def newUDPForwarder : State :=
  { ctxDone := false, udpCtxDone := false, stops := 0, conns := [], flows := [],
    idleConns := [], idleClosed := false, log := [] }

/-- The constant `udpTimeout = 60 * time.Second`, in nanoseconds. -/
def udpTimeout : Int := 60 * 1000000000

/-- The constant `maxPacketSize`. -/
def maxPacketSize : Nat := 65535

/-- Largest and smallest `time.Duration` (an int64). -/
def maxDuration : Int := 2 ^ 63 - 1

/-- Smallest `time.Duration`. -/
def minDuration : Int := -(2 ^ 63)

/-- The method `getIdleDuration` (l.229-232) read at wall-clock time `now`:
`time.Since(time.Unix(0, lastSeen))`.  `Time.Sub` saturates at the ends of int64. -/
def getIdleDuration (now : Int) (c : udpPacketConn) : Int :=
  if now - c.lastSeen > maxDuration then maxDuration
  else if now - c.lastSeen < minDuration then minDuration
  else now - c.lastSeen

/-- The three calls every teardown makes on flow `p`, in source order:
`cancel()`, `conn.Close()`, `outConn.Close()` (l.67-73, l.105-111, l.173-179, l.191-197). -/
def teardown (site : Site) (p : Nat) : List Effect :=
  [Effect.cancel site p, Effect.close site (Conn.virt p), Effect.close site (Conn.real p)]

/-- Phase of attempt `p`, if it exists. -/
def State.phaseOf (s : State) (p : Nat) : Option Phase :=
  (s.flows[p]?).map (fun c => c.phase)

/-- Overwrite the phase of attempt `p`. -/
def State.setPhase (s : State) (p : Nat) (ph : Phase) : State :=
  match s.flows[p]? with
  | some c => { s with flows := s.flows.set p { c with phase := ph } }
  | none => s

/-- Append calls to the log. -/
def State.emit (s : State) (es : List Effect) : State :=
  { s with log := s.log ++ es }

/-! ## handleUDP -/

/-- Lines 125-139 of `handleUDP`: the context check and the read-locked lookup.
When both pass, the call goes on as a new attempt in phase `dialing`. -/
def lookup (id : TransportEndpointID) (s : State) : State :=
  if s.ctxDone then s
  else if (s.conns.get id).isSome then s
  else { s with flows := s.flows ++ [{ id := id, lastSeen := 0, phase := Phase.dialing }] }

/-- Lines 141-146: `DialContext` fails. -/
def dialFailed (a : Nat) (s : State) : State :=
  (s.emit [Effect.dial a]).setPhase a Phase.dialFailed

/-- Lines 141-157: the dial succeeds, `CreateEndpoint` fails, the socket is closed. -/
def endpointFailed (a : Nat) (s : State) : State :=
  (s.emit [Effect.dial a, Effect.createEndpoint a,
    Effect.close Site.handleUDP (Conn.real a)]).setPhase a Phase.epFailed

/-- The method `updateLastSeen` (l.225-227) called at time `now`. -/
def updateLastSeen (p : Nat) (now : Int) (s : State) : State :=
  match s.flows[p]? with
  | some c => { s with flows := s.flows.set p { c with lastSeen := now } }
  | none => s

/-- Lines 141-167: dial and endpoint succeed, the `udpPacketConn` is built and stamped. -/
def build (a : Nat) (now : Int) (s : State) : State :=
  (updateLastSeen a now (s.emit [Effect.dial a, Effect.createEndpoint a])).setPhase a Phase.built

/-- Lines 169-183: the write-locked re-check and, when the key is absent, the insertion. -/
def insertLocked (a : Nat) (s : State) : State :=
  match s.flows[a]? with
  | some c =>
    if (s.conns.get c.id).isSome then s.setPhase a Phase.lost
    else { s with conns := s.conns.set c.id a }.setPhase a Phase.inserted
  | none => s

/-- Lines 173-180: the loser of the race cancels and closes what it built. -/
def discard (a : Nat) (s : State) : State :=
  (s.emit (teardown Site.handleUDP a)).setPhase a Phase.discarded

/-- Lines 185-186: `go f.proxyUDP(connCtx, pConn, id)`. -/
def spawn (a : Nat) (s : State) : State :=
  (s.emit [Effect.spawn a]).setPhase a Phase.running

/-! ## proxyUDP -/

/-- The select of l.214-222 returned; the deferred function runs l.191-197. -/
def proxyDefer (p : Nat) (s : State) : State :=
  (s.emit (teardown Site.proxyUDP p)).setPhase p Phase.closing

/-- Lines 199-201 of the deferred function: `delete(f.udpForwarder.conns, id)` under
the write lock; then `proxyUDP` returns. -/
def proxyDelete (p : Nat) (s : State) : State :=
  match s.flows[p]? with
  | some c => { s with conns := s.conns.delete c.id }.setPhase p Phase.finished
  | none => s

/-! ## cleanup -/

/-- The test of l.95 on a table entry at time `now`. -/
def isIdle (now : Int) (s : State) (e : TransportEndpointID × Nat) : Bool :=
  match s.flows[e.2]? with
  | some c => decide (getIdleDuration now c > udpTimeout)
  | none => false

/-- Lines 88-102: the read-locked scan that collects the idle entries. -/
def scan (now : Int) (s : State) : State :=
  { s with idleConns := s.conns.filter (isIdle now s), idleClosed := false }

/-- Lines 105-111 for the head of `idleConns`. -/
def reaperClose (s : State) : State :=
  match s.idleConns with
  | [] => s
  | e :: _ => { s.emit (teardown Site.cleanup e.2) with idleClosed := true }

/-- Lines 113-117 for the head of `idleConns`: delete under the write lock. -/
def reaperDelete (s : State) : State :=
  match s.idleConns with
  | [] => s
  | e :: rest => { s with conns := s.conns.delete e.1, idleConns := rest, idleClosed := false }

/-- The loop of l.104-118 run `n` times. -/
def reaperDrain : Nat → State → State
  | 0, s => s
  | n + 1, s => reaperDrain n (reaperDelete (reaperClose s))

/-- One tick of `cleanup` (l.87-118) at time `now` with nothing interleaved. -/
def cleanupTick (now : Int) (s : State) : State :=
  reaperDrain (scan now s).idleConns.length (scan now s)

/-! ## Stop -/

/-- Line 61: `f.cancel()`. -/
def stopCancel (s : State) : State :=
  { s with udpCtxDone := true, stops := s.stops + 1 }

/-- The loop of l.66-75 over the entries `es` of the table. -/
def stopLoop : Table → State → State
  | [], s => s
  | e :: rest, s =>
    stopLoop rest { s.emit (teardown Site.Stop e.2) with conns := s.conns.delete e.1 }

/-- Lines 63-76: the write-locked section of `Stop`. -/
def stopLocked (s : State) : State :=
  stopLoop s.conns { s with stops := s.stops - 1 }

/-- The method `Stop` (l.60-76) with nothing interleaved. -/
def Stop (s : State) : State :=
  stopLocked (stopCancel s)

/-! ## handleUDP as one call -/

/-- What `DialContext` (l.141) and `CreateEndpoint` (l.150) answer. -/
inductive DialResult where
  | dialErr
  | epErr
  | ok
deriving DecidableEq, Repr

/-- One call of `handleUDP` (l.124-187) at time `now` with nothing interleaved. -/
def handleUDP (id : TransportEndpointID) (r : DialResult) (now : Int) (s : State) : State :=
  if s.ctxDone then s
  else if (s.conns.get id).isSome then s
  else
    let a := s.flows.length
    let s1 := lookup id s
    match r with
    | DialResult.dialErr => dialFailed a s1
    | DialResult.epErr => endpointFailed a s1
    | DialResult.ok =>
      let s2 := insertLocked a (build a now s1)
      if s2.phaseOf a = some Phase.lost then discard a s2 else spawn a s2

/-! ## The machine -/

/-- The atomic steps. -/
inductive Action where
  /-- The lifetime context of the engine is cancelled. -/
  | ctxCancel
  /-- A call of `handleUDP` runs l.125-139. -/
  | lookup (id : TransportEndpointID)
  | dialFailed (a : Nat)
  | endpointFailed (a : Nat)
  | build (a : Nat) (now : Int)
  | insertLocked (a : Nat)
  | discard (a : Nat)
  | spawn (a : Nat)
  /-- A relay direction of flow `p` finished a read and write cycle (l.264). -/
  | updateLastSeen (p : Nat) (now : Int)
  | proxyDefer (p : Nat)
  | proxyDelete (p : Nat)
  | scan (now : Int)
  | reaperClose
  | reaperDelete
  | stopCancel
  | stopLocked
deriving DecidableEq, Repr

/-- Whether the relay goroutines of `p` have been started. -/
def Phase.spawned : Phase → Bool
  | Phase.running => true
  | Phase.closing => true
  | Phase.finished => true
  | _ => false

/-- One atomic step; `none` when the step cannot be taken in `s`. -/
def step : Action → State → Option State
  | Action.ctxCancel, s => some { s with ctxDone := true }
  | Action.lookup id, s => some (lookup id s)
  | Action.dialFailed a, s =>
    if s.phaseOf a = some Phase.dialing then some (dialFailed a s) else none
  | Action.endpointFailed a, s =>
    if s.phaseOf a = some Phase.dialing then some (endpointFailed a s) else none
  | Action.build a now, s =>
    if s.phaseOf a = some Phase.dialing then some (build a now s) else none
  | Action.insertLocked a, s =>
    if s.phaseOf a = some Phase.built then some (insertLocked a s) else none
  | Action.discard a, s =>
    if s.phaseOf a = some Phase.lost then some (discard a s) else none
  | Action.spawn a, s =>
    if s.phaseOf a = some Phase.inserted then some (spawn a s) else none
  | Action.updateLastSeen p now, s =>
    if (s.phaseOf p).map Phase.spawned = some true then some (updateLastSeen p now s) else none
  | Action.proxyDefer p, s =>
    if s.phaseOf p = some Phase.running then some (proxyDefer p s) else none
  | Action.proxyDelete p, s =>
    if s.phaseOf p = some Phase.closing then some (proxyDelete p s) else none
  | Action.scan now, s =>
    if s.idleConns = [] then some (scan now s) else none
  | Action.reaperClose, s =>
    if s.idleConns ≠ [] ∧ s.idleClosed = false then some (reaperClose s) else none
  | Action.reaperDelete, s =>
    if s.idleConns ≠ [] ∧ s.idleClosed = true then some (reaperDelete s) else none
  | Action.stopCancel, s => some (stopCancel s)
  | Action.stopLocked, s =>
    if 0 < s.stops then some (stopLocked s) else none

/-- Run a schedule from `s`. -/
def run : List Action → State → Option State
  | [], s => some s
  | a :: rest, s => (step a s).bind (run rest)

/-- The states the forwarder can be in. -/
inductive Reachable : State → Prop where
  | init : Reachable newUDPForwarder
  | step (a : Action) (s t : State) : Reachable s → step a s = some t → Reachable t

/-- Number of `Close` calls made by `site` on `c`. -/
def closesBy (s : State) (site : Site) (c : Conn) : Nat :=
  s.log.count (Effect.close site c)

/-- Number of `Close` calls made on `c`, all callers together. -/
def closes (s : State) (c : Conn) : Nat :=
  closesBy s Site.handleUDP c + closesBy s Site.proxyUDP c
    + closesBy s Site.cleanup c + closesBy s Site.Stop c

/-- Number of times `site` invoked the cancel function of flow `p`. -/
def cancelsBy (s : State) (site : Site) (p : Nat) : Nat :=
  s.log.count (Effect.cancel site p)

/-- Whether the attempt got into the flow table at some time. -/
def Phase.entered : Phase → Bool
  | Phase.inserted => true
  | Phase.running => true
  | Phase.closing => true
  | Phase.finished => true
  | _ => false

/-- Whether the deferred function of `proxyUDP` has made its calls (l.191-197). -/
def Phase.deferred : Phase → Bool
  | Phase.closing => true
  | Phase.finished => true
  | _ => false

/-! ## The relay loop `copy` (l.234-267) -/

/-- An error value, as far as `isTimeout` and `isClosedError` can tell errors apart. -/
structure Err where
  /-- The chain holds a `net.Error` whose `Timeout()` is true. -/
  timeout : Bool
  /-- `errors.Is(err, net.ErrClosed)`. -/
  closed : Bool
  /-- `errors.Is(err, context.Canceled)`. -/
  canceled : Bool
  /-- What else identifies the error. -/
  code : Nat
deriving DecidableEq, Repr

/-- The function `isTimeout` (l.273-279). -/
def isTimeout (err : Err) : Bool :=
  err.timeout

/-- The function `isClosedError` (l.269-271). -/
def isClosedError (err : Err) : Bool :=
  err.closed || err.canceled

/-- What `copy` returns when it returns: the error of the context, or an error wrapped
by `fmt.Errorf` with `%w` (the wrapped error stays visible to `errors.Is` and
`errors.As`). -/
inductive CopyErr where
  | ctx (e : Err)
  | setReadDeadline (e : Err)
  | setWriteDeadline (e : Err)
  | read (direction : String) (e : Err)
  | write (direction : String) (e : Err)
deriving DecidableEq, Repr

/-- The error inside a result of `copy`. -/
def CopyErr.cause : CopyErr → Err
  | CopyErr.ctx e => e
  | CopyErr.setReadDeadline e => e
  | CopyErr.setWriteDeadline e => e
  | CopyErr.read _ e => e
  | CopyErr.write _ e => e

/-- What `src.Read(buffer)` answers: a datagram, or an error. -/
inductive ReadResult where
  | data (payload : List Nat)
  | fail (e : Err)
deriving DecidableEq, Repr

/-- What the environment answers during one iteration of the loop of l.246-266. -/
structure Round where
  /-- The error of the context when `ctx.Done()` is ready at the select of l.247. -/
  done : Option Err
  /-- The answer of `src.Read` (l.251). -/
  read : ReadResult
  /-- The error of `dst.Write` (l.259), if any. -/
  write : Option Err
  /-- The clock when `updateLastSeen` runs (l.264). -/
  now : Int
deriving DecidableEq, Repr

/-- The datagram a round delivers (empty when the read fails). -/
def Round.payload (r : Round) : List Nat :=
  match r.read with
  | ReadResult.data d => d
  | ReadResult.fail _ => []

/-- A call `copy` makes. -/
inductive CopyEvent where
  | setReadDeadline (t : Int)
  | setWriteDeadline (t : Int)
  | read (n : Nat)
  | readFailed (e : Err)
  | write (bytes : List Nat)
  | updateLastSeen (now : Int)
deriving DecidableEq, Repr

/-- The loop of l.246-266 run against the answers `rounds`, starting with `buffer`.
A read stores the first `len(buffer)` bytes of the datagram at the start of the buffer
and returns their number `n`; the write gets `buffer[:n]`.  The result is the list of
calls made and the returned error, `none` when the loop is still running after the last
round. -/
def copyLoop (direction : String) : List Round → List Nat → List CopyEvent × Option CopyErr
  | [], _ => ([], none)
  | r :: rest, buffer =>
    match r.done with
    | some e => ([], some (CopyErr.ctx e))
    | none =>
      match r.read with
      | ReadResult.fail e =>
        if isTimeout e then
          (CopyEvent.readFailed e :: (copyLoop direction rest buffer).1,
            (copyLoop direction rest buffer).2)
        else ([CopyEvent.readFailed e], some (CopyErr.read direction e))
      | ReadResult.data d =>
        let n := min d.length buffer.length
        let buffer1 := d.take n ++ buffer.drop n
        match r.write with
        | some e =>
          ([CopyEvent.read n, CopyEvent.write (buffer1.take n)],
            some (CopyErr.write direction e))
        | none =>
          (CopyEvent.read n :: CopyEvent.write (buffer1.take n)
              :: CopyEvent.updateLastSeen r.now :: (copyLoop direction rest buffer1).1,
            (copyLoop direction rest buffer1).2)

/-- The method `copy` (l.234-267).  `buffer` is the slice taken from the pool (l.235-237,
its contents are whatever the last user left), `t1` and `t2` are the clock at l.239 and
l.242, `rd` and `wd` the errors of the two deadline calls, if any. -/
def copy (direction : String) (buffer : List Nat) (t1 t2 : Int) (rd wd : Option Err)
    (rounds : List Round) : List CopyEvent × Option CopyErr :=
  match rd with
  | some e => ([CopyEvent.setReadDeadline (t1 + udpTimeout)], some (CopyErr.setReadDeadline e))
  | none =>
    match wd with
    | some e =>
      ([CopyEvent.setReadDeadline (t1 + udpTimeout), CopyEvent.setWriteDeadline (t2 + udpTimeout)],
        some (CopyErr.setWriteDeadline e))
    | none =>
      (CopyEvent.setReadDeadline (t1 + udpTimeout) :: CopyEvent.setWriteDeadline (t2 + udpTimeout)
          :: (copyLoop direction rounds buffer).1,
        (copyLoop direction rounds buffer).2)

/-- The payloads of the writes among the calls, in order. -/
def writesOf : List CopyEvent → List (List Nat)
  | [] => []
  | CopyEvent.write b :: rest => b :: writesOf rest
  | _ :: rest => writesOf rest

/-- The sizes returned by the successful reads among the calls, in order. -/
def readsOf : List CopyEvent → List Nat
  | [] => []
  | CopyEvent.read n :: rest => n :: readsOf rest
  | _ :: rest => readsOf rest

/-! ## Invariant of the machine -/

/-- What the log says about attempt `p`, whose cell is `c`. -/
structure FlowInv (s : State) (p : Nat) (c : udpPacketConn) : Prop where
  dial : s.log.count (Effect.dial p) = if c.phase = Phase.dialing then 0 else 1
  ep : s.log.count (Effect.createEndpoint p)
    = if c.phase = Phase.dialing ∨ c.phase = Phase.dialFailed then 0 else 1
  spawn : s.log.count (Effect.spawn p) = if c.phase.spawned = true then 1 else 0
  hCancel : cancelsBy s Site.handleUDP p = if c.phase = Phase.discarded then 1 else 0
  hVirt : closesBy s Site.handleUDP (Conn.virt p) = if c.phase = Phase.discarded then 1 else 0
  hReal : closesBy s Site.handleUDP (Conn.real p)
    = if c.phase = Phase.discarded ∨ c.phase = Phase.epFailed then 1 else 0
  pCancel : cancelsBy s Site.proxyUDP p = if c.phase.deferred = true then 1 else 0
  pVirt : closesBy s Site.proxyUDP (Conn.virt p) = if c.phase.deferred = true then 1 else 0
  pReal : closesBy s Site.proxyUDP (Conn.real p) = if c.phase.deferred = true then 1 else 0
  cCancel : cancelsBy s Site.cleanup p = closesBy s Site.cleanup (Conn.virt p)
  cReal : closesBy s Site.cleanup (Conn.real p) = closesBy s Site.cleanup (Conn.virt p)
  cLe : closesBy s Site.cleanup (Conn.virt p) ≤ 1
  cZero : c.phase.entered = false → closesBy s Site.cleanup (Conn.virt p) = 0
  sCancel : cancelsBy s Site.Stop p = closesBy s Site.Stop (Conn.virt p)
  sReal : closesBy s Site.Stop (Conn.real p) = closesBy s Site.Stop (Conn.virt p)
  sLe : closesBy s Site.Stop (Conn.virt p) ≤ 1
  sZero : c.phase.entered = false → closesBy s Site.Stop (Conn.virt p) = 0

/-- The attempt an effect is about. -/
def Effect.target : Effect → Nat
  | Effect.dial a => a
  | Effect.createEndpoint a => a
  | Effect.cancel _ p => p
  | Effect.close _ (Conn.virt p) => p
  | Effect.close _ (Conn.real p) => p
  | Effect.spawn p => p

/-- The invariant of the machine. -/
structure Inv (s : State) : Prop where
  nodup : (s.conns.map Prod.fst).Nodup
  pnodup : (s.conns.map Prod.snd).Nodup
  tbl : ∀ e ∈ s.conns, ∃ c, s.flows[e.2]? = some c ∧ c.id = e.1 ∧
    (c.phase = Phase.inserted ∨ c.phase = Phase.running ∨ c.phase = Phase.closing)
  qnodup : (s.idleConns.map Prod.snd).Nodup
  que : ∀ e ∈ s.idleConns, ∃ c, s.flows[e.2]? = some c ∧ c.id = e.1 ∧ c.phase.entered = true
  fresh : ∀ x ∈ s.log, x.target < s.flows.length
  flow : ∀ p c, s.flows[p]? = some c → FlowInv s p c
  tStop : ∀ e ∈ s.conns, closesBy s Site.Stop (Conn.virt e.2) = 0
  tClean : ∀ e ∈ s.conns, closesBy s Site.cleanup (Conn.virt e.2) = 1 →
    s.idleClosed = true ∧ s.idleConns.head? = some e
  qClean : ∀ e ∈ s.idleConns, closesBy s Site.cleanup (Conn.virt e.2) = 1 →
    s.idleClosed = true ∧ s.idleConns.head? = some e
  qHead : s.idleClosed = true → ∀ e, s.idleConns.head? = some e →
    closesBy s Site.cleanup (Conn.virt e.2) = 1

/-- A flow that is in the table or about to run, while no cancel function of any flow
of the same key has been invoked, is the one the table holds under its key. -/
def Conv (s : State) : Prop :=
  ∀ (p : Nat) (c : udpPacketConn), s.flows[p]? = some c →
    (c.phase = Phase.inserted ∨ c.phase = Phase.running) →
    (∀ (q : Nat) (c1 : udpPacketConn), s.flows[q]? = some c1 → c1.id = c.id →
      ∀ site, cancelsBy s site q = 0) →
    s.conns.get c.id = some p

/-! ## Sample inputs -/

/-- The flow 10.0.0.5:1234 -> 8.8.8.8:53. -/
def flowF : TransportEndpointID :=
  { LocalPort := 53, LocalAddress := 0x08080808, RemotePort := 1234, RemoteAddress := 0x0a000005 }

/-- The flow 10.0.0.5:1235 -> 8.8.4.4:53. -/
def flowG : TransportEndpointID :=
  { LocalPort := 53, LocalAddress := 0x08080404, RemotePort := 1235, RemoteAddress := 0x0a000005 }

/-- One second in nanoseconds. -/
def second : Int := 1000000000

/-- Two running flows: `flowF` last seen at 0 s and `flowG` last seen at 1 s. -/
def twoFlows : State :=
  { newUDPForwarder with
    conns := [(flowG, 1), (flowF, 0)]
    flows := [{ id := flowF, lastSeen := 0, phase := Phase.running },
              { id := flowG, lastSeen := 1 * second, phase := Phase.running }]
    log := [Effect.dial 0, Effect.createEndpoint 0, Effect.spawn 0,
            Effect.dial 1, Effect.createEndpoint 1, Effect.spawn 1] }

/-- The state a schedule leads to from `newUDPForwarder` (`newUDPForwarder` itself when
the schedule cannot be run). -/
def after (acts : List Action) : State :=
  (run acts newUDPForwarder).getD newUDPForwarder

/-- Admission of `flowF` at time 0, up to the start of its relay. -/
def startF : List Action :=
  [Action.lookup flowF, Action.build 0 0, Action.insertLocked 0, Action.spawn 0]

/-- After `startF`, the reaper scans at 61 s and runs l.105-111 on `flowF`; the delete of
l.113-115 is still to come. -/
def reaperClosed : List Action :=
  startF ++ [Action.scan (61 * second), Action.reaperClose]

/-- After `startF`, the relay of `flowF` exits and its deferred function runs
l.191-197; the delete of l.199-201 is still to come. -/
def proxyClosed : List Action :=
  startF ++ [Action.proxyDefer 0]

/-- The reaper evicts `flowF` at 61 s. -/
def evicted : List Action :=
  reaperClosed ++ [Action.reaperDelete]

/-- After the eviction the relay of `flowF` sees its cancelled scope and exits. -/
def evictedThenExited : List Action :=
  evicted ++ [Action.proxyDefer 0, Action.proxyDelete 0]

/-- After the eviction a packet of `flowF` arrives at 62 s and is entered as flow 1;
only then the relay of the evicted flow 0 runs its deferred function. -/
def staleDelete : List Action :=
  evicted ++ [Action.lookup flowF, Action.build 1 (62 * second), Action.insertLocked 1,
    Action.spawn 1, Action.proxyDefer 0, Action.proxyDelete 0]

/-- A round whose read delivers `d` and whose write succeeds, at time `now`. -/
def Round.ok (d : List Nat) (now : Int) : Round :=
  { done := none, read := ReadResult.data d, write := none, now := now }

/-- Two datagrams, delivered at 1 s and 2 s. -/
def twoDatagrams : List Round :=
  [Round.ok [104, 105] (1 * second), Round.ok [1, 2, 3] (2 * second)]

/-! ## What `copy` returns, stamps and arms -/

/-- Whether the round makes `copy` return: the context is done (l.248-249), the read
fails with an error that is not a timeout (l.256), or the write fails (l.261). -/
def Round.returns (r : Round) : Bool :=
  match r.done with
  | some _ => true
  | none =>
    match r.read with
    | ReadResult.fail e => !isTimeout e
    | ReadResult.data _ => r.write.isSome

/-- Whether the round is a whole read and write cycle (l.251-264). -/
def Round.transfers (r : Round) : Bool :=
  match r.done with
  | some _ => false
  | none =>
    match r.read with
    | ReadResult.fail _ => false
    | ReadResult.data _ => r.write.isNone

/-- The stamps `updateLastSeen` stores among the calls, in order. -/
def stampsOf : List CopyEvent → List Int
  | [] => []
  | CopyEvent.updateLastSeen now :: rest => now :: stampsOf rest
  | _ :: rest => stampsOf rest

/-- Whether a call sets a deadline. -/
def CopyEvent.isDeadline : CopyEvent → Bool
  | CopyEvent.setReadDeadline _ => true
  | CopyEvent.setWriteDeadline _ => true
  | _ => false

/-- Whether a call is a read attempt. -/
def CopyEvent.isReadAttempt : CopyEvent → Bool
  | CopyEvent.read _ => true
  | CopyEvent.readFailed _ => true
  | _ => false

/-- A round whose read fails with `e`. -/
def Round.readFails (e : Err) : Round :=
  { done := none, read := ReadResult.fail e, write := none, now := 0 }

/-- A round whose read delivers `d` and whose write fails with `e`. -/
def Round.writeFails (d : List Nat) (e : Err) : Round :=
  { done := none, read := ReadResult.data d, write := some e, now := 0 }

/-- A round at whose select the context is done with error `e`. -/
def Round.cancelled (e : Err) : Round :=
  { done := some e, read := ReadResult.data [], write := none, now := 0 }

/-- An i/o timeout (`os.ErrDeadlineExceeded`). -/
def errTimeout : Err :=
  { timeout := true, closed := false, canceled := false, code := 0 }

/-- The error `net.ErrClosed`. -/
def errClosed : Err :=
  { timeout := false, closed := true, canceled := false, code := 0 }

/-- The error `context.Canceled`. -/
def errCanceled : Err :=
  { timeout := false, closed := false, canceled := true, code := 0 }

/-- A connection reset: neither a timeout, nor closed, nor cancelled. -/
def errReset : Err :=
  { timeout := false, closed := false, canceled := false, code := 104 }

/-! ## The clock -/

/-- The clock value an action stores in `lastSeen`, if it stores one: the value
`time.Now().UnixNano()` that `updateLastSeen` (l.226) read before its `Store`. -/
def Action.stamp : Action → Option Int
  | Action.build _ now => some now
  | Action.updateLastSeen _ now => some now
  | _ => none

/-- A schedule with the clock at each step, started at clock `t`: the clock never goes
back, and a stamp stored at a step was read at or before that step. -/
def clockOK : Int → List (Int × Action) → Bool
  | _, [] => true
  | t, (u, a) :: rest =>
    decide (t ≤ u) &&
      (match a.stamp with
        | some now => decide (now ≤ u)
        | none => true) &&
      clockOK u rest

/-- The `lastSeen` of flow `p` after a schedule. -/
def lastSeenAfter (acts : List Action) (p : Nat) : Option Int :=
  ((after acts).flows[p]?).map (fun c => c.lastSeen)

/-- After `startF` one direction of flow 0 reads the clock at 4 s in `updateLastSeen`
and is preempted before its `Store`; the other direction finishes a transfer at 5 s
and stores; then the first direction stores, at 6 s, the 4 s it had read. -/
def staleStamp : List (Int × Action) :=
  (startF.map (fun a => ((0 : Int), a))) ++
    [(5 * second, Action.updateLastSeen 0 (5 * second)),
     (6 * second, Action.updateLastSeen 0 (4 * second))]

/-! ## Teardown with the answers of `Close`, and the log -/

/-- The level of a log line. -/
inductive Level where
  | error
  | debug
  | trace
deriving DecidableEq, Repr

/-- A line written to the logger. -/
inductive LogLine where
  /-- The lines of l.69, l.72, l.107, l.110, l.193, l.196 (error level) and l.154,
  l.175, l.178 (debug level): `Close` on `c` answered `e`. -/
  | closeFailed (level : Level) (site : Site) (c : Conn) (e : Err)
  /-- The line of l.219, error level: `proxyUDP: copy error`. -/
  | copyFailed (e : CopyErr)
deriving DecidableEq, Repr

/-- One `if err := c.Close(); err != nil { logger... }`: the call is made, its error, if
any, is logged, and the function goes on. -/
def closeLogged (level : Level) (site : Site) (c : Conn) (answer : Option Err)
    (x : State × List LogLine) : State × List LogLine :=
  match answer with
  | some e => (x.1.emit [Effect.close site c], x.2 ++ [LogLine.closeFailed level site c e])
  | none => (x.1.emit [Effect.close site c], x.2)

/-- The three calls of a teardown of flow `p` (l.67-73, l.105-111, l.191-197), where
`conn.Close()` answers `ve` and `outConn.Close()` answers `re`. -/
def teardownLogged (level : Level) (site : Site) (p : Nat) (ve re : Option Err)
    (x : State × List LogLine) : State × List LogLine :=
  closeLogged level site (Conn.real p) re
    (closeLogged level site (Conn.virt p) ve (x.1.emit [Effect.cancel site p], x.2))

/-- The deferred function of `proxyUDP` up to l.197, with the answers of `Close`. -/
def proxyDeferLogged (p : Nat) (ve re : Option Err) (s : State) : State × List LogLine :=
  ((teardownLogged Level.error Site.proxyUDP p ve re (s, [])).1.setPhase p Phase.closing,
    (teardownLogged Level.error Site.proxyUDP p ve re (s, [])).2)

/-- Lines 105-111 of `cleanup` for the head of `idleConns`, with the answers of `Close`. -/
def reaperCloseLogged (ve re : Option Err) (s : State) : State × List LogLine :=
  match s.idleConns with
  | [] => (s, [])
  | e :: _ =>
    ({ (teardownLogged Level.error Site.cleanup e.2 ve re (s, [])).1 with idleClosed := true },
      (teardownLogged Level.error Site.cleanup e.2 ve re (s, [])).2)

/-- The loop of l.66-75 of `Stop`, where `Close` on the connections of flow `p` answers
`answers p`. -/
def stopLoopLogged (answers : Nat → Option Err × Option Err) :
    Table → State × List LogLine → State × List LogLine
  | [], x => x
  | e :: rest, x =>
    stopLoopLogged answers rest
      ({ (teardownLogged Level.error Site.Stop e.2 (answers e.2).1 (answers e.2).2 x).1 with
          conns := x.1.conns.delete e.1 },
        (teardownLogged Level.error Site.Stop e.2 (answers e.2).1 (answers e.2).2 x).2)

/-- Lines 63-76 of `Stop` with the answers of `Close`. -/
def stopLockedLogged (answers : Nat → Option Err × Option Err) (s : State) :
    State × List LogLine :=
  stopLoopLogged answers s.conns ({ s with stops := s.stops - 1 }, [])

/-! ## proxyUDP as one call -/

/-- How the select of l.214-222 leaves: the scope of the flow is done, or a direction
sent its result (`nil` or an error) on `errChan`. -/
inductive Exit where
  | ctxDone
  | result (r : Option CopyErr)
deriving DecidableEq, Repr

/-- Lines 214-222: what `proxyUDP` logs about the exit. -/
def proxyReport (x : Exit) : List LogLine :=
  match x with
  | Exit.ctxDone => []
  | Exit.result none => []
  | Exit.result (some err) =>
    if isClosedError err.cause then [] else [LogLine.copyFailed err]

/-- One run of `proxyUDP` from the select to its return, with nothing interleaved:
the report of l.214-222, then the deferred function of l.190-202. -/
def proxyUDP (x : Exit) (p : Nat) (ve re : Option Err) (s : State) : State × List LogLine :=
  (proxyDelete p (proxyDeferLogged p ve re s).1, proxyReport x ++ (proxyDeferLogged p ve re s).2)

/-! ## The link endpoint (endpoint.go) -/

/-- A `stack.PacketBuffer`, as far as `WritePackets` looks at it. -/
structure PacketBuffer where
  /-- The bytes of `pkt.NetworkHeader().View().AsSlice()`. -/
  networkHeader : List Nat
  /-- The answer of `stack.PayloadSince(pkt.NetworkHeader())`: `nil`, or the bytes of the
  packet from the network header onwards. -/
  payloadSince : Option (List Nat)
deriving DecidableEq, Repr

/-- The method `header.IPv4.DestinationAddress`: bytes 16 to 19 of the header. -/
def DestinationAddress (h : List Nat) : List Nat :=
  (h.drop 16).take 4

/-- A call of `device.CreateOutboundPacket(data, address)`. -/
structure OutboundCall where
  data : List Nat
  address : List Nat
deriving DecidableEq, Repr

/-- The loop of l.44-62.  `device k` is what `CreateOutboundPacket` answers to the call
number `k` of this batch (`none` for no error); the accumulator holds `written` and the
calls made so far. -/
def writeLoop (device : Nat → Option Err) :
    List PacketBuffer → Nat × List OutboundCall → Nat × List OutboundCall
  | [], acc => acc
  | pkt :: rest, acc =>
    match pkt.payloadSince with
    | none => writeLoop device rest acc
    | some data =>
      match device acc.2.length with
      | some _ =>
        writeLoop device rest
          (acc.1, acc.2 ++ [{ data := data, address := DestinationAddress pkt.networkHeader }])
      | none =>
        writeLoop device rest
          (acc.1 + 1, acc.2 ++ [{ data := data, address := DestinationAddress pkt.networkHeader }])

/-- The method `endpoint.WritePackets` (l.42-65): the returned count, the returned
`tcpip.Error` (always `nil`), and the calls made on the device. -/
def WritePackets (device : Nat → Option Err) (pkts : List PacketBuffer) :
    Nat × Option Err × List OutboundCall :=
  ((writeLoop device pkts (0, [])).1, none, (writeLoop device pkts (0, [])).2)

/-- The call `WritePackets` makes for a packet, if it makes one. -/
def PacketBuffer.call (pkt : PacketBuffer) : Option OutboundCall :=
  pkt.payloadSince.map (fun data =>
    { data := data, address := DestinationAddress pkt.networkHeader })

/-- An IPv4 header from 10.0.0.5 to 10.0.0.7 followed by the payload bytes `body`. -/
def ipv4Packet (body : List Nat) : PacketBuffer :=
  { networkHeader := [69, 0, 0, 28, 0, 0, 0, 0, 64, 17, 0, 0, 10, 0, 0, 5, 10, 0, 0, 7]
    payloadSince :=
      some ([69, 0, 0, 28, 0, 0, 0, 0, 64, 17, 0, 0, 10, 0, 0, 5, 10, 0, 0, 7] ++ body) }

/-- A packet whose payload cannot be extracted. -/
def emptyPacket : PacketBuffer :=
  { networkHeader := [], payloadSince := none }

/-- A batch of three packets; the second cannot be extracted. -/
def batch3 : List PacketBuffer :=
  [ipv4Packet [1], emptyPacket, ipv4Packet [2, 3]]

/-- A device that refuses its first call and accepts the others. -/
def firstFails (k : Nat) : Option Err :=
  if k = 0 then some errReset else none

/-- Whether the round is a read that fails with a timeout while the context is live. -/
def Round.timesOut (r : Round) : Bool :=
  match r.done with
  | some _ => false
  | none =>
    match r.read with
    | ReadResult.fail e => isTimeout e
    | ReadResult.data _ => false

/-! ## Repeated teardown -/

/-- The steps of `Stop`, of the reaper and of the deferred function of `proxyUDP`. -/
def Action.isTeardown : Action → Bool
  | Action.proxyDefer _ => true
  | Action.proxyDelete _ => true
  | Action.scan _ => true
  | Action.reaperClose => true
  | Action.reaperDelete => true
  | Action.stopCancel => true
  | Action.stopLocked => true
  | _ => false

/-- The calls a teardown makes: cancel functions and `Close`. -/
def Effect.isTeardownCall : Effect → Bool
  | Effect.cancel _ _ => true
  | Effect.close _ _ => true
  | _ => false

/-- What a teardown never touches in a flow object: its key and its `lastSeen`. -/
def udpPacketConn.kept (c : udpPacketConn) : TransportEndpointID × Int :=
  (c.id, c.lastSeen)

/-- After `startF`: the reaper scans at 61 s and finds `flowF` idle, `Stop` runs, then the
reaper closes and deletes what it had collected, then the relay runs its deferred
function: flow 0 is torn down three times. -/
def tornDownThrice : List Action :=
  startF ++ [Action.scan (61 * second), Action.stopCancel, Action.stopLocked,
    Action.reaperClose, Action.reaperDelete, Action.proxyDefer 0, Action.proxyDelete 0]

end Forwarder

namespace Peer

/-! ## The status recorder (client/internal/peer/status.go) -/

/-- The type `ConnStatus`.  It is declared in `conn_status.go`, which is not among the
sources; its constants are taken as parameters where `status.go` uses them. -/
abbrev ConnStatus := Nat

/-- A Go map as an association list: the read `m[k]`. -/
def mapGet {κ α : Type} [DecidableEq κ] : List (κ × α) → κ → Option α
  | [], _ => none
  | (k1, v) :: rest, k => if k1 = k then some v else mapGet rest k

/-- The builtin `delete(m, k)`. -/
def mapDelete {κ α : Type} [DecidableEq κ] (m : List (κ × α)) (k : κ) : List (κ × α) :=
  m.filter (fun e => decide (e.1 ≠ k))

/-- The write `m[k] = v`. -/
def mapSet {κ α : Type} [DecidableEq κ] (m : List (κ × α)) (k : κ) (v : α) : List (κ × α) :=
  (k, v) :: mapDelete m k

/-- The struct `State` (l.35-54), the latest state of a peer.  `Mux` tells whether the
mutex pointer is set, times and durations are in nanoseconds, `routes` is `none` for the
`nil` map. -/
structure State where
  Mux : Bool
  IP : String
  PubKey : String
  FQDN : String
  ConnStatus : ConnStatus
  ConnStatusUpdate : Int
  Relayed : Bool
  LocalIceCandidateType : String
  RemoteIceCandidateType : String
  LocalIceCandidateEndpoint : String
  RemoteIceCandidateEndpoint : String
  RelayServerAddress : String
  LastWireguardHandshake : Int
  BytesTx : Int
  BytesRx : Int
  Latency : Int
  RosenpassEnabled : Bool
  routes : Option (List String)
deriving DecidableEq, Repr

/-- The zero value `State{}`. -/
def State.zero : State :=
  { Mux := false, IP := "", PubKey := "", FQDN := "", ConnStatus := 0, ConnStatusUpdate := 0,
    Relayed := false, LocalIceCandidateType := "", RemoteIceCandidateType := "",
    LocalIceCandidateEndpoint := "", RemoteIceCandidateEndpoint := "",
    RelayServerAddress := "", LastWireguardHandshake := 0, BytesTx := 0, BytesRx := 0,
    Latency := 0, RosenpassEnabled := false, routes := none }

/-- An `error` value of `status.go`. -/
inductive GoError where
  /-- The value of `errors.New(msg)`. -/
  | text (msg : String)
  /-- The value `configurer.ErrPeerNotFound`. -/
  | ErrPeerNotFound
  /-- An error that carries a gRPC status with the given code. -/
  | status (code : Nat)
deriving DecidableEq, Repr

/-- The struct `ResolvedDomainInfo` (l.26-29); a prefix is its address bytes and length. -/
structure ResolvedDomainInfo where
  Prefixes : List (List Nat × Nat)
  ParentDomain : String
deriving DecidableEq, Repr

/-- The fields of the struct `Status` (l.147-175) that the methods below read or write. -/
structure Status where
  peers : List (String × State)
  managementState : Bool
  managementError : Option GoError
  resolvedDomainsStates : List (String × ResolvedDomainInfo)
  peerListChangedForNotification : Bool
deriving DecidableEq, Repr

/-- The method `AddPeer` (l.207-225): the recorder afterwards and the returned error.
`StatusDisconnected` is the constant of that name. -/
def AddPeer (StatusDisconnected : ConnStatus) (peerPubKey fqdn ip : String) (d : Status) :
    Status × Option GoError :=
  match mapGet d.peers peerPubKey with
  | some _ => (d, some (GoError.text "peer already exist"))
  | none =>
    ({ d with
        peers := mapSet d.peers peerPubKey
          { State.zero with
            PubKey := peerPubKey, IP := ip, ConnStatus := StatusDisconnected, FQDN := fqdn,
            Mux := true }
        peerListChangedForNotification := true },
      none)

/-- The method `GetPeer` (l.227-237). -/
def GetPeer (peerPubKey : String) (d : Status) : State × Option GoError :=
  match mapGet d.peers peerPubKey with
  | some state => (state, none)
  | none => (State.zero, some GoError.ErrPeerNotFound)

/-- A recorder that knows one connected peer. -/
def onePeer : Status :=
  { peers := [("keyA", { State.zero with
      PubKey := "keyA", IP := "100.64.0.1", ConnStatus := 1, FQDN := "a.netbird.cloud",
      Mux := true })]
    managementState := true
    managementError := none
    resolvedDomainsStates := []
    peerListChangedForNotification := false }

/-- The method `UpdatePeerFQDN` (l.479-492): the recorder afterwards and the returned
error. -/
def UpdatePeerFQDN (peerPubKey fqdn : String) (d : Status) : Status × Option GoError :=
  match mapGet d.peers peerPubKey with
  | none => (d, some (GoError.text "peer doesn't exist"))
  | some peerState =>
    ({ d with peers := mapSet d.peers peerPubKey { peerState with FQDN := fqdn } }, none)

/-- The method `MarkManagementDisconnected` (l.548-556).  The deferred
`onConnectionChanged` only reads the recorder. -/
def MarkManagementDisconnected (err : Option GoError) (d : Status) : Status :=
  { d with managementState := false, managementError := err }

/-- The method `MarkManagementConnected` (l.558-566). -/
def MarkManagementConnected (d : Status) : Status :=
  { d with managementState := true, managementError := none }

/-- The code `codes.OK` of the gRPC library. -/
def codesOK : Nat := 0

/-- The code `codes.Unknown`. -/
def codesUnknown : Nat := 2

/-- The code `codes.InvalidArgument`. -/
def codesInvalidArgument : Nat := 3

/-- The code `codes.PermissionDenied`. -/
def codesPermissionDenied : Nat := 7

/-- The library function `gstatus.FromError`, as far as `IsLoginRequired` uses it: the
code of the returned status and `ok`.  A `nil` error gives the `nil` status, whose code is
`OK`, and `ok`; an error that carries a status gives that status and `ok`; any other error
gives a status of code `Unknown` and not `ok`. -/
def FromError (err : Option GoError) : Nat × Bool :=
  match err with
  | none => (codesOK, true)
  | some (GoError.status code) => (code, true)
  | some _ => (codesUnknown, false)

/-- The method `IsLoginRequired` (l.681-695). -/
def IsLoginRequired (d : Status) : Bool :=
  if d.managementState then false
  else
    if (FromError d.managementError).2 &&
        ((FromError d.managementError).1 == codesInvalidArgument ||
          (FromError d.managementError).1 == codesPermissionDenied) then true
    else false

/-- The method `UpdateResolvedDomainsStates` (l.622-631). -/
def UpdateResolvedDomainsStates (originalDomain resolvedDomain : String)
    (prefixes : List (List Nat × Nat)) (d : Status) : Status :=
  { d with
    resolvedDomainsStates := mapSet d.resolvedDomainsStates resolvedDomain
      { Prefixes := prefixes, ParentDomain := originalDomain } }

/-- The loop of `DeleteResolvedDomainsStates` (l.638-642): `order` is what is left of the
`range`, `m` the map so far. -/
def deleteLoop (domain : String) :
    List (String × ResolvedDomainInfo) → List (String × ResolvedDomainInfo) →
      List (String × ResolvedDomainInfo)
  | [], m => m
  | (k, v) :: rest, m =>
    if v.ParentDomain = domain then deleteLoop domain rest (mapDelete m k)
    else deleteLoop domain rest m

/-- The method `DeleteResolvedDomainsStates` (l.633-643).  `order` is the order in which
the `range` yields the entries of the map, which Go leaves unspecified; an entry is
yielded once, and only the yielded key is deleted, so every entry is yielded. -/
def DeleteResolvedDomainsStates (domain : String) (order : List (String × ResolvedDomainInfo))
    (d : Status) : Status :=
  { d with resolvedDomainsStates := deleteLoop domain order d.resolvedDomainsStates }

/-- The keys of a map are pairwise different. -/
def mapWF {κ α : Type} (m : List (κ × α)) : Prop :=
  (m.map Prod.fst).Nodup

instance {κ α : Type} [DecidableEq κ] (m : List (κ × α)) : Decidable (mapWF m) := by
  unfold mapWF; infer_instance

/-- A recorder with three resolved domains, two of them under `*.example.com`. -/
def threeDomains : Status :=
  UpdateResolvedDomainsStates "other.org" "other.org" [([10, 0, 0, 3], 32)]
    (UpdateResolvedDomainsStates "*.example.com" "b.example.com" [([10, 0, 0, 2], 32)]
      (UpdateResolvedDomainsStates "*.example.com" "a.example.com" [([10, 0, 0, 1], 32)]
        onePeer))

/-- A pointer to a `proto.SystemEvent`. -/
abbrev SystemEvent := Nat

/-- The struct `EventQueue` (l.896-900), without its mutex. -/
structure EventQueue where
  maxSize : Int
  events : List SystemEvent
deriving DecidableEq, Repr

/-- The function `NewEventQueue` (l.902-907); `none` is the panic of `make` at a negative
capacity. -/
def NewEventQueue (size : Int) : Option EventQueue :=
  if size < 0 then none else some { maxSize := size, events := [] }

/-- The method `Add` (l.909-918); `none` is the panic of the slice expression at an index
beyond the length, which takes a negative `maxSize`. -/
def EventQueue.Add (event : SystemEvent) (q : EventQueue) : Option EventQueue :=
  if ((q.events ++ [event]).length : Int) > q.maxSize then
    if ((q.events ++ [event]).length : Int) - q.maxSize > ((q.events ++ [event]).length : Int)
    then none
    else some { q with
      events := (q.events ++ [event]).drop
        (((q.events ++ [event]).length : Int) - q.maxSize).toNat }
  else some { q with events := q.events ++ [event] }

/-- The method `GetAll` (l.920-925). -/
def EventQueue.GetAll (q : EventQueue) : List SystemEvent :=
  q.events

/-- The method `GetEventHistory` (l.891-894), given the field `eventQueue` of the
recorder. -/
def GetEventHistory (eventQueue : EventQueue) : List SystemEvent :=
  eventQueue.GetAll

/-- A sequence of `Add` calls, first event first. -/
def addAll : List SystemEvent → EventQueue → Option EventQueue
  | [], q => some q
  | event :: rest, q => (q.Add event).bind (addAll rest)

/-- The constant `eventQueueSize` (l.24). -/
def eventQueueSize : Int := 10

end Peer

namespace Netflow

/-! ## The netflow manager (client/internal/netflow/manager.go) -/

/-- The fields of `nftypes.FlowConfig` that `manager.go` reads.  The type is declared in
`netflow/types`, which is not among the sources. -/
structure FlowConfig where
  URL : String
  TokenPayload : String
  TokenSignature : String
  Enabled : Bool
  Counters : Bool
deriving DecidableEq, Repr

/-- A client made by `client.NewClient`: the URL it was dialed with and whether `Close`
has been called on it with success. -/
structure GRPCClient where
  url : String
  isOpen : Bool
deriving DecidableEq, Repr

/-- A call `Update` makes on its collaborators. -/
inductive Call where
  | conntrackStart (counters : Bool)
  | conntrackStop
  | loggerEnable
  | loggerDisable
  | newClient (url : String)
  | goReceiveACKs
  | goStartSender
  | clientClose
deriving DecidableEq, Repr

/-- The struct `Manager` (l.21-29): the stored configuration, whether `conntrack` is set,
the field `receiverClient`, and the calls made so far. -/
structure Manager where
  flowConfig : Option FlowConfig
  hasConntrack : Bool
  receiverClient : Option GRPCClient
  calls : List Call
deriving DecidableEq, Repr

/-- What the collaborators answer during one call of `Update`: the error of
`conntrack.Start`, of `client.NewClient` and of `receiverClient.Close`, if any. -/
structure Answers where
  start : Option String
  newClient : Option String
  close : Option String
deriving DecidableEq, Repr

/-- Whether the configuration `previous` of l.55 is set and enabled. -/
def wasEnabled (previous : Option FlowConfig) : Bool :=
  match previous with
  | some c => c.Enabled
  | none => false

/-- The method `Update` (l.49-88): the manager afterwards and the returned error.
`update` is `none` for a `nil` pointer.  A `Close` that answers no error leaves the client
closed; what `Close` does on a `nil` client is left to its answer. -/
def Update (update : Option FlowConfig) (ans : Answers) (m : Manager) :
    Manager × Option String :=
  match update with
  | none => (m, none)
  | some u =>
    let m1 : Manager := { m with flowConfig := some u }
    if u.Enabled then
      match (if m.hasConntrack then ans.start else none) with
      | some err =>
        ({ m1 with calls := m.calls ++ [Call.conntrackStart u.Counters] },
          some ("start conntrack: " ++ err))
      | none =>
        let pre := m.calls ++ (if m.hasConntrack then [Call.conntrackStart u.Counters] else [])
          ++ [Call.loggerEnable]
        if wasEnabled m.flowConfig then ({ m1 with calls := pre }, none)
        else
          match ans.newClient with
          | some err => ({ m1 with calls := pre ++ [Call.newClient u.URL] }, some err)
          | none =>
            ({ m1 with
                receiverClient := some { url := u.URL, isOpen := true }
                calls := pre ++ [Call.newClient u.URL, Call.goReceiveACKs, Call.goStartSender] },
              none)
    else
      let pre := m.calls ++ (if m.hasConntrack then [Call.conntrackStop] else [])
        ++ [Call.loggerDisable]
      if wasEnabled m.flowConfig then
        match ans.close with
        | some err => ({ m1 with calls := pre ++ [Call.clientClose] }, some err)
        | none =>
          ({ m1 with
              receiverClient := m.receiverClient.map (fun c => { c with isOpen := false })
              calls := pre ++ [Call.clientClose] },
            none)
      else ({ m1 with calls := pre }, none)

/-- Whether the manager holds an open receiver client. -/
def Manager.holdsOpenClient (m : Manager) : Bool :=
  match m.receiverClient with
  | some c => c.isOpen
  | none => false

/-- Whether the stored flow configuration is set and enabled. -/
def Manager.enabled (m : Manager) : Bool :=
  wasEnabled m.flowConfig

/-- The manager right after `NewManager` (l.32-46). -/
def NewManager (hasConntrack : Bool) : Manager :=
  { flowConfig := none, hasConntrack := hasConntrack, receiverClient := none, calls := [] }

/-- A sequence of `Update` calls with their answers; the result is the manager and the
error returned by the last call. -/
def updates : List (Option FlowConfig × Answers) → Manager → Manager × Option String
  | [], m => (m, none)
  | [(u, ans)], m => Update u ans m
  | (u, ans) :: rest, m => updates rest (Update u ans m).1

/-- An enabled configuration. -/
def cfgOn : FlowConfig :=
  { URL := "https://flow.example", TokenPayload := "p", TokenSignature := "s",
    Enabled := true, Counters := false }

/-- A disabled configuration. -/
def cfgOff : FlowConfig :=
  { cfgOn with Enabled := false }

/-- Every collaborator answers without error. -/
def allFine : Answers :=
  { start := none, newClient := none, close := none }

/-- The dial of `client.NewClient` fails. -/
def dialFails : Answers :=
  { start := none, newClient := some "connection refused", close := none }

/-- The call `conntrack.Start` fails. -/
def startFails : Answers :=
  { start := some "netlink: permission denied", newClient := none, close := none }

end Netflow

namespace Internal

/-! ## Conversions of management messages (client/internal/message_convert.go) -/

/-- The function `convertToIP` (l.49-59).  The input is `none` for a `nil` slice; the
result is the IP, or the error text. -/
def convertToIP (rawIP : Option (List Nat)) : Except String (List Nat) :=
  match rawIP with
  | none => Except.error "input bytes cannot be nil"
  | some bytes =>
    if bytes.length ≠ 4 ∧ bytes.length ≠ 16 then
      Except.error ("invalid IP length: " ++ toString bytes.length)
    else Except.ok bytes

/-- The message `mgmProto.PortInfo_Range`: `Start` and `End` (both uint32). -/
structure PortRange where
  Start : Nat
  End : Nat
deriving DecidableEq, Repr

/-- The message `mgmProto.PortInfo`, as `convertPortInfo` sees it: what `GetPort()` and
`GetRange()` answer (`none` for `nil`).  The generated type is not among the sources. -/
structure PortInfo where
  GetPort : Nat
  GetRange : Option PortRange
deriving DecidableEq, Repr

/-- The struct `firewallManager.Port`, as `convertPortInfo` fills it: `IsRange` and
`Values`; the package is not among the sources. -/
structure Port where
  IsRange : Bool
  Values : List Int
deriving DecidableEq, Repr

/-- The conversion `int(x)` of an unsigned `x`, `int` being `bits` wide (64, or 32 on a
32-bit platform): the low `bits` bits of `x`, read as a signed number. -/
def toInt (bits : Nat) (x : Nat) : Int :=
  if x % 2 ^ bits < 2 ^ (bits - 1) then ((x % 2 ^ bits : Nat) : Int)
  else ((x % 2 ^ bits : Nat) : Int) - ((2 ^ bits : Nat) : Int)

/-- The function `convertPortInfo` (l.28-47); `none` is the `nil` pointer, `bits` the
width of `int`. -/
def convertPortInfo (bits : Nat) (portInfo : Option PortInfo) : Option Port :=
  match portInfo with
  | none => none
  | some p =>
    if p.GetPort ≠ 0 then some { IsRange := false, Values := [toInt bits p.GetPort] }
    else
      match p.GetRange with
      | some r => some { IsRange := true, Values := [toInt bits r.Start, toInt bits r.End] }
      | none => none

/-- Whether every number of the message is a uint32. -/
def PortInfo.isUint32 (p : PortInfo) : Bool :=
  decide (p.GetPort < 2 ^ 32) &&
    (match p.GetRange with
      | some r => decide (r.Start < 2 ^ 32) && decide (r.End < 2 ^ 32)
      | none => true)

/-! ## The connection manager (client/internal/conn_mgr.go) -/

/-- Modelled from the spec: `peerstore.Store` is not among the sources.  The store maps a
peer key to its connection; `AddPeerConn` answers `false` and changes nothing when the
store already holds a connection for the key, and otherwise stores the connection and
answers `true`. -/
def storeAddPeerConn (store : List (String × Nat)) (peerKey : String) (conn : Nat) :
    List (String × Nat) × Bool :=
  if store.any (fun e => decide (e.1 = peerKey)) then (store, false)
  else ((peerKey, conn) :: store, true)

/-- The struct `ConnMgr` (l.26-34) with what its collaborators were asked to do:
`lazyConnMgr` and `ctxCancel` tell whether the field is set, `opened` lists the
connections on which `Open` was called, `lazyPeers` the keys passed to
`lazyConnMgr.AddPeer`. -/
structure ConnMgr where
  peerStore : List (String × Nat)
  lazyConnMgr : Bool
  ctxCancel : Bool
  opened : List Nat
  lazyPeers : List String
deriving DecidableEq, Repr

/-- The method `isStarted` (l.155-157). -/
def ConnMgr.isStarted (e : ConnMgr) : Bool :=
  e.lazyConnMgr && e.ctxCancel

/-- The method `AddPeerConn` (l.66-96): the manager afterwards and `exists`.  `excluded`
and `err` are what `lazyConnMgr.AddPeer` answers (`err = true` for a non-`nil` error). -/
def ConnMgr.AddPeerConn (peerKey : String) (conn : Nat) (excluded err : Bool) (e : ConnMgr) :
    ConnMgr × Bool :=
  if (storeAddPeerConn e.peerStore peerKey conn).2 = false then (e, true)
  else
    let e1 : ConnMgr := { e with peerStore := (storeAddPeerConn e.peerStore peerKey conn).1 }
    if e.isStarted = false then ({ e1 with opened := e.opened ++ [conn] }, false)
    else
      let e2 : ConnMgr := { e1 with lazyPeers := e.lazyPeers ++ [peerKey] }
      if err then ({ e2 with opened := e.opened ++ [conn] }, false)
      else if excluded then ({ e2 with opened := e.opened ++ [conn] }, false)
      else (e2, false)

/-- A started manager whose store holds connection 1 for `keyA`. -/
def startedMgr : ConnMgr :=
  { peerStore := [("keyA", 1)], lazyConnMgr := true, ctxCancel := true, opened := [],
    lazyPeers := [] }

end Internal

namespace Forwarder

/-! ## Projections of the building blocks -/

@[simp] theorem emit_conns (s : State) (es : List Effect) : (s.emit es).conns = s.conns := rfl
@[simp] theorem emit_flows (s : State) (es : List Effect) : (s.emit es).flows = s.flows := rfl
@[simp] theorem emit_log (s : State) (es : List Effect) : (s.emit es).log = s.log ++ es := rfl
@[simp] theorem emit_idleConns (s : State) (es : List Effect) :
    (s.emit es).idleConns = s.idleConns := rfl
@[simp] theorem emit_idleClosed (s : State) (es : List Effect) :
    (s.emit es).idleClosed = s.idleClosed := rfl
@[simp] theorem emit_stops (s : State) (es : List Effect) : (s.emit es).stops = s.stops := rfl
@[simp] theorem emit_ctxDone (s : State) (es : List Effect) : (s.emit es).ctxDone = s.ctxDone := rfl

theorem Table.delete_delete_filter (t : Table) (id : TransportEndpointID) (ks : List TransportEndpointID) :
    (Table.delete t id).filter (fun e => decide (e.1 ∉ ks))
      = t.filter (fun e => decide (e.1 ∉ id :: ks)) := by
  unfold Table.delete
  rw [List.filter_filter]
  congr 1
  funext e
  by_cases h : e.1 = id <;> simp [h]

theorem stopLoop_conns (es : Table) (s : State) :
    (stopLoop es s).conns = s.conns.filter (fun e => decide (e.1 ∉ es.map Prod.fst)) := by
  induction es generalizing s with
  | nil => simp [stopLoop]
  | cons e rest ih =>
    simp only [stopLoop, ih, List.map_cons]
    exact Table.delete_delete_filter s.conns e.1 (rest.map Prod.fst)

theorem stopLoop_log (es : Table) (s : State) :
    (stopLoop es s).log = s.log ++ es.flatMap (fun e => teardown Site.Stop e.2) := by
  induction es generalizing s with
  | nil => simp [stopLoop]
  | cons e rest ih => simp [stopLoop, ih, List.flatMap_cons]

theorem stopLoop_flows (es : Table) (s : State) : (stopLoop es s).flows = s.flows := by
  induction es generalizing s with
  | nil => rfl
  | cons e rest ih => simp [stopLoop, ih]

theorem stopLocked_conns (s : State) : (stopLocked s).conns = [] := by
  unfold stopLocked
  rw [stopLoop_conns]
  simp only [List.filter_eq_nil_iff]
  intro e he
  simp only [decide_eq_true_eq, not_not]
  exact List.mem_map_of_mem Prod.fst he

theorem stopLocked_log (s : State) :
    (stopLocked s).log = s.log ++ s.conns.flatMap (fun e => teardown Site.Stop e.2) := by
  unfold stopLocked
  rw [stopLoop_log]

/-- C1: after the write-locked section of Stop, and after a whole call of Stop, the flow
table is empty, and every flow that was in the table when the lock was taken has had
its cancel function invoked and Close called on both of its connections (by Stop). -/
theorem Stop_drains (s : State) :
    (stopLocked s).conns = [] ∧ (Stop s).conns = [] ∧
    ∀ e ∈ s.conns,
      (0 < cancelsBy (stopLocked s) Site.Stop e.2 ∧
        0 < closesBy (stopLocked s) Site.Stop (Conn.virt e.2) ∧
        0 < closesBy (stopLocked s) Site.Stop (Conn.real e.2)) ∧
      (0 < cancelsBy (Stop s) Site.Stop e.2 ∧
        0 < closesBy (Stop s) Site.Stop (Conn.virt e.2) ∧
        0 < closesBy (Stop s) Site.Stop (Conn.real e.2)) := by
  refine ⟨stopLocked_conns s, stopLocked_conns _, ?_⟩
  intro e he
  have key : ∀ x ∈ teardown Site.Stop e.2, ∀ t : State, t.conns = s.conns →
      x ∈ (stopLocked t).log := by
    intro x hx t ht
    rw [stopLocked_log, ht]
    apply List.mem_append_right
    exact List.mem_flatMap.mpr ⟨e, he, hx⟩
  simp only [cancelsBy, closesBy, List.count_pos_iff]
  refine ⟨⟨key _ ?_ s rfl, key _ ?_ s rfl, key _ ?_ s rfl⟩,
    ⟨key _ ?_ _ rfl, key _ ?_ _ rfl, key _ ?_ _ rfl⟩⟩ <;> simp [teardown]

/-! ## One reaper tick -/

theorem reaperDrain_spec (q : Table) (s : State) (hq : s.idleConns = q) :
    (reaperDrain q.length s).conns = s.conns.filter (fun e => decide (e.1 ∉ q.map Prod.fst)) ∧
    (reaperDrain q.length s).flows = s.flows ∧
    (reaperDrain q.length s).log = s.log ++ q.flatMap (fun e => teardown Site.cleanup e.2) := by
  induction q generalizing s with
  | nil => simp [reaperDrain]
  | cons e rest ih =>
    have h1 : (reaperDelete (reaperClose s)).idleConns = rest := by
      simp [reaperClose, reaperDelete, hq]
    obtain ⟨hc, hf, hl⟩ := ih (reaperDelete (reaperClose s)) h1
    simp only [List.length_cons, reaperDrain, hc, hf, hl]
    refine ⟨?_, ?_, ?_⟩
    · have : (reaperDelete (reaperClose s)).conns = Table.delete s.conns e.1 := by
        simp [reaperClose, reaperDelete, hq]
      rw [this]
      exact Table.delete_delete_filter s.conns e.1 (rest.map Prod.fst)
    · simp [reaperClose, reaperDelete, hq]
    · simp [reaperClose, reaperDelete, hq, List.flatMap_cons]

theorem isIdle_iff (now : Int) (s : State) (e : TransportEndpointID × Nat) (c : udpPacketConn)
    (hc : s.flows[e.2]? = some c) :
    isIdle now s e = true ↔ now - c.lastSeen > 60 * 1000000000 := by
  simp only [isIdle, hc, getIdleDuration, udpTimeout, maxDuration, minDuration,
    decide_eq_true_eq]
  split_ifs <;> constructor <;> intro h <;> omega

theorem key_mem_filter_of_nodup (t : Table) (hk : (t.map Prod.fst).Nodup)
    (f : TransportEndpointID × Nat → Bool) (e : TransportEndpointID × Nat) (he : e ∈ t) :
    e.1 ∈ (t.filter f).map Prod.fst ↔ f e = true := by
  constructor
  · intro h
    obtain ⟨e1, he1, hk1⟩ := List.mem_map.mp h
    obtain ⟨hm, hf⟩ := List.mem_filter.mp he1
    have : e1 = e := List.inj_on_of_nodup_map hk hm he hk1
    rw [← this]; exact hf
  · intro h
    exact List.mem_map_of_mem Prod.fst (List.mem_filter.mpr ⟨he, h⟩)

theorem Table.get_eq_some_of_mem (t : Table) (hk : (t.map Prod.fst).Nodup)
    (e : TransportEndpointID × Nat) (he : e ∈ t) : t.get e.1 = some e.2 := by
  induction t with
  | nil => simp at he
  | cons x rest ih =>
    obtain ⟨k, p⟩ := x
    simp only [List.map_cons, List.nodup_cons] at hk
    rcases List.mem_cons.mp he with h | h
    · subst h; simp [Table.get]
    · have hne : k ≠ e.1 := by
        intro hEq
        exact hk.1 (hEq ▸ List.mem_map_of_mem Prod.fst h)
      simp [Table.get, hne, ih hk.2 h]

theorem Table.get_eq_none_iff (t : Table) (id : TransportEndpointID) :
    t.get id = none ↔ id ∉ t.map Prod.fst := by
  induction t with
  | nil => simp [Table.get]
  | cons x rest ih =>
    obtain ⟨k, p⟩ := x
    by_cases h : k = id
    · simp [Table.get, h]
    · simp [Table.get, h, ih, Ne.symm h]

/-- C2: one reaper tick at time now, with nothing interleaved, on a table with
one entry per key: no flow object changes; nothing is added to the table; an entry
whose idle time now - lastSeen is above 60 seconds is removed (its key is then
absent), and an entry whose idle time is at most 60 seconds, exactly 60 seconds
included, stays in the table under its key. -/
theorem cleanupTick_evicts (now : Int) (s : State) (hk : (s.conns.map Prod.fst).Nodup) :
    (cleanupTick now s).flows = s.flows ∧
    (∀ e ∈ (cleanupTick now s).conns, e ∈ s.conns) ∧
    ∀ e ∈ s.conns, ∀ c, s.flows[e.2]? = some c →
      (now - c.lastSeen > 60 * 1000000000 →
        e ∉ (cleanupTick now s).conns ∧ (cleanupTick now s).conns.get e.1 = none) ∧
      (now - c.lastSeen ≤ 60 * 1000000000 →
        e ∈ (cleanupTick now s).conns ∧ (cleanupTick now s).conns.get e.1 = some e.2 ∧
          (cleanupTick now s).flows[e.2]? = some c) := by
  obtain ⟨hc, hf, -⟩ := reaperDrain_spec (scan now s).idleConns (scan now s) rfl
  have hc2 : (cleanupTick now s).conns
      = s.conns.filter (fun e => decide (e.1 ∉ (s.conns.filter (isIdle now s)).map Prod.fst)) := hc
  have hf2 : (cleanupTick now s).flows = s.flows := hf
  have hsub : ∀ e ∈ (cleanupTick now s).conns, e ∈ s.conns := by
    intro e he
    rw [hc2] at he
    exact (List.mem_filter.mp he).1
  have hk2 : ((cleanupTick now s).conns.map Prod.fst).Nodup := by
    rw [hc2]
    exact (List.filter_sublist _).map Prod.fst |>.nodup hk
  refine ⟨hf2, hsub, ?_⟩
  intro e he c hcell
  have hidle := isIdle_iff now s e c hcell
  have hmem : e ∈ (cleanupTick now s).conns ↔ ¬ (isIdle now s e = true) := by
    rw [hc2, List.mem_filter]
    simp only [decide_eq_true_eq, he, true_and]
    rw [key_mem_filter_of_nodup s.conns hk (isIdle now s) e he]
  constructor
  · intro hgt
    have hnot : e ∉ (cleanupTick now s).conns := by
      rw [hmem]; simpa using hidle.mpr hgt
    refine ⟨hnot, ?_⟩
    rw [Table.get_eq_none_iff]
    intro hin
    obtain ⟨e1, he1, hk1⟩ := List.mem_map.mp hin
    have : e1 = e := List.inj_on_of_nodup_map hk (hsub e1 he1) he hk1
    exact hnot (this ▸ he1)
  · intro hle
    have hin : e ∈ (cleanupTick now s).conns := by
      rw [hmem, hidle]; omega
    exact ⟨hin, Table.get_eq_some_of_mem _ hk2 e hin, by rw [hf2]; exact hcell⟩

/-- Witness of C2 at 61 s on `twoFlows`: `flowF`, idle for 61 s, is removed and
`flowG`, idle for exactly 60 s, is retained. -/
theorem cleanupTick_evicts_witness :
    (twoFlows.conns.map Prod.fst).Nodup ∧
    (cleanupTick (61 * second) twoFlows).conns.get flowF = none ∧
    (cleanupTick (61 * second) twoFlows).conns.get flowG = some 1 :=
  ⟨by decide,
    (((cleanupTick_evicts (61 * second) twoFlows (by decide)).2.2 (flowF, 0) (by decide)
      { id := flowF, lastSeen := 0, phase := Phase.running } rfl).1 (by decide)).2,
    (((cleanupTick_evicts (61 * second) twoFlows (by decide)).2.2 (flowG, 1) (by decide)
      { id := flowG, lastSeen := 1 * second, phase := Phase.running } rfl).2 (by decide)).2.1⟩

/-! ## Invariant of the machine -/

theorem getElem?_set_of_some {α : Type} (l : List α) (a p : Nat) (c x : α)
    (h : l[a]? = some c) : (l.set a x)[p]? = if p = a then some x else l[p]? := by
  have hlt : a < l.length := by
    by_contra hge
    rw [List.getElem?_eq_none (by omega)] at h
    cases h
  by_cases hpa : p = a
  · subst hpa; simp [hlt]
  · simp [hpa, List.getElem?_set_ne (Ne.symm hpa)]

theorem Table.mem_delete (t : Table) (id : TransportEndpointID) (e : TransportEndpointID × Nat) :
    e ∈ Table.delete t id ↔ e ∈ t ∧ e.1 ≠ id := by
  simp [Table.delete]

theorem Table.delete_sublist (t : Table) (id : TransportEndpointID) :
    List.Sublist (Table.delete t id) t :=
  List.filter_sublist t

theorem inv_init : Inv newUDPForwarder := by
  constructor <;> simp [newUDPForwarder, closesBy]

theorem inv_congr (s t : State) (h : Inv s) (h1 : t.conns = s.conns) (h2 : t.flows = s.flows)
    (h3 : t.idleConns = s.idleConns) (h4 : t.idleClosed = s.idleClosed) (h5 : t.log = s.log) :
    Inv t := by
  obtain ⟨c1, c2, c3, c4, c5, c6, c7, c8⟩ := s
  obtain ⟨d1, d2, d3, d4, d5, d6, d7, d8⟩ := t
  simp only at h1 h2 h3 h4 h5
  subst h1 h2 h3 h4 h5
  obtain ⟨i1, i2, i3, i4, i5, i6, i7, i8, i9, i10, i11⟩ := h
  refine ⟨i1, i2, i3, i4, i5, i6, ?_, i8, i9, i10, i11⟩
  intro p c hc
  obtain ⟨a1, a2, a3, a4, a5, a6, a7, a8, a9, a10, a11, a12, a13, a14, a15, a16, a17⟩ := i7 p c hc
  exact ⟨a1, a2, a3, a4, a5, a6, a7, a8, a9, a10, a11, a12, a13, a14, a15, a16, a17⟩

theorem flowInv_congr (s t : State) (p : Nat) (c c1 : udpPacketConn) (h : FlowInv s p c)
    (hph : c1.phase = c.phase)
    (hcount : ∀ e : Effect, e.target = p → t.log.count e = s.log.count e) : FlowInv t p c1 := by
  obtain ⟨a1, a2, a3, a4, a5, a6, a7, a8, a9, a10, a11, a12, a13, a14, a15, a16, a17⟩ := h
  constructor <;>
    simp only [closesBy, cancelsBy, hph, hcount _ (rfl : (Effect.dial p).target = p),
      hcount _ (rfl : (Effect.createEndpoint p).target = p),
      hcount _ (rfl : (Effect.spawn p).target = p),
      hcount _ (rfl : (Effect.cancel _ p).target = p),
      hcount _ (rfl : (Effect.close _ (Conn.virt p)).target = p),
      hcount _ (rfl : (Effect.close _ (Conn.real p)).target = p)] at * <;> assumption

theorem count_of_target_ne (es : List Effect) (a p : Nat) (e : Effect)
    (hes : ∀ x ∈ es, x.target = a) (he : e.target = p) (hpa : p ≠ a) : es.count e = 0 := by
  rw [List.count_eq_zero]
  intro hmem
  exact hpa (he ▸ hes e hmem)

/-- A step that appends calls about attempt `a` made by `handleUDP` or `proxyUDP` and
rewrites the cell of `a` keeps the invariant, when the new cell agrees with the log. -/
theorem inv_local (s t : State) (a : Nat) (c c1 : udpPacketConn) (es : List Effect) (h : Inv s)
    (hc : s.flows[a]? = some c)
    (h1 : t.conns = s.conns) (h2 : t.flows = s.flows.set a c1)
    (h3 : t.idleConns = s.idleConns) (h4 : t.idleClosed = s.idleClosed)
    (h5 : t.log = s.log ++ es)
    (hid : c1.id = c.id)
    (hes : ∀ x ∈ es, x.target = a)
    (hsite : ∀ k, es.count (Effect.close Site.cleanup k) = 0 ∧
      es.count (Effect.close Site.Stop k) = 0)
    (htab : (c.phase = Phase.inserted ∨ c.phase = Phase.running ∨ c.phase = Phase.closing) →
      a ∈ s.conns.map Prod.snd →
      (c1.phase = Phase.inserted ∨ c1.phase = Phase.running ∨ c1.phase = Phase.closing))
    (hadm : c.phase.entered = true → c1.phase.entered = true)
    (hflow : FlowInv t a c1) : Inv t := by
  have hget : ∀ p, t.flows[p]? = if p = a then some c1 else s.flows[p]? := by
    intro p; rw [h2]; exact getElem?_set_of_some s.flows a p c c1 hc
  have hcl : ∀ k, closesBy t Site.cleanup k = closesBy s Site.cleanup k := by
    intro k; simp [closesBy, h5, (hsite k).1]
  have hst : ∀ k, closesBy t Site.Stop k = closesBy s Site.Stop k := by
    intro k; simp [closesBy, h5, (hsite k).2]
  have halt : a < s.flows.length := by
    by_contra hge
    rw [List.getElem?_eq_none (by omega)] at hc
    cases hc
  constructor
  · rw [h1]; exact h.nodup
  · rw [h1]; exact h.pnodup
  · intro e he
    rw [h1] at he
    obtain ⟨c0, hc0, hid0, hph0⟩ := h.tbl e he
    rw [hget]
    by_cases hpa : e.2 = a
    · rw [hpa] at hc0
      have : c0 = c := by rw [hc] at hc0; exact (Option.some.inj hc0).symm
      subst this
      exact ⟨c1, by simp [hpa], hid.trans hid0,
        htab hph0 (hpa ▸ List.mem_map_of_mem Prod.snd he)⟩
    · exact ⟨c0, by simp [hpa, hc0], hid0, hph0⟩
  · rw [h3]; exact h.qnodup
  · intro e he
    rw [h3] at he
    obtain ⟨c0, hc0, hid0, hph0⟩ := h.que e he
    rw [hget]
    by_cases hpa : e.2 = a
    · rw [hpa] at hc0
      have : c0 = c := by rw [hc] at hc0; exact (Option.some.inj hc0).symm
      subst this
      exact ⟨c1, by simp [hpa], hid.trans hid0, hadm hph0⟩
    · exact ⟨c0, by simp [hpa, hc0], hid0, hph0⟩
  · intro x hx
    rw [h2, List.length_set]
    rw [h5] at hx
    rcases List.mem_append.mp hx with hx | hx
    · exact h.fresh x hx
    · rw [hes x hx]; exact halt
  · intro p c0 hc0
    rw [hget] at hc0
    by_cases hpa : p = a
    · subst hpa
      simp only [if_true] at hc0
      cases hc0
      exact hflow
    · simp only [hpa, if_false] at hc0
      refine flowInv_congr s t p c0 c0 (h.flow p c0 hc0) rfl ?_
      intro e he
      rw [h5, List.count_append, count_of_target_ne es a p e hes he hpa]
      rfl
  · intro e he
    rw [h1] at he
    rw [hst]; exact h.tStop e he
  · intro e he
    rw [h1] at he
    rw [hcl, h3, h4]; exact h.tClean e he
  · intro e he
    rw [h3] at he
    rw [hcl, h3, h4]; exact h.qClean e he
  · rw [h3, h4]
    intro hq e he
    rw [hcl]; exact h.qHead hq e he

theorem phaseOf_eq_some (s : State) (a : Nat) (ph : Phase) (h : s.phaseOf a = some ph) :
    ∃ c, s.flows[a]? = some c ∧ c.phase = ph := by
  unfold State.phaseOf at h
  cases hc : s.flows[a]? with
  | none => rw [hc] at h; cases h
  | some c => rw [hc] at h; exact ⟨c, rfl, Option.some.inj h⟩

@[simp] theorem setPhase_conns (s : State) (a : Nat) (ph : Phase) :
    (s.setPhase a ph).conns = s.conns := by
  unfold State.setPhase; split <;> rfl
@[simp] theorem setPhase_log (s : State) (a : Nat) (ph : Phase) :
    (s.setPhase a ph).log = s.log := by
  unfold State.setPhase; split <;> rfl
@[simp] theorem setPhase_idleConns (s : State) (a : Nat) (ph : Phase) :
    (s.setPhase a ph).idleConns = s.idleConns := by
  unfold State.setPhase; split <;> rfl
@[simp] theorem setPhase_idleClosed (s : State) (a : Nat) (ph : Phase) :
    (s.setPhase a ph).idleClosed = s.idleClosed := by
  unfold State.setPhase; split <;> rfl
@[simp] theorem setPhase_stops (s : State) (a : Nat) (ph : Phase) :
    (s.setPhase a ph).stops = s.stops := by
  unfold State.setPhase; split <;> rfl
@[simp] theorem setPhase_ctxDone (s : State) (a : Nat) (ph : Phase) :
    (s.setPhase a ph).ctxDone = s.ctxDone := by
  unfold State.setPhase; split <;> rfl

theorem setPhase_flows (s : State) (a : Nat) (ph : Phase) (c : udpPacketConn)
    (hc : s.flows[a]? = some c) :
    (s.setPhase a ph).flows = s.flows.set a { c with phase := ph } := by
  unfold State.setPhase; rw [hc]

theorem inv_dialFailed (s : State) (a : Nat) (h : Inv s)
    (hp : s.phaseOf a = some Phase.dialing) : Inv (dialFailed a s) := by
  obtain ⟨c, hc, hph⟩ := phaseOf_eq_some s a _ hp
  refine inv_local s _ a c { c with phase := Phase.dialFailed } [Effect.dial a] h hc
    (by simp [dialFailed]) (by rw [dialFailed, setPhase_flows _ _ _ c (by simpa using hc)]; rfl)
    (by simp [dialFailed]) (by simp [dialFailed]) (by simp [dialFailed]) rfl
    (by simp [Effect.target]) (by simp [List.count_cons])
    (by simp [hph]) (by simp [hph, Phase.entered]) ?_
  obtain ⟨a1, a2, a3, a4, a5, a6, a7, a8, a9, a10, a11, a12, a13, a14, a15, a16, a17⟩ :=
    h.flow a c hc
  simp only [hph, closesBy, cancelsBy] at a1 a2 a3 a4 a5 a6 a7 a8 a9 a10 a11 a12 a13 a14 a15 a16 a17
  constructor <;>
    simp [closesBy, cancelsBy, dialFailed, List.count_cons, Phase.spawned, Phase.deferred,
      Phase.entered, *] at *

theorem inv_endpointFailed (s : State) (a : Nat) (h : Inv s)
    (hp : s.phaseOf a = some Phase.dialing) : Inv (endpointFailed a s) := by
  obtain ⟨c, hc, hph⟩ := phaseOf_eq_some s a _ hp
  refine inv_local s _ a c { c with phase := Phase.epFailed } [Effect.dial a, Effect.createEndpoint a,
    Effect.close Site.handleUDP (Conn.real a)] h hc
    (by simp [endpointFailed]) (by rw [endpointFailed, setPhase_flows _ _ _ c (by simpa using hc)]; rfl)
    (by simp [endpointFailed]) (by simp [endpointFailed]) (by simp [endpointFailed]) rfl
    (by simp [Effect.target, teardown]) (by simp [List.count_cons, teardown])
    (by simp [hph]) (by simp [hph, Phase.entered]) ?_
  obtain ⟨a1, a2, a3, a4, a5, a6, a7, a8, a9, a10, a11, a12, a13, a14, a15, a16, a17⟩ :=
    h.flow a c hc
  simp only [hph, closesBy, cancelsBy] at a1 a2 a3 a4 a5 a6 a7 a8 a9 a10 a11 a12 a13 a14 a15 a16 a17
  constructor <;>
    simp [closesBy, cancelsBy, endpointFailed, teardown, List.count_cons, Phase.spawned, Phase.deferred,
      Phase.entered, *] at *

theorem inv_discard (s : State) (a : Nat) (h : Inv s)
    (hp : s.phaseOf a = some Phase.lost) : Inv (discard a s) := by
  obtain ⟨c, hc, hph⟩ := phaseOf_eq_some s a _ hp
  refine inv_local s _ a c { c with phase := Phase.discarded } (teardown Site.handleUDP a) h hc
    (by simp [discard]) (by rw [discard, setPhase_flows _ _ _ c (by simpa using hc)]; rfl)
    (by simp [discard]) (by simp [discard]) (by simp [discard]) rfl
    (by simp [Effect.target, teardown]) (by simp [List.count_cons, teardown])
    (by simp [hph]) (by simp [hph, Phase.entered]) ?_
  obtain ⟨a1, a2, a3, a4, a5, a6, a7, a8, a9, a10, a11, a12, a13, a14, a15, a16, a17⟩ :=
    h.flow a c hc
  simp only [hph, closesBy, cancelsBy] at a1 a2 a3 a4 a5 a6 a7 a8 a9 a10 a11 a12 a13 a14 a15 a16 a17
  constructor <;>
    simp [closesBy, cancelsBy, discard, teardown, List.count_cons, Phase.spawned, Phase.deferred,
      Phase.entered, *] at *

theorem inv_spawn (s : State) (a : Nat) (h : Inv s)
    (hp : s.phaseOf a = some Phase.inserted) : Inv (spawn a s) := by
  obtain ⟨c, hc, hph⟩ := phaseOf_eq_some s a _ hp
  refine inv_local s _ a c { c with phase := Phase.running } [Effect.spawn a] h hc
    (by simp [spawn]) (by rw [spawn, setPhase_flows _ _ _ c (by simpa using hc)]; rfl)
    (by simp [spawn]) (by simp [spawn]) (by simp [spawn]) rfl
    (by simp [Effect.target, teardown]) (by simp [List.count_cons, teardown])
    (by simp [hph]) (by simp [hph, Phase.entered]) ?_
  obtain ⟨a1, a2, a3, a4, a5, a6, a7, a8, a9, a10, a11, a12, a13, a14, a15, a16, a17⟩ :=
    h.flow a c hc
  simp only [hph, closesBy, cancelsBy] at a1 a2 a3 a4 a5 a6 a7 a8 a9 a10 a11 a12 a13 a14 a15 a16 a17
  constructor <;>
    simp [closesBy, cancelsBy, spawn, teardown, List.count_cons, Phase.spawned, Phase.deferred,
      Phase.entered, *] at *

theorem inv_proxyDefer (s : State) (a : Nat) (h : Inv s)
    (hp : s.phaseOf a = some Phase.running) : Inv (proxyDefer a s) := by
  obtain ⟨c, hc, hph⟩ := phaseOf_eq_some s a _ hp
  refine inv_local s _ a c { c with phase := Phase.closing } (teardown Site.proxyUDP a) h hc
    (by simp [proxyDefer]) (by rw [proxyDefer, setPhase_flows _ _ _ c (by simpa using hc)]; rfl)
    (by simp [proxyDefer]) (by simp [proxyDefer]) (by simp [proxyDefer]) rfl
    (by simp [Effect.target, teardown]) (by simp [List.count_cons, teardown])
    (by simp [hph]) (by simp [hph, Phase.entered]) ?_
  obtain ⟨a1, a2, a3, a4, a5, a6, a7, a8, a9, a10, a11, a12, a13, a14, a15, a16, a17⟩ :=
    h.flow a c hc
  simp only [hph, closesBy, cancelsBy] at a1 a2 a3 a4 a5 a6 a7 a8 a9 a10 a11 a12 a13 a14 a15 a16 a17
  constructor <;>
    simp [closesBy, cancelsBy, proxyDefer, teardown, List.count_cons, Phase.spawned, Phase.deferred,
      Phase.entered, *] at *

theorem inv_updateLastSeen (s : State) (a : Nat) (now : Int) (h : Inv s) :
    Inv (updateLastSeen a now s) := by
  cases hc : s.flows[a]? with
  | none => simpa [updateLastSeen, hc] using h
  | some c =>
    refine inv_local s _ a c { c with lastSeen := now } [] h hc
      (by simp [updateLastSeen, hc]) (by simp [updateLastSeen, hc])
      (by simp [updateLastSeen, hc]) (by simp [updateLastSeen, hc])
      (by simp [updateLastSeen, hc]) rfl
      (by simp) (by simp) (fun h1 _ => h1) (fun h1 => h1) ?_
    exact flowInv_congr s _ a c _ (h.flow a c hc) rfl (by simp [updateLastSeen, hc])

theorem inv_build (s : State) (a : Nat) (now : Int) (h : Inv s)
    (hp : s.phaseOf a = some Phase.dialing) : Inv (build a now s) := by
  obtain ⟨c, hc, hph⟩ := phaseOf_eq_some s a _ hp
  have hfl : (build a now s).flows
      = s.flows.set a { c with lastSeen := now, phase := Phase.built } := by
    have h1 : (updateLastSeen a now (s.emit [Effect.dial a, Effect.createEndpoint a])).flows
        = s.flows.set a { c with lastSeen := now } := by
      simp [updateLastSeen, hc]
    rw [build, setPhase_flows _ _ _ { c with lastSeen := now }
      (by rw [h1, getElem?_set_of_some s.flows a a c _ hc]; simp), h1, List.set_set]
  have hother : (build a now s).conns = s.conns ∧ (build a now s).idleConns = s.idleConns ∧
      (build a now s).idleClosed = s.idleClosed ∧
      (build a now s).log = s.log ++ [Effect.dial a, Effect.createEndpoint a] := by
    simp [build, updateLastSeen, hc]
  refine inv_local s _ a c { c with lastSeen := now, phase := Phase.built }
    [Effect.dial a, Effect.createEndpoint a] h hc hother.1 hfl hother.2.1 hother.2.2.1
    hother.2.2.2 rfl
    (by simp [Effect.target]) (by simp [List.count_cons])
    (by simp [hph]) (by simp [hph, Phase.entered]) ?_
  obtain ⟨a1, a2, a3, a4, a5, a6, a7, a8, a9, a10, a11, a12, a13, a14, a15, a16, a17⟩ :=
    h.flow a c hc
  simp only [hph, closesBy, cancelsBy] at a1 a2 a3 a4 a5 a6 a7 a8 a9 a10 a11 a12 a13 a14 a15 a16 a17
  constructor <;>
    simp [closesBy, cancelsBy, hother.2.2.2, List.count_cons, Phase.spawned, Phase.deferred,
      Phase.entered, *] at *

theorem count_eq_zero_of_fresh (s : State) (h : Inv s) (e : Effect)
    (he : s.flows.length ≤ e.target) : s.log.count e = 0 := by
  rw [List.count_eq_zero]
  intro hmem
  have := h.fresh e hmem
  omega

theorem inv_lookup (s : State) (id : TransportEndpointID) (h : Inv s) : Inv (lookup id s) := by
  unfold lookup
  split
  · exact h
  split
  · exact h
  have hget : ∀ (p : Nat) (c : udpPacketConn), s.flows[p]? = some c →
      (s.flows ++ [({ id := id, lastSeen := 0, phase := Phase.dialing } : udpPacketConn)])[p]?
        = some c := by
    intro p c hc
    have hlt : p < s.flows.length := by
      by_contra hge
      rw [List.getElem?_eq_none (by omega)] at hc
      cases hc
    rw [List.getElem?_append_left hlt]; exact hc
  constructor
  · exact h.nodup
  · exact h.pnodup
  · intro e he
    obtain ⟨c, hc, hr⟩ := h.tbl e he
    exact ⟨c, hget _ _ hc, hr⟩
  · exact h.qnodup
  · intro e he
    obtain ⟨c, hc, hr⟩ := h.que e he
    exact ⟨c, hget _ _ hc, hr⟩
  · intro x hx
    have := h.fresh x hx
    simp only [List.length_append, List.length_singleton]
    omega
  · intro p c hc
    simp only at hc
    by_cases hlt : p < s.flows.length
    · rw [List.getElem?_append_left hlt] at hc
      exact flowInv_congr s _ p c c (h.flow p c hc) rfl (fun _ _ => rfl)
    · have hz : ∀ e : Effect, e.target = p → s.log.count e = 0 := fun e he =>
        count_eq_zero_of_fresh s h e (by omega)
      have hcell : c = { id := id, lastSeen := 0, phase := Phase.dialing } := by
        rw [List.getElem?_append_right (by omega)] at hc
        have hp0 : p - s.flows.length = 0 := by
          by_contra hne
          rw [List.getElem?_eq_none (by simp; omega)] at hc
          cases hc
        rw [hp0] at hc
        simpa using hc.symm
      subst hcell
      constructor <;>
        simp [closesBy, cancelsBy, Phase.spawned, Phase.deferred, Phase.entered,
          hz _ (rfl : (Effect.dial p).target = p),
          hz _ (rfl : (Effect.createEndpoint p).target = p),
          hz _ (rfl : (Effect.spawn p).target = p),
          hz _ (rfl : (Effect.cancel _ p).target = p),
          hz _ (rfl : (Effect.close _ (Conn.virt p)).target = p),
          hz _ (rfl : (Effect.close _ (Conn.real p)).target = p)]
  · exact h.tStop
  · exact h.tClean
  · exact h.qClean
  · exact h.qHead

theorem FlowInv.of_log_eq (s t : State) (p : Nat) (c : udpPacketConn) (h : FlowInv s p c)
    (hl : t.log = s.log) : FlowInv t p c :=
  flowInv_congr s t p c c h rfl (fun _ _ => by rw [hl])

theorem inv_table_delete (s : State) (id : TransportEndpointID) (h : Inv s) :
    Inv { s with conns := Table.delete s.conns id } := by
  have hsub : ∀ e ∈ Table.delete s.conns id, e ∈ s.conns := fun e he =>
    ((Table.mem_delete _ _ _).mp he).1
  constructor
  · exact ((Table.delete_sublist s.conns id).map Prod.fst).nodup h.nodup
  · exact ((Table.delete_sublist s.conns id).map Prod.snd).nodup h.pnodup
  · intro e he; exact h.tbl e (hsub e he)
  · exact h.qnodup
  · exact h.que
  · exact h.fresh
  · intro p c hc; exact FlowInv.of_log_eq s _ p c (h.flow p c hc) rfl
  · intro e he; exact h.tStop e (hsub e he)
  · intro e he; exact h.tClean e (hsub e he)
  · exact h.qClean
  · exact h.qHead

theorem inv_table_cons (s : State) (id : TransportEndpointID) (a : Nat) (c : udpPacketConn)
    (h : Inv s) (hc : s.flows[a]? = some c) (hid : c.id = id) (hph : c.phase = Phase.inserted)
    (hk : id ∉ s.conns.map Prod.fst) (hp : a ∉ s.conns.map Prod.snd)
    (hs : closesBy s Site.Stop (Conn.virt a) = 0)
    (hcl : closesBy s Site.cleanup (Conn.virt a) = 0) :
    Inv { s with conns := (id, a) :: s.conns } := by
  constructor
  · simpa using ⟨by simpa using hk, h.nodup⟩
  · simpa using ⟨by simpa using hp, h.pnodup⟩
  · intro e he
    rcases List.mem_cons.mp he with he | he
    · subst he; exact ⟨c, hc, hid, Or.inl hph⟩
    · exact h.tbl e he
  · exact h.qnodup
  · exact h.que
  · exact h.fresh
  · intro p c0 hc0; exact FlowInv.of_log_eq s _ p c0 (h.flow p c0 hc0) rfl
  · intro e he
    rcases List.mem_cons.mp he with he | he
    · subst he; exact hs
    · exact h.tStop e he
  · intro e he hone
    rcases List.mem_cons.mp he with he | he
    · subst he
      have : closesBy s Site.cleanup (Conn.virt a) = 1 := hone
      omega
    · exact h.tClean e he hone
  · exact h.qClean
  · exact h.qHead

theorem Table.delete_eq_self (t : Table) (id : TransportEndpointID) (h : t.get id = none) :
    Table.delete t id = t := by
  rw [Table.get_eq_none_iff] at h
  unfold Table.delete
  rw [List.filter_eq_self]
  intro e he
  simp only [ne_eq, decide_eq_true_eq]
  intro hEq
  exact h (hEq ▸ List.mem_map_of_mem Prod.fst he)

theorem not_mem_ptrs_of_phase (s : State) (h : Inv s) (a : Nat) (c : udpPacketConn)
    (hc : s.flows[a]? = some c)
    (hph : ¬ (c.phase = Phase.inserted ∨ c.phase = Phase.running ∨ c.phase = Phase.closing)) :
    a ∉ s.conns.map Prod.snd := by
  intro hmem
  obtain ⟨e, he, hea⟩ := List.mem_map.mp hmem
  obtain ⟨c0, hc0, -, hph0⟩ := h.tbl e he
  rw [hea, hc] at hc0
  cases hc0
  exact hph hph0

theorem inv_insertLocked (s : State) (a : Nat) (h : Inv s)
    (hp : s.phaseOf a = some Phase.built) : Inv (insertLocked a s) := by
  obtain ⟨c, hc, hph⟩ := phaseOf_eq_some s a _ hp
  have hfl := h.flow a c hc
  unfold insertLocked
  rw [hc]
  simp only
  split
  · refine inv_local s _ a c { c with phase := Phase.lost } [] h hc
      (by simp) (by rw [setPhase_flows _ _ _ c hc]) (by simp) (by simp) (by simp) rfl
      (by simp) (by simp) (by simp [hph]) (by simp [hph, Phase.entered]) ?_
    obtain ⟨a1, a2, a3, a4, a5, a6, a7, a8, a9, a10, a11, a12, a13, a14, a15, a16, a17⟩ := hfl
    simp only [hph, closesBy, cancelsBy] at a1 a2 a3 a4 a5 a6 a7 a8 a9 a10 a11 a12 a13 a14 a15 a16 a17
    constructor <;>
      simp [closesBy, cancelsBy, Phase.spawned, Phase.deferred, Phase.entered, *] at *
  · rename_i habs
    have hnone : s.conns.get c.id = none := by
      cases hg : s.conns.get c.id with
      | none => rfl
      | some q => simp [hg] at habs
    have h1 : Inv (s.setPhase a Phase.inserted) := by
      refine inv_local s _ a c { c with phase := Phase.inserted } [] h hc
        (by simp) (by rw [setPhase_flows _ _ _ c hc]) (by simp) (by simp) (by simp) rfl
        (by simp) (by simp) (by simp) (by simp [Phase.entered]) ?_
      obtain ⟨a1, a2, a3, a4, a5, a6, a7, a8, a9, a10, a11, a12, a13, a14, a15, a16, a17⟩ := hfl
      simp only [hph, closesBy, cancelsBy] at a1 a2 a3 a4 a5 a6 a7 a8 a9 a10 a11 a12 a13 a14 a15 a16 a17
      constructor <;>
        simp [closesBy, cancelsBy, Phase.spawned, Phase.deferred, Phase.entered, *] at *
    have hc1 : (s.setPhase a Phase.inserted).flows[a]? = some { c with phase := Phase.inserted } := by
      rw [setPhase_flows _ _ _ c hc, getElem?_set_of_some s.flows a a c _ hc]; simp
    have hcz := hfl.cZero (by simp [hph, Phase.entered])
    have hsz := hfl.sZero (by simp [hph, Phase.entered])
    have h2 := inv_table_cons (s.setPhase a Phase.inserted) c.id a _ h1 hc1 rfl rfl
      (by simpa using (Table.get_eq_none_iff s.conns c.id).mp hnone)
      (by simpa using not_mem_ptrs_of_phase s h a c hc (by simp [hph]))
      (by simpa [closesBy] using hsz) (by simpa [closesBy] using hcz)
    refine inv_congr _ _ h2 ?_ ?_ ?_ ?_ ?_
    · simp [Table.set, Table.delete_eq_self _ _ hnone]
    · simp [State.setPhase, hc]
    · simp
    · simp
    · simp

theorem inv_proxyDelete (s : State) (a : Nat) (h : Inv s)
    (hp : s.phaseOf a = some Phase.closing) : Inv (proxyDelete a s) := by
  obtain ⟨c, hc, hph⟩ := phaseOf_eq_some s a _ hp
  have hfl := h.flow a c hc
  have h1 := inv_table_delete s c.id h
  unfold proxyDelete
  rw [hc]
  simp only
  refine inv_local _ _ a c { c with phase := Phase.finished } [] h1 hc
    (by simp) (setPhase_flows _ _ _ c hc) (by simp) (by simp) (by simp) rfl
    (by simp) (by simp) ?_ (by simp [Phase.entered]) ?_
  · intro _ hmem
    exfalso
    obtain ⟨e, he, hea⟩ := List.mem_map.mp hmem
    obtain ⟨he1, hne⟩ := (Table.mem_delete _ _ _).mp he
    obtain ⟨c0, hc0, hid0, -⟩ := h.tbl e he1
    rw [hea, hc] at hc0
    cases hc0
    exact hne hid0.symm
  · obtain ⟨a1, a2, a3, a4, a5, a6, a7, a8, a9, a10, a11, a12, a13, a14, a15, a16, a17⟩ := hfl
    simp only [hph, closesBy, cancelsBy] at a1 a2 a3 a4 a5 a6 a7 a8 a9 a10 a11 a12 a13 a14 a15 a16 a17
    constructor <;>
      simp [closesBy, cancelsBy, Phase.spawned, Phase.deferred, Phase.entered, *] at *

theorem inv_scan (s : State) (now : Int) (h : Inv s) (hq : s.idleConns = []) :
    Inv (scan now s) := by
  have hsub : ∀ e ∈ s.conns.filter (isIdle now s), e ∈ s.conns := fun e he =>
    (List.mem_filter.mp he).1
  constructor
  · exact h.nodup
  · exact h.pnodup
  · exact h.tbl
  · exact ((List.filter_sublist s.conns).map Prod.snd).nodup h.pnodup
  · intro e he
    obtain ⟨c, hc, hid, hph⟩ := h.tbl e (hsub e he)
    refine ⟨c, hc, hid, ?_⟩
    rcases hph with hph | hph | hph <;> simp [hph, Phase.entered]
  · exact h.fresh
  · intro p c hc; exact FlowInv.of_log_eq s _ p c (h.flow p c hc) rfl
  · exact h.tStop
  · intro e he hone
    have := (h.tClean e he hone).2
    simp [hq] at this
  · intro e he hone
    have := (h.tClean e (hsub e he) hone).2
    simp [hq] at this
  · intro hcl
    simp [scan] at hcl

theorem inv_reaperDelete (s : State) (h : Inv s) (hq : s.idleConns ≠ []) :
    Inv (reaperDelete s) := by
  unfold reaperDelete
  cases hQ : s.idleConns with
  | nil => exact absurd hQ hq
  | cons e rest =>
    simp only
    have h1 := inv_table_delete s e.1 h
    have hnd := h.qnodup
    rw [hQ] at hnd
    simp only [List.map_cons, List.nodup_cons] at hnd
    constructor
    · exact h1.nodup
    · exact h1.pnodup
    · exact h1.tbl
    · exact hnd.2
    · intro x hx
      exact h.que x (by rw [hQ]; exact List.mem_cons_of_mem _ hx)
    · exact h.fresh
    · intro p c hc; exact FlowInv.of_log_eq s _ p c (h.flow p c hc) rfl
    · exact h1.tStop
    · intro x hx hone
      exfalso
      obtain ⟨hx1, hne⟩ := (Table.mem_delete _ _ _).mp hx
      have := (h.tClean x hx1 hone).2
      rw [hQ] at this
      simp only [List.head?_cons, Option.some.injEq] at this
      exact hne (by rw [this])
    · intro x hx hone
      exfalso
      have := (h.qClean x (by rw [hQ]; exact List.mem_cons_of_mem _ hx) hone).2
      rw [hQ] at this
      simp only [List.head?_cons, Option.some.injEq] at this
      exact hnd.1 (this ▸ List.mem_map_of_mem Prod.snd hx)
    · intro hcl
      simp at hcl

theorem inv_reaperClose (s : State) (h : Inv s) (hq : s.idleConns ≠ [])
    (hcl : s.idleClosed = false) : Inv (reaperClose s) := by
  unfold reaperClose
  cases hQ : s.idleConns with
  | nil => exact absurd hQ hq
  | cons e rest =>
    simp only
    obtain ⟨ce, hce, hide, hpe⟩ := h.que e (by rw [hQ]; exact List.mem_cons_self _ _)
    have hzero : closesBy s Site.cleanup (Conn.virt e.2) = 0 := by
      have hle := (h.flow e.2 ce hce).cLe
      by_contra hne
      have hone : closesBy s Site.cleanup (Conn.virt e.2) = 1 := by omega
      have := (h.qClean e (by rw [hQ]; exact List.mem_cons_self _ _) hone).1
      rw [hcl] at this
      cases this
    have hcnt : ∀ k, closesBy { s.emit (teardown Site.cleanup e.2) with idleClosed := true }
        Site.cleanup (Conn.virt k) = closesBy s Site.cleanup (Conn.virt k)
          + if k = e.2 then 1 else 0 := by
      intro k
      by_cases hk : k = e.2 <;> simp [closesBy, teardown, List.count_cons, hk, eq_comm]
    have hsame : ∀ x ∈ s.conns ++ s.idleConns, x.2 = e.2 → x = e := by
      intro x hx hxe
      have : ∃ c, s.flows[x.2]? = some c ∧ c.id = x.1 := by
        rcases List.mem_append.mp hx with hx | hx
        · obtain ⟨c, hc, hid, -⟩ := h.tbl x hx; exact ⟨c, hc, hid⟩
        · obtain ⟨c, hc, hid, -⟩ := h.que x hx; exact ⟨c, hc, hid⟩
      obtain ⟨c, hc, hid⟩ := this
      rw [hxe, hce] at hc
      cases hc
      exact Prod.ext (hid.symm.trans hide) hxe
    have hlt : e.2 < s.flows.length := by
      by_contra hge
      rw [List.getElem?_eq_none (by omega)] at hce
      cases hce
    constructor
    · exact h.nodup
    · exact h.pnodup
    · exact h.tbl
    · exact h.qnodup
    · exact h.que
    · intro x hx
      simp only [emit_log, List.mem_append] at hx
      rcases hx with hx | hx
      · exact h.fresh x hx
      · simp only [teardown, List.mem_cons, List.mem_singleton, List.not_mem_nil, or_false] at hx
        rcases hx with hx | hx | hx <;> subst hx <;> exact hlt
    · intro p c hc
      have hc : s.flows[p]? = some c := hc
      by_cases hpe : p = e.2
      · subst hpe
        rw [hce] at hc
        cases hc
        obtain ⟨a1, a2, a3, a4, a5, a6, a7, a8, a9, a10, a11, a12, a13, a14, a15, a16, a17⟩ :=
          h.flow e.2 ce hce
        simp only [closesBy, cancelsBy] at hzero a1 a2 a3 a4 a5 a6 a7 a8 a9 a10 a11 a12 a13 a14 a15 a16 a17
        clear hcnt hsame h hq hcl hQ hlt hce hide
        constructor <;>
          simp [closesBy, cancelsBy, teardown, List.count_cons, hpe, *] at *
      · refine flowInv_congr s _ p c c (h.flow p c hc) rfl ?_
        intro x hx
        simp only [emit_log, List.count_append]
        rw [count_of_target_ne (teardown Site.cleanup e.2) e.2 p x (by simp [teardown, Effect.target])
          hx hpe]
        rfl
    · intro x hx
      have := h.tStop x hx
      simpa [closesBy, teardown, List.count_cons] using this
    · intro x hx hone
      rw [hcnt] at hone
      by_cases hxe : x.2 = e.2
      · have := hsame x (List.mem_append_left _ hx) hxe
        subst this
        simp [hQ]
      · simp only [hxe, if_false, Nat.add_zero] at hone
        have := (h.tClean x hx hone).1
        rw [hcl] at this; cases this
    · intro x hx hone
      rw [hcnt] at hone
      by_cases hxe : x.2 = e.2
      · have := hsame x (List.mem_append_right _ hx) hxe
        subst this
        simp [hQ]
      · simp only [hxe, if_false, Nat.add_zero] at hone
        have := (h.qClean x hx hone).1
        rw [hcl] at this; cases this
    · intro _ x hx
      simp only [emit_idleConns, hQ, List.head?_cons, Option.some.injEq] at hx
      subst hx
      rw [hcnt, hzero]; simp

theorem stopLoop_idleConns (es : Table) (s : State) :
    (stopLoop es s).idleConns = s.idleConns := by
  induction es generalizing s with
  | nil => rfl
  | cons e rest ih => simp [stopLoop, ih]

theorem stopLoop_idleClosed (es : Table) (s : State) :
    (stopLoop es s).idleClosed = s.idleClosed := by
  induction es generalizing s with
  | nil => rfl
  | cons e rest ih => simp [stopLoop, ih]

theorem count_stop_calls (t : Table) (p : Nat) :
    (t.flatMap (fun e => teardown Site.Stop e.2)).count (Effect.cancel Site.Stop p)
      = (t.map Prod.snd).count p ∧
    (t.flatMap (fun e => teardown Site.Stop e.2)).count (Effect.close Site.Stop (Conn.virt p))
      = (t.map Prod.snd).count p ∧
    (t.flatMap (fun e => teardown Site.Stop e.2)).count (Effect.close Site.Stop (Conn.real p))
      = (t.map Prod.snd).count p := by
  induction t with
  | nil => simp
  | cons e rest ih =>
    obtain ⟨i1, i2, i3⟩ := ih
    simp only [List.flatMap_cons, List.count_append, List.map_cons, i1, i2, i3]
    by_cases hp : e.2 = p
    · simp [teardown, List.count_cons, hp]
      omega
    · simp [teardown, List.count_cons, hp]

theorem count_stop_other (t : Table) (x : Effect)
    (hx : ∀ p, x ≠ Effect.cancel Site.Stop p ∧ x ≠ Effect.close Site.Stop (Conn.virt p) ∧
      x ≠ Effect.close Site.Stop (Conn.real p)) :
    (t.flatMap (fun e => teardown Site.Stop e.2)).count x = 0 := by
  rw [List.count_eq_zero]
  intro hmem
  obtain ⟨e, -, he⟩ := List.mem_flatMap.mp hmem
  simp only [teardown, List.mem_cons, List.mem_singleton, List.not_mem_nil, or_false] at he
  rcases he with he | he | he
  · exact (hx e.2).1 he
  · exact (hx e.2).2.1 he
  · exact (hx e.2).2.2 he

theorem inv_stopLocked (s : State) (h : Inv s) : Inv (stopLocked s) := by
  have hconns := stopLocked_conns s
  have hlog := stopLocked_log s
  have hflows : (stopLocked s).flows = s.flows := by
    unfold stopLocked; rw [stopLoop_flows]
  have hq : (stopLocked s).idleConns = s.idleConns := by
    unfold stopLocked; rw [stopLoop_idleConns]
  have hqc : (stopLocked s).idleClosed = s.idleClosed := by
    unfold stopLocked; rw [stopLoop_idleClosed]
  have hclean : ∀ k, closesBy (stopLocked s) Site.cleanup k = closesBy s Site.cleanup k := by
    intro k
    simp only [closesBy, hlog, List.count_append]
    rw [count_stop_other s.conns _ (by simp)]
    rfl
  constructor
  · rw [hconns]; simp
  · rw [hconns]; simp
  · rw [hconns]; simp
  · rw [hq]; exact h.qnodup
  · rw [hq, hflows]; exact h.que
  · intro x hx
    rw [hflows]
    rw [hlog] at hx
    rcases List.mem_append.mp hx with hx | hx
    · exact h.fresh x hx
    · obtain ⟨e, he, hxe⟩ := List.mem_flatMap.mp hx
      obtain ⟨c, hc, -⟩ := h.tbl e he
      have hlt : e.2 < s.flows.length := by
        by_contra hge
        rw [List.getElem?_eq_none (by omega)] at hc
        cases hc
      simp only [teardown, List.mem_cons, List.mem_singleton, List.not_mem_nil, or_false] at hxe
      rcases hxe with hxe | hxe | hxe <;> subst hxe <;> exact hlt
  · intro p c hc
    rw [hflows] at hc
    obtain ⟨a1, a2, a3, a4, a5, a6, a7, a8, a9, a10, a11, a12, a13, a14, a15, a16, a17⟩ :=
      h.flow p c hc
    obtain ⟨k1, k2, k3⟩ := count_stop_calls s.conns p
    have hcount : (s.conns.map Prod.snd).count p ≤ 1 := List.nodup_iff_count_le_one.mp h.pnodup p
    have hin : p ∈ s.conns.map Prod.snd → closesBy s Site.Stop (Conn.virt p) = 0 ∧
        c.phase.entered = true := by
      intro hmem
      obtain ⟨e, he, hep⟩ := List.mem_map.mp hmem
      obtain ⟨c0, hc0, -, hph0⟩ := h.tbl e he
      rw [hep, hc] at hc0
      cases hc0
      refine ⟨hep ▸ h.tStop e he, ?_⟩
      rcases hph0 with hph | hph | hph <;> simp [hph, Phase.entered]
    have hout : p ∉ s.conns.map Prod.snd → (s.conns.map Prod.snd).count p = 0 :=
      fun hn => List.count_eq_zero.mpr hn
    simp only [closesBy, cancelsBy] at a1 a2 a3 a4 a5 a6 a7 a8 a9 a10 a11 a12 a13 a14 a15 a16 a17 hin
    constructor
    · simp only [hlog, List.count_append]; rw [count_stop_other s.conns _ (by simp)]; exact a1
    · simp only [hlog, List.count_append]; rw [count_stop_other s.conns _ (by simp)]; exact a2
    · simp only [hlog, List.count_append]; rw [count_stop_other s.conns _ (by simp)]; exact a3
    · simp only [cancelsBy, hlog, List.count_append]
      rw [count_stop_other s.conns _ (by simp)]; exact a4
    · simp only [closesBy, hlog, List.count_append]
      rw [count_stop_other s.conns _ (by simp)]; exact a5
    · simp only [closesBy, hlog, List.count_append]
      rw [count_stop_other s.conns _ (by simp)]; exact a6
    · simp only [cancelsBy, hlog, List.count_append]
      rw [count_stop_other s.conns _ (by simp)]; exact a7
    · simp only [closesBy, hlog, List.count_append]
      rw [count_stop_other s.conns _ (by simp)]; exact a8
    · simp only [closesBy, hlog, List.count_append]
      rw [count_stop_other s.conns _ (by simp)]; exact a9
    · simp only [closesBy, cancelsBy, hlog, List.count_append]
      rw [count_stop_other s.conns _ (by simp), count_stop_other s.conns _ (by simp)]; exact a10
    · simp only [closesBy, hlog, List.count_append]
      rw [count_stop_other s.conns _ (by simp), count_stop_other s.conns _ (by simp)]; exact a11
    · simp only [closesBy, hlog, List.count_append]
      rw [count_stop_other s.conns _ (by simp)]; exact a12
    · intro hadm
      simp only [closesBy, hlog, List.count_append]
      rw [count_stop_other s.conns _ (by simp)]; exact a13 hadm
    · simp only [closesBy, cancelsBy, hlog, List.count_append, k1, k2]; omega
    · simp only [closesBy, hlog, List.count_append, k2, k3]; omega
    · simp only [closesBy, hlog, List.count_append, k2]
      by_cases hmem : p ∈ s.conns.map Prod.snd
      · have := (hin hmem).1; omega
      · have := hout hmem; omega
    · intro hadm
      simp only [closesBy, hlog, List.count_append, k2]
      have hmem : p ∉ s.conns.map Prod.snd := by
        intro hmem
        have := (hin hmem).2
        rw [hadm] at this; cases this
      have := hout hmem
      have := a17 hadm
      omega
  · rw [hconns]; simp
  · rw [hconns]; simp
  · intro e he hone
    rw [hq] at he
    rw [hclean] at hone
    rw [hq, hqc]
    exact h.qClean e he hone
  · rw [hq, hqc]
    intro hcl e he
    rw [hclean]
    exact h.qHead hcl e he

theorem inv_step (a : Action) (s t : State) (h : Inv s) (hst : step a s = some t) : Inv t := by
  cases a with
  | ctxCancel =>
    simp only [step, Option.some.injEq] at hst; subst hst
    exact inv_congr s _ h rfl rfl rfl rfl rfl
  | lookup id =>
    simp only [step, Option.some.injEq] at hst; subst hst
    exact inv_lookup s id h
  | dialFailed a =>
    simp only [step] at hst; split at hst <;> try cases hst
    exact inv_dialFailed s a h (by assumption)
  | endpointFailed a =>
    simp only [step] at hst; split at hst <;> try cases hst
    exact inv_endpointFailed s a h (by assumption)
  | build a now =>
    simp only [step] at hst; split at hst <;> try cases hst
    exact inv_build s a now h (by assumption)
  | insertLocked a =>
    simp only [step] at hst; split at hst <;> try cases hst
    exact inv_insertLocked s a h (by assumption)
  | discard a =>
    simp only [step] at hst; split at hst <;> try cases hst
    exact inv_discard s a h (by assumption)
  | spawn a =>
    simp only [step] at hst; split at hst <;> try cases hst
    exact inv_spawn s a h (by assumption)
  | updateLastSeen p now =>
    simp only [step] at hst; split at hst <;> try cases hst
    exact inv_updateLastSeen s p now h
  | proxyDefer p =>
    simp only [step] at hst; split at hst <;> try cases hst
    exact inv_proxyDefer s p h (by assumption)
  | proxyDelete p =>
    simp only [step] at hst; split at hst <;> try cases hst
    exact inv_proxyDelete s p h (by assumption)
  | scan now =>
    simp only [step] at hst; split at hst <;> try cases hst
    exact inv_scan s now h (by assumption)
  | reaperClose =>
    simp only [step] at hst; split at hst <;> try cases hst
    rename_i hg
    exact inv_reaperClose s h hg.1 hg.2
  | reaperDelete =>
    simp only [step] at hst; split at hst <;> try cases hst
    rename_i hg
    exact inv_reaperDelete s h hg.1
  | stopCancel =>
    simp only [step, Option.some.injEq] at hst; subst hst
    exact inv_congr s _ h rfl rfl rfl rfl rfl
  | stopLocked =>
    simp only [step] at hst; split at hst <;> try cases hst
    exact inv_stopLocked s h

theorem inv_of_reachable (s : State) (h : Reachable s) : Inv s := by
  induction h with
  | init => exact inv_init
  | step a s t _ hst ih => exact inv_step a s t ih hst

theorem reachable_of_run (acts : List Action) (s t : State) (hs : Reachable s)
    (h : run acts s = some t) : Reachable t := by
  induction acts generalizing s with
  | nil => simp only [run, Option.some.injEq] at h; exact h ▸ hs
  | cons a rest ih =>
    simp only [run] at h
    cases hst : step a s with
    | none => rw [hst] at h; cases h
    | some u =>
      rw [hst] at h
      exact ih u (Reachable.step a s u hs hst) h


/-! ## Presence in the table of a flow that nobody tore down -/

theorem Table.mem_of_get_eq_some (t : Table) (id : TransportEndpointID) (p : Nat)
    (h : t.get id = some p) : (id, p) ∈ t := by
  induction t with
  | nil => simp [Table.get] at h
  | cons x rest ih =>
    obtain ⟨k, q⟩ := x
    by_cases hk : k = id
    · simp only [Table.get, hk, if_true, Option.some.injEq] at h
      subst hk h
      exact List.mem_cons_self _ _
    · simp only [Table.get, hk, if_false] at h
      exact List.mem_cons_of_mem _ (ih h)

theorem Table.delete_cons (k : TransportEndpointID) (q : Nat) (rest : Table)
    (id : TransportEndpointID) :
    Table.delete ((k, q) :: rest) id
      = if k = id then Table.delete rest id else (k, q) :: Table.delete rest id := by
  unfold Table.delete
  by_cases h : k = id <;> simp [List.filter_cons, h]

theorem Table.get_delete_ne (t : Table) (id k : TransportEndpointID) (h : k ≠ id) :
    (Table.delete t id).get k = t.get k := by
  induction t with
  | nil => rfl
  | cons x rest ih =>
    obtain ⟨k1, q⟩ := x
    rw [Table.delete_cons]
    by_cases h1 : k1 = id
    · have h2 : ¬ k1 = k := fun hh => h (hh ▸ h1)
      rw [if_pos h1, ih]
      simp [Table.get, h2]
    · rw [if_neg h1]
      by_cases h2 : k1 = k
      · simp [Table.get, h2]
      · simp [Table.get, h2, ih]

theorem Table.get_set_self (t : Table) (id : TransportEndpointID) (p : Nat) :
    (Table.set t id p).get id = some p := by
  simp [Table.set, Table.get]

theorem Table.get_set_ne (t : Table) (id k : TransportEndpointID) (p : Nat) (h : k ≠ id) :
    (Table.set t id p).get k = t.get k := by
  simp [Table.set, Table.get, Ne.symm h, Table.get_delete_ne t id k h]

theorem cancelsBy_mono (s t : State) (es : List Effect) (hl : t.log = s.log ++ es)
    (site : Site) (q : Nat) (h : cancelsBy t site q = 0) : cancelsBy s site q = 0 := by
  simp only [cancelsBy, hl, List.count_append] at h ⊢
  omega

/-- A step that leaves the table alone, rewrites at most the cell of `a` keeping its
key, and turns no cell into an inserted or running one, keeps `Conv`. -/
theorem conv_local (s t : State) (a : Nat) (c c1 : udpPacketConn) (es : List Effect)
    (h : Conv s) (hc : s.flows[a]? = some c)
    (h1 : t.conns = s.conns) (h2 : t.flows = s.flows.set a c1) (h5 : t.log = s.log ++ es)
    (hid : c1.id = c.id)
    (hph : (c1.phase = Phase.inserted ∨ c1.phase = Phase.running) →
      (c.phase = Phase.inserted ∨ c.phase = Phase.running)) : Conv t := by
  have hget : ∀ p, t.flows[p]? = if p = a then some c1 else s.flows[p]? := by
    intro p; rw [h2]; exact getElem?_set_of_some s.flows a p c c1 hc
  intro p cp hcp hphp hno
  have hno2 : ∀ (q : Nat) (cq : udpPacketConn), s.flows[q]? = some cq → cq.id = cp.id →
      ∀ site, cancelsBy s site q = 0 := by
    intro q cq hcq hidq site
    by_cases hqa : q = a
    · subst hqa
      rw [hc] at hcq; cases hcq
      exact cancelsBy_mono s t es h5 site q (hno q c1 (by rw [hget]; simp) (hid.trans hidq) site)
    · exact cancelsBy_mono s t es h5 site q (hno q cq (by rw [hget]; simp [hqa, hcq]) hidq site)
  rw [h1]
  rw [hget] at hcp
  by_cases hpa : p = a
  · subst hpa
    simp only [if_true, Option.some.injEq] at hcp
    subst hcp
    rw [hid]
    exact h p c hc (hph hphp) (fun q cq hcq hidq => hno2 q cq hcq (hidq.trans hid.symm))
  · simp only [hpa, if_false] at hcp
    exact h p cp hcp hphp hno2

/-- A step that changes neither the flows nor the table keeps `Conv`. -/
theorem conv_mono (s t : State) (es : List Effect) (h : Conv s)
    (h1 : t.conns = s.conns) (h2 : t.flows = s.flows) (h5 : t.log = s.log ++ es) : Conv t := by
  intro p cp hcp hphp hno
  rw [h2] at hcp
  rw [h1]
  exact h p cp hcp hphp (fun q cq hcq hidq site =>
    cancelsBy_mono s t es h5 site q (hno q cq (by rw [h2]; exact hcq) hidq site))

theorem conv_setPhase (s : State) (a : Nat) (ph : Phase) (es : List Effect) (h : Conv s)
    (hph : (ph = Phase.inserted ∨ ph = Phase.running) →
      (s.phaseOf a = some Phase.inserted ∨ s.phaseOf a = some Phase.running)) :
    Conv ((s.emit es).setPhase a ph) := by
  cases hc : s.flows[a]? with
  | none =>
    refine conv_mono s _ es h (by simp) ?_ (by simp)
    simp [State.setPhase, hc]
  | some c =>
    refine conv_local s _ a c { c with phase := ph } es h hc (by simp)
      (by rw [setPhase_flows _ _ _ c (by simpa using hc)]; rfl) (by simp) rfl ?_
    intro h1
    simpa [State.phaseOf, hc] using hph h1

theorem conv_lookup (s : State) (id : TransportEndpointID) (h : Conv s) : Conv (lookup id s) := by
  unfold lookup
  split
  · exact h
  split
  · exact h
  intro p cp hcp hphp hno
  simp only at hcp hno ⊢
  have hlift : ∀ (q : Nat) (cq : udpPacketConn), s.flows[q]? = some cq →
      (s.flows ++ [({ id := id, lastSeen := 0, phase := Phase.dialing } : udpPacketConn)])[q]?
        = some cq := by
    intro q cq hcq
    have hlt : q < s.flows.length := by
      by_contra hge
      rw [List.getElem?_eq_none (by omega)] at hcq
      cases hcq
    rw [List.getElem?_append_left hlt]; exact hcq
  by_cases hlt : p < s.flows.length
  · rw [List.getElem?_append_left hlt] at hcp
    exact h p cp hcp hphp (fun q cq hcq hidq site => hno q cq (hlift q cq hcq) hidq site)
  · exfalso
    rw [List.getElem?_append_right (by omega)] at hcp
    have hp0 : p - s.flows.length = 0 := by
      by_contra hne
      rw [List.getElem?_eq_none (by simp; omega)] at hcp
      cases hcp
    rw [hp0] at hcp
    simp only [List.getElem?_cons_zero, Option.some.injEq] at hcp
    subst hcp
    rcases hphp with h1 | h1 <;> cases h1

theorem build_flows (s : State) (a : Nat) (now : Int) (c : udpPacketConn)
    (hc : s.flows[a]? = some c) :
    (build a now s).flows = s.flows.set a { c with lastSeen := now, phase := Phase.built } := by
  have h1 : (updateLastSeen a now (s.emit [Effect.dial a, Effect.createEndpoint a])).flows
      = s.flows.set a { c with lastSeen := now } := by
    simp [updateLastSeen, hc]
  rw [build, setPhase_flows _ _ _ { c with lastSeen := now }
    (by rw [h1, getElem?_set_of_some s.flows a a c _ hc]; simp), h1, List.set_set]

theorem build_rest (s : State) (a : Nat) (now : Int) :
    (build a now s).conns = s.conns ∧ (build a now s).idleConns = s.idleConns ∧
    (build a now s).idleClosed = s.idleClosed ∧
    (build a now s).log = s.log ++ [Effect.dial a, Effect.createEndpoint a] := by
  cases hc : s.flows[a]? <;> simp [build, updateLastSeen, hc]

theorem conv_step (a : Action) (s t : State) (hI : Inv s) (h : Conv s)
    (hst : step a s = some t) : Conv t := by
  cases a with
  | ctxCancel =>
    simp only [step, Option.some.injEq] at hst; subst hst
    exact conv_mono s _ [] h rfl rfl (by simp)
  | lookup id =>
    simp only [step, Option.some.injEq] at hst; subst hst
    exact conv_lookup s id h
  | dialFailed a =>
    simp only [step] at hst; split at hst <;> try cases hst
    exact conv_setPhase s a _ _ h (by simp)
  | endpointFailed a =>
    simp only [step] at hst; split at hst <;> try cases hst
    exact conv_setPhase s a _ _ h (by simp)
  | build a now =>
    simp only [step] at hst; split at hst <;> try cases hst
    rename_i hg
    obtain ⟨c, hc, -⟩ := phaseOf_eq_some s a _ hg
    exact conv_local s _ a c _ _ h hc (build_rest s a now).1 (build_flows s a now c hc)
      (build_rest s a now).2.2.2 rfl (by simp)
  | insertLocked a =>
    simp only [step] at hst; split at hst <;> try cases hst
    rename_i hg
    obtain ⟨c, hc, hph⟩ := phaseOf_eq_some s a _ hg
    unfold insertLocked
    rw [hc]
    simp only
    split
    · exact conv_local s _ a c { c with phase := Phase.lost } [] h hc (by simp)
        (setPhase_flows _ _ _ c hc) (by simp) rfl (by simp)
    · rename_i habs
      have hnone : s.conns.get c.id = none := by
        cases hg : s.conns.get c.id with
        | none => rfl
        | some q => simp [hg] at habs
      intro p cp hcp hphp hno
      have hfl : ({ s with conns := s.conns.set c.id a }.setPhase a Phase.inserted).flows
          = s.flows.set a { c with phase := Phase.inserted } := setPhase_flows _ _ _ c hc
      rw [hfl, getElem?_set_of_some s.flows a p c _ hc] at hcp
      simp only [setPhase_conns]
      by_cases hpa : p = a
      · subst hpa
        simp only [if_true, Option.some.injEq] at hcp
        subst hcp
        exact Table.get_set_self _ _ _
      · simp only [hpa, if_false] at hcp
        have hno2 : ∀ (q : Nat) (cq : udpPacketConn), s.flows[q]? = some cq → cq.id = cp.id →
            ∀ site, cancelsBy s site q = 0 := by
          intro q cq hcq hidq site
          have := hno q (if q = a then { c with phase := Phase.inserted } else cq)
            (by rw [hfl, getElem?_set_of_some s.flows a q c _ hc]
                by_cases hqa : q = a
                · simp [hqa]
                · simp [hqa, hcq])
            (by by_cases hqa : q = a
                · subst hqa; rw [hc] at hcq; cases hcq; simpa using hidq
                · simpa [hqa] using hidq) site
          simpa [cancelsBy] using this
        have hget := h p cp hcp hphp hno2
        have hne : cp.id ≠ c.id := by
          intro hEq
          rw [hEq, hnone] at hget
          cases hget
        rw [Table.get_set_ne _ _ _ _ hne]
        exact hget
  | discard a =>
    simp only [step] at hst; split at hst <;> try cases hst
    exact conv_setPhase s a _ _ h (by simp)
  | spawn a =>
    simp only [step] at hst; split at hst <;> try cases hst
    rename_i hg
    exact conv_setPhase s a _ _ h (fun _ => Or.inl hg)
  | updateLastSeen p now =>
    simp only [step] at hst; split at hst <;> try cases hst
    cases hc : s.flows[p]? with
    | none => simpa [updateLastSeen, hc] using h
    | some c =>
      exact conv_local s _ p c { c with lastSeen := now } [] h hc
        (by simp [updateLastSeen, hc]) (by simp [updateLastSeen, hc])
        (by simp [updateLastSeen, hc]) rfl (fun h1 => h1)
  | proxyDefer p =>
    simp only [step] at hst; split at hst <;> try cases hst
    exact conv_setPhase s p _ _ h (by simp)
  | proxyDelete a =>
    simp only [step] at hst; split at hst <;> try cases hst
    rename_i hg
    obtain ⟨c, hc, hph⟩ := phaseOf_eq_some s a _ hg
    unfold proxyDelete
    rw [hc]
    simp only
    intro p cp hcp hphp hno
    have hfl : ({ s with conns := Table.delete s.conns c.id }.setPhase a Phase.finished).flows
        = s.flows.set a { c with phase := Phase.finished } := setPhase_flows _ _ _ c hc
    have hcancel : cancelsBy s Site.proxyUDP a = 1 := by
      have := (hI.flow a c hc).pCancel
      simpa [hph, Phase.deferred] using this
    rw [hfl, getElem?_set_of_some s.flows a p c _ hc] at hcp
    simp only [setPhase_conns]
    by_cases hpa : p = a
    · subst hpa
      simp only [if_true, Option.some.injEq] at hcp
      subst hcp
      rcases hphp with h1 | h1 <;> cases h1
    · simp only [hpa, if_false] at hcp
      have hno2 : ∀ (q : Nat) (cq : udpPacketConn), s.flows[q]? = some cq → cq.id = cp.id →
          ∀ site, cancelsBy s site q = 0 := by
        intro q cq hcq hidq site
        have := hno q (if q = a then { c with phase := Phase.finished } else cq)
          (by rw [hfl, getElem?_set_of_some s.flows a q c _ hc]
              by_cases hqa : q = a
              · simp [hqa]
              · simp [hqa, hcq])
          (by by_cases hqa : q = a
              · subst hqa; rw [hc] at hcq; cases hcq; simpa using hidq
              · simpa [hqa] using hidq) site
        simpa [cancelsBy] using this
      have hget := h p cp hcp hphp hno2
      have hne : cp.id ≠ c.id := by
        intro hEq
        have := hno2 a c hc hEq.symm Site.proxyUDP
        omega
      rw [Table.get_delete_ne _ _ _ hne]
      exact hget
  | scan now =>
    simp only [step] at hst; split at hst <;> try cases hst
    exact conv_mono s _ [] h rfl rfl (by simp [scan])
  | reaperClose =>
    simp only [step] at hst; split at hst <;> try cases hst
    unfold reaperClose
    split
    · exact h
    · exact conv_mono s _ _ h rfl rfl rfl
  | reaperDelete =>
    simp only [step] at hst; split at hst <;> try cases hst
    rename_i hg
    unfold reaperDelete
    cases hQ : s.idleConns with
    | nil => exact h
    | cons e rest =>
      simp only
      intro p cp hcp hphp hno
      have hcp : s.flows[p]? = some cp := hcp
      have hget := h p cp hcp hphp (fun q cq hcq hidq site => hno q cq hcq hidq site)
      obtain ⟨ce, hce, hide, -⟩ := hI.que e (by rw [hQ]; exact List.mem_cons_self _ _)
      have hone := hI.qHead hg.2 e (by rw [hQ]; rfl)
      have hcancel : cancelsBy s Site.cleanup e.2 = 1 := by
        rw [(hI.flow e.2 ce hce).cCancel]; exact hone
      have hne : cp.id ≠ e.1 := by
        intro hEq
        have : cancelsBy s Site.cleanup e.2 = 0 := hno e.2 ce hce (hide.trans hEq.symm) Site.cleanup
        omega
      show (Table.delete s.conns e.1).get cp.id = some p
      rw [Table.get_delete_ne _ _ _ hne]
      exact hget
  | stopCancel =>
    simp only [step, Option.some.injEq] at hst; subst hst
    exact conv_mono s _ [] h rfl rfl (by simp [stopCancel])
  | stopLocked =>
    simp only [step] at hst; split at hst <;> try cases hst
    intro p cp hcp hphp hno
    exfalso
    have hflows : (stopLocked s).flows = s.flows := by
      unfold stopLocked; rw [stopLoop_flows]
    rw [hflows] at hcp
    have hno2 : ∀ (q : Nat) (cq : udpPacketConn), s.flows[q]? = some cq → cq.id = cp.id →
        ∀ site, cancelsBy (stopLocked s) site q = 0 :=
      fun q cq hcq hidq site => hno q cq (by rw [hflows]; exact hcq) hidq site
    have hget := h p cp hcp hphp (fun q cq hcq hidq site =>
      cancelsBy_mono s _ _ (stopLocked_log s) site q (hno2 q cq hcq hidq site))
    have hmem := Table.mem_of_get_eq_some _ _ _ hget
    have hz := hno2 p cp hcp rfl Site.Stop
    simp only [cancelsBy, stopLocked_log, List.count_append,
      (count_stop_calls s.conns p).1] at hz
    have hpos : 0 < (s.conns.map Prod.snd).count p :=
      List.count_pos_iff.mpr (List.mem_map_of_mem Prod.snd hmem)
    omega

theorem conv_of_reachable (s : State) (h : Reachable s) : Conv s := by
  induction h with
  | init => intro p c hc; simp [newUDPForwarder] at hc
  | step a s t hs hst ih => exact conv_step a s t (inv_of_reachable s hs) ih hst
/-! ## Teardown: how often and where connections are closed -/

theorem reachable_after (acts : List Action) : Reachable (after acts) := by
  unfold after
  cases h : run acts newUDPForwarder with
  | none => exact Reachable.init
  | some t => exact reachable_of_run acts _ t Reachable.init h

theorem closes_of_deferred (s : State) (hI : Inv s) (p : Nat) (c : udpPacketConn)
    (hc : s.flows[p]? = some c) (hph : c.phase.deferred = true) :
    closesBy s Site.handleUDP (Conn.virt p) = 0 ∧ closesBy s Site.handleUDP (Conn.real p) = 0 ∧
    closesBy s Site.proxyUDP (Conn.virt p) = 1 ∧ closesBy s Site.proxyUDP (Conn.real p) = 1 := by
  have hf := hI.flow p c hc
  have h1 := hf.hVirt
  have h2 := hf.hReal
  have h3 := hf.pVirt
  have h4 := hf.pReal
  cases hp : c.phase <;> simp [hp, Phase.deferred] at hph h1 h2 h3 h4 <;> exact ⟨h1, h2, h3, h4⟩

/-- C3, counterexample: the reaper evicts `flowF` and then its relay exits.  Flow 0 has
finished, and Close was called twice on each of its connections: once by `cleanup`
(l.106, l.109) and once by the deferred function of `proxyUDP` (l.192, l.195). -/
theorem close_called_twice_after_eviction :
    (run evictedThenExited newUDPForwarder).map (fun s =>
      (s.phaseOf 0, closesBy s Site.cleanup (Conn.virt 0), closesBy s Site.proxyUDP (Conn.virt 0),
        closes s (Conn.virt 0), closes s (Conn.real 0)))
      = some (some Phase.finished, 1, 1, 2, 2) := by
  decide

/-- C3, amended: in every reachable state, for a flow whose `proxyUDP` has run its
deferred teardown (every exit path ends there), the deferred teardown called Close
exactly once on each connection, `cleanup` and `Stop` each called Close at most once and
equally often on both connections, `handleUDP` never did; so both connections got the
same number of Close calls, one plus the calls of `cleanup` and `Stop`, between one and
three. -/
theorem close_calls_on_exit (s : State) (hr : Reachable s) (p : Nat) (c : udpPacketConn)
    (hc : s.flows[p]? = some c) (hph : c.phase.deferred = true) :
    closesBy s Site.proxyUDP (Conn.virt p) = 1 ∧ closesBy s Site.proxyUDP (Conn.real p) = 1 ∧
    closesBy s Site.cleanup (Conn.real p) = closesBy s Site.cleanup (Conn.virt p) ∧
    closesBy s Site.cleanup (Conn.virt p) ≤ 1 ∧
    closesBy s Site.Stop (Conn.real p) = closesBy s Site.Stop (Conn.virt p) ∧
    closesBy s Site.Stop (Conn.virt p) ≤ 1 ∧
    closesBy s Site.handleUDP (Conn.virt p) = 0 ∧ closesBy s Site.handleUDP (Conn.real p) = 0 ∧
    closes s (Conn.virt p)
      = 1 + closesBy s Site.cleanup (Conn.virt p) + closesBy s Site.Stop (Conn.virt p) ∧
    closes s (Conn.real p) = closes s (Conn.virt p) ∧
    1 ≤ closes s (Conn.virt p) ∧ closes s (Conn.virt p) ≤ 3 := by
  have hI := inv_of_reachable s hr
  have hf := hI.flow p c hc
  obtain ⟨h1, h2, h3, h4⟩ := closes_of_deferred s hI p c hc hph
  have h5 := hf.cReal
  have h6 := hf.cLe
  have h7 := hf.sReal
  have h8 := hf.sLe
  refine ⟨h3, h4, h5, h6, h7, h8, h1, h2, ?_, ?_, ?_, ?_⟩ <;> simp only [closes] <;> omega

/-- Witness of C3 (amended) on the state after `evictedThenExited`, flow 0. -/
theorem close_calls_on_exit_witness :
    Reachable (after evictedThenExited) ∧
    closesBy (after evictedThenExited) Site.proxyUDP (Conn.virt 0) = 1 ∧
    closes (after evictedThenExited) (Conn.virt 0) ≤ 3 :=
  ⟨reachable_after _,
    (close_calls_on_exit (after evictedThenExited) (reachable_after _) 0
      { id := flowF, lastSeen := 0, phase := Phase.finished } (by decide) (by decide)).1,
    (close_calls_on_exit (after evictedThenExited) (reachable_after _) 0
      { id := flowF, lastSeen := 0, phase := Phase.finished } (by decide) (by decide)).2.2.2.2.2.2.2.2.2.2.2⟩

/-- C4, counterexample: between l.111 and l.113 of `cleanup`, and between l.197 and
l.199 of `proxyUDP`, a lookup of `flowF` finds flow 0 although Close has been called on
both of its connections. -/
theorem closed_entry_observable :
    (run reaperClosed newUDPForwarder).map (fun s =>
      (s.conns.get flowF, closes s (Conn.virt 0), closes s (Conn.real 0))) = some (some 0, 1, 1) ∧
    (run proxyClosed newUDPForwarder).map (fun s =>
      (s.conns.get flowF, closes s (Conn.virt 0), closes s (Conn.real 0))) = some (some 0, 1, 1) := by
  decide

/-- C4, amended: in every reachable state, an entry that a lookup finds was never closed
by `Stop` nor by `handleUDP`, and either none of its connections has been closed, or its
own `proxyUDP` stands between its Close calls and its delete (l.197-199), or `cleanup`
stands between its Close calls on this entry and its delete (l.111-113). -/
theorem closed_entry_is_in_teardown (s : State) (hr : Reachable s) (id : TransportEndpointID)
    (p : Nat) (hg : s.conns.get id = some p) :
    closesBy s Site.Stop (Conn.virt p) = 0 ∧ closesBy s Site.Stop (Conn.real p) = 0 ∧
    closesBy s Site.handleUDP (Conn.virt p) = 0 ∧ closesBy s Site.handleUDP (Conn.real p) = 0 ∧
    ((closes s (Conn.virt p) = 0 ∧ closes s (Conn.real p) = 0) ∨
      s.phaseOf p = some Phase.closing ∨
      (s.idleClosed = true ∧ s.idleConns.head? = some (id, p))) := by
  have hI := inv_of_reachable s hr
  have hmem := Table.mem_of_get_eq_some _ _ _ hg
  obtain ⟨c, hc, -, hph⟩ := hI.tbl (id, p) hmem
  have hf := hI.flow p c hc
  have hs : closesBy s Site.Stop (Conn.virt p) = 0 := hI.tStop (id, p) hmem
  have hs2 : closesBy s Site.Stop (Conn.real p) = 0 := by rw [hf.sReal]; exact hs
  have hcl := hI.tClean (id, p) hmem
  have h1 := hf.hVirt
  have h2 := hf.hReal
  have h3 := hf.pVirt
  have h4 := hf.pReal
  have h5 := hf.cReal
  have h6 := hf.cLe
  have hh : closesBy s Site.handleUDP (Conn.virt p) = 0 ∧
      closesBy s Site.handleUDP (Conn.real p) = 0 := by
    rcases hph with hp | hp | hp <;> simp [hp] at h1 h2 <;> exact ⟨h1, h2⟩
  refine ⟨hs, hs2, hh.1, hh.2, ?_⟩
  by_cases hclosing : c.phase = Phase.closing
  · exact Or.inr (Or.inl (by simp [State.phaseOf, hc, hclosing]))
  · have hp0 : closesBy s Site.proxyUDP (Conn.virt p) = 0 ∧
        closesBy s Site.proxyUDP (Conn.real p) = 0 := by
      rcases hph with hp | hp | hp
      · simp [hp, Phase.deferred] at h3 h4; exact ⟨h3, h4⟩
      · simp [hp, Phase.deferred] at h3 h4; exact ⟨h3, h4⟩
      · exact absurd hp hclosing
    by_cases hone : closesBy s Site.cleanup (Conn.virt p) = 1
    · exact Or.inr (Or.inr (hcl hone))
    · refine Or.inl ⟨?_, ?_⟩ <;> simp only [closes] <;> omega

/-- Witness of C4 (amended) on the state after `reaperClosed`: the entry of `flowF` is
closed and is the one `cleanup` is about to delete. -/
theorem closed_entry_is_in_teardown_witness :
    Reachable (after reaperClosed) ∧
    ((closes (after reaperClosed) (Conn.virt 0) = 0 ∧
        closes (after reaperClosed) (Conn.real 0) = 0) ∨
      (after reaperClosed).phaseOf 0 = some Phase.closing ∨
      ((after reaperClosed).idleClosed = true ∧
        (after reaperClosed).idleConns.head? = some (flowF, 0))) :=
  ⟨reachable_after _,
    (closed_entry_is_in_teardown (after reaperClosed) (reachable_after _) flowF 0
      (by decide)).2.2.2.2⟩

/-- C5, counterexample: (1) right after the reaper evicted `flowF`, its relay (flow 0)
is running and the key is absent; (2) after `staleDelete`, the later flow 1 of the same
key is running, nobody invoked its cancel function or closed its connections, and the
key is absent: the deferred delete of flow 0 (l.200) removed the entry of flow 1. -/
theorem table_misses_running_flow :
    (run evicted newUDPForwarder).map (fun s => (s.conns.get flowF, s.phaseOf 0))
      = some (none, some Phase.running) ∧
    (run staleDelete newUDPForwarder).map (fun s =>
      (s.conns.get flowF, s.phaseOf 1,
        cancelsBy s Site.handleUDP 1 + cancelsBy s Site.proxyUDP 1 + cancelsBy s Site.cleanup 1
          + cancelsBy s Site.Stop 1,
        closes s (Conn.virt 1) + closes s (Conn.real 1)))
      = some (none, some Phase.running, 0, 0) := by
  decide

/-- C5, amended: in every reachable state, (1) a key present in the table maps to a
flow of that key that `handleUDP` inserted and whose `proxyUDP` has not returned;
(2) a flow that was inserted and whose relay has not begun its teardown is in the table
under its key as long as no cancel function of any flow of the same key has been
invoked. -/
theorem table_entry_is_live (s : State) (hr : Reachable s) :
    (∀ (id : TransportEndpointID) (p : Nat), s.conns.get id = some p →
      ∃ c, s.flows[p]? = some c ∧ c.id = id ∧
        (c.phase = Phase.inserted ∨ c.phase = Phase.running ∨ c.phase = Phase.closing)) ∧
    (∀ (p : Nat) (c : udpPacketConn), s.flows[p]? = some c →
      (c.phase = Phase.inserted ∨ c.phase = Phase.running) →
      (∀ (q : Nat) (c1 : udpPacketConn), s.flows[q]? = some c1 → c1.id = c.id →
        ∀ site, cancelsBy s site q = 0) →
      s.conns.get c.id = some p) :=
  ⟨fun id p hg => (inv_of_reachable s hr).tbl (id, p) (Table.mem_of_get_eq_some _ _ _ hg),
    conv_of_reachable s hr⟩

/-- Witness of C5 (amended) on the state after `startF`. -/
theorem table_entry_is_live_witness :
    Reachable (after startF) ∧
    ∃ c, (after startF).flows[0]? = some c ∧ c.id = flowF ∧
      (c.phase = Phase.inserted ∨ c.phase = Phase.running ∨ c.phase = Phase.closing) :=
  ⟨reachable_after _, (table_entry_is_live (after startF) (reachable_after _)).1 flowF 0
    (by decide)⟩
/-! ## handleUDP -/

theorem setPhase_phaseOf (s : State) (a : Nat) (ph : Phase) (c : udpPacketConn)
    (hc : s.flows[a]? = some c) : (s.setPhase a ph).phaseOf a = some ph := by
  simp [State.phaseOf, setPhase_flows s a ph c hc, getElem?_set_of_some s.flows a a c _ hc]

/-- C6: in a reachable state where attempt `a` has built its flow and the table already
holds flow `q` under the same key at the re-check of l.171, the write-locked section
leaves the table as it is, and the cleanup of l.173-179 invokes the cancel function of
`a` and calls Close on both connections of `a` (once each, the only Close calls they
ever got); no relay is started for `a` and `handleUDP` has returned.  The key still
maps to `q`, another flow, and occurs once in the table. -/
theorem handleUDP_discards_duplicate (s : State) (hr : Reachable s) (a q : Nat)
    (c : udpPacketConn) (hc : s.flows[a]? = some c) (hph : c.phase = Phase.built)
    (hq : s.conns.get c.id = some q) :
    step (Action.insertLocked a) s = some (insertLocked a s) ∧
    (insertLocked a s).conns = s.conns ∧
    (insertLocked a s).phaseOf a = some Phase.lost ∧
    step (Action.discard a) (insertLocked a s) = some (discard a (insertLocked a s)) ∧
    (discard a (insertLocked a s)).conns = s.conns ∧
    (discard a (insertLocked a s)).conns.get c.id = some q ∧ q ≠ a ∧
    ((discard a (insertLocked a s)).conns.map Prod.fst).count c.id = 1 ∧
    (discard a (insertLocked a s)).log = s.log ++ [Effect.cancel Site.handleUDP a,
      Effect.close Site.handleUDP (Conn.virt a), Effect.close Site.handleUDP (Conn.real a)] ∧
    cancelsBy (discard a (insertLocked a s)) Site.handleUDP a = 1 ∧
    closes (discard a (insertLocked a s)) (Conn.virt a) = 1 ∧
    closes (discard a (insertLocked a s)) (Conn.real a) = 1 ∧
    (discard a (insertLocked a s)).log.count (Effect.spawn a) = 0 ∧
    (discard a (insertLocked a s)).phaseOf a = some Phase.discarded ∧
    step (Action.spawn a) (discard a (insertLocked a s)) = none := by
  have hI := inv_of_reachable s hr
  have hpa : s.phaseOf a = some Phase.built := by simp [State.phaseOf, hc, hph]
  have hins : insertLocked a s = s.setPhase a Phase.lost := by
    simp [insertLocked, hc, hq]
  have hlost : (insertLocked a s).phaseOf a = some Phase.lost := by
    rw [hins]; exact setPhase_phaseOf s a _ c hc
  have hI2 : Inv (insertLocked a s) := inv_insertLocked s a hI hpa
  have hI3 : Inv (discard a (insertLocked a s)) := inv_discard _ a hI2 hlost
  have hc2 : (insertLocked a s).flows[a]? = some { c with phase := Phase.lost } := by
    rw [hins, setPhase_flows s a _ c hc, getElem?_set_of_some s.flows a a c _ hc]; simp
  have hc3 : (discard a (insertLocked a s)).flows[a]?
      = some { c with phase := Phase.discarded } := by
    rw [discard, setPhase_flows _ a _ { c with phase := Phase.lost } (by simpa using hc2),
      getElem?_set_of_some _ a a { c with phase := Phase.lost } _ (by simpa using hc2)]
    simp
  have hconns : (discard a (insertLocked a s)).conns = s.conns := by
    simp [discard, hins]
  have hlog : (discard a (insertLocked a s)).log = s.log ++ teardown Site.handleUDP a := by
    simp [discard, hins]
  have hmem := Table.mem_of_get_eq_some _ _ _ hq
  have hqa : q ≠ a := by
    intro hEq
    obtain ⟨c0, hc0, -, hph0⟩ := hI.tbl _ hmem
    rw [show ((c.id, q) : TransportEndpointID × Nat).2 = a from hEq, hc] at hc0
    cases hc0
    rw [hph] at hph0
    rcases hph0 with h1 | h1 | h1 <;> cases h1
  have hf3 := hI3.flow a _ hc3
  have hcz := hf3.cZero (by simp [Phase.entered])
  have hsz := hf3.sZero (by simp [Phase.entered])
  have h1 := hf3.hVirt
  have h2 := hf3.hReal
  have h3 := hf3.pVirt
  have h4 := hf3.pReal
  have h5 := hf3.cReal
  have h6 := hf3.sReal
  have h7 := hf3.spawn
  have h8 := hf3.hCancel
  simp [Phase.deferred, Phase.spawned] at h1 h2 h3 h4 h7 h8
  refine ⟨by simp [step, hpa], by simp [hins], hlost, by simp [step, hlost], hconns,
    by rw [hconns]; exact hq, hqa, ?_, hlog, h8, ?_, ?_, h7, ?_, ?_⟩
  · rw [hconns]
    exact List.count_eq_one_of_mem hI.nodup (List.mem_map_of_mem Prod.fst hmem)
  · simp only [closes]; omega
  · simp only [closes]; omega
  · simp [State.phaseOf, hc3]
  · simp [step, State.phaseOf, hc3]

/-- Witness of C6: two calls of `handleUDP` for `flowF` pass the lookup before either
inserts; attempt 0 inserts first, attempt 1 finds the duplicate. -/
theorem handleUDP_discards_duplicate_witness :
    Reachable (after [Action.lookup flowF, Action.lookup flowF, Action.build 0 0,
      Action.build 1 0, Action.insertLocked 0]) ∧
    (discard 1 (insertLocked 1 (after [Action.lookup flowF, Action.lookup flowF,
      Action.build 0 0, Action.build 1 0, Action.insertLocked 0]))).conns.get flowF = some 0 ∧
    closes (discard 1 (insertLocked 1 (after [Action.lookup flowF, Action.lookup flowF,
      Action.build 0 0, Action.build 1 0, Action.insertLocked 0]))) (Conn.real 1) = 1 :=
  ⟨reachable_after _,
    (handleUDP_discards_duplicate _ (reachable_after _) 1 0
      { id := flowF, lastSeen := 0, phase := Phase.built } (by decide) rfl (by decide)).2.2.2.2.2.1,
    (handleUDP_discards_duplicate _ (reachable_after _) 1 0
      { id := flowF, lastSeen := 0, phase := Phase.built } (by decide) rfl
      (by decide)).2.2.2.2.2.2.2.2.2.2.2.1⟩

/-- C7: when the lifetime context is cancelled, or the key is present at the lookup of
l.133-135, `handleUDP` returns the state it was called in: nothing is logged (no dial,
no endpoint creation, no relay start), no attempt is recorded and the table is the
same. -/
theorem handleUDP_drops (s : State) (id : TransportEndpointID) (r : DialResult) (now : Int)
    (h : s.ctxDone = true ∨ (s.conns.get id).isSome = true) :
    handleUDP id r now s = s ∧ lookup id s = s ∧ step (Action.lookup id) s = some s := by
  have h1 : lookup id s = s := by
    unfold lookup
    rcases h with h | h
    · simp [h]
    · simp [h]
  refine ⟨?_, h1, by simp [step, h1]⟩
  unfold handleUDP
  rcases h with h | h
  · simp [h]
  · simp [h]

/-- Witness of C7: a second packet of `flowF` after `startF`, and a packet after the
lifetime context was cancelled. -/
theorem handleUDP_drops_witness :
    handleUDP flowF DialResult.ok (5 * second) (after startF) = after startF ∧
    handleUDP flowG DialResult.ok (5 * second) (after [Action.ctxCancel])
      = after [Action.ctxCancel] :=
  ⟨(handleUDP_drops (after startF) flowF DialResult.ok (5 * second) (Or.inr (by decide))).1,
    (handleUDP_drops (after [Action.ctxCancel]) flowG DialResult.ok (5 * second)
      (Or.inl (by decide))).1⟩
theorem lookup_new (s : State) (id : TransportEndpointID) (hctx : s.ctxDone = false)
    (habs : s.conns.get id = none) :
    lookup id s = { s with flows := s.flows ++ [{ id := id, lastSeen := 0, phase := Phase.dialing }] } := by
  simp [lookup, hctx, habs]

/-- C8: in a reachable state where attempt `a` of `handleUDP` is about to dial.
If the dial fails (l.141-146): the table is unchanged and holds no entry for `a`, the
only call is the dial, no endpoint is created, nothing is closed, no relay is started,
and the attempt is over.  If the dial succeeds and the endpoint creation fails
(l.149-157): the table is unchanged and holds no entry for `a`, the calls are the dial,
the endpoint creation and one Close on the dialed socket, which is the only Close that
socket ever gets; no relay is started and the attempt is over.  A whole uninterleaved
call of `handleUDP` that passes the lookup is the lookup followed by these steps. -/
theorem handleUDP_dial_failures (s : State) (hr : Reachable s) (a : Nat)
    (hp : s.phaseOf a = some Phase.dialing) :
    (step (Action.dialFailed a) s = some (dialFailed a s) ∧
      (dialFailed a s).conns = s.conns ∧
      a ∉ (dialFailed a s).conns.map Prod.snd ∧
      (dialFailed a s).log = s.log ++ [Effect.dial a] ∧
      (dialFailed a s).log.count (Effect.createEndpoint a) = 0 ∧
      closes (dialFailed a s) (Conn.real a) = 0 ∧ closes (dialFailed a s) (Conn.virt a) = 0 ∧
      (dialFailed a s).log.count (Effect.spawn a) = 0 ∧
      (dialFailed a s).phaseOf a = some Phase.dialFailed ∧
      step (Action.insertLocked a) (dialFailed a s) = none ∧
      step (Action.spawn a) (dialFailed a s) = none) ∧
    (step (Action.endpointFailed a) s = some (endpointFailed a s) ∧
      (endpointFailed a s).conns = s.conns ∧
      a ∉ (endpointFailed a s).conns.map Prod.snd ∧
      (endpointFailed a s).log = s.log ++ [Effect.dial a, Effect.createEndpoint a,
        Effect.close Site.handleUDP (Conn.real a)] ∧
      closes (endpointFailed a s) (Conn.real a) = 1 ∧
      closes (endpointFailed a s) (Conn.virt a) = 0 ∧
      (endpointFailed a s).log.count (Effect.spawn a) = 0 ∧
      (endpointFailed a s).phaseOf a = some Phase.epFailed ∧
      step (Action.insertLocked a) (endpointFailed a s) = none ∧
      step (Action.spawn a) (endpointFailed a s) = none) ∧
    (∀ (s0 : State) (id : TransportEndpointID) (now : Int), s0.ctxDone = false →
      s0.conns.get id = none →
      handleUDP id DialResult.dialErr now s0 = dialFailed s0.flows.length (lookup id s0) ∧
      handleUDP id DialResult.epErr now s0 = endpointFailed s0.flows.length (lookup id s0) ∧
      (lookup id s0).phaseOf s0.flows.length = some Phase.dialing ∧
      (lookup id s0).conns = s0.conns ∧ (lookup id s0).log = s0.log) := by
  have hI := inv_of_reachable s hr
  obtain ⟨c, hc, hph⟩ := phaseOf_eq_some s a _ hp
  have hnot : a ∉ s.conns.map Prod.snd := not_mem_ptrs_of_phase s hI a c hc (by simp [hph])
  have hfacts : ∀ (t : State) (ph : Phase), Inv t → t.flows[a]? = some { c with phase := ph } →
      ph.entered = false → ph.spawned = false → ph.deferred = false → ph ≠ Phase.discarded →
      closes t (Conn.virt a) = 0 ∧
      closes t (Conn.real a) = (if ph = Phase.epFailed then 1 else 0) ∧
      t.log.count (Effect.spawn a) = 0 := by
    intro t ph hIt hct h1 h2 h3 h4
    have hf := hIt.flow a _ hct
    have k1 := hf.hVirt
    have k2 := hf.hReal
    have k3 := hf.pVirt
    have k4 := hf.pReal
    have k5 := hf.cReal
    have k6 := hf.sReal
    have k7 := hf.spawn
    have k8 := hf.cZero h1
    have k9 := hf.sZero h1
    simp [h2, h3, h4] at k1 k2 k3 k4 k7
    refine ⟨by simp only [closes]; omega, ?_, k7⟩
    simp only [closes]
    rw [k2, k4, k5, k6, k8, k9]
    rfl
  refine ⟨?_, ?_, ?_⟩
  · have hI2 := inv_dialFailed s a hI hp
    have hc2 : (dialFailed a s).flows[a]? = some { c with phase := Phase.dialFailed } := by
      rw [dialFailed, setPhase_flows _ a _ c (by simpa using hc),
        getElem?_set_of_some _ a a c _ (by simpa using hc)]
      simp
    obtain ⟨f1, f2, f3⟩ := hfacts _ _ hI2 hc2 rfl rfl rfl (by simp)
    have hlog : (dialFailed a s).log = s.log ++ [Effect.dial a] := by simp [dialFailed]
    have hep : (dialFailed a s).log.count (Effect.createEndpoint a) = 0 := by
      have := (hI2.flow a _ hc2).ep
      simpa using this
    refine ⟨by simp [step, hp], by simp [dialFailed], by simpa [dialFailed] using hnot, hlog,
      hep, by simpa using f2, f1, f3, by simp [State.phaseOf, hc2],
      by simp [step, State.phaseOf, hc2], by simp [step, State.phaseOf, hc2]⟩
  · have hI2 := inv_endpointFailed s a hI hp
    have hc2 : (endpointFailed a s).flows[a]? = some { c with phase := Phase.epFailed } := by
      rw [endpointFailed, setPhase_flows _ a _ c (by simpa using hc),
        getElem?_set_of_some _ a a c _ (by simpa using hc)]
      simp
    obtain ⟨f1, f2, f3⟩ := hfacts _ _ hI2 hc2 rfl rfl rfl (by simp)
    refine ⟨by simp [step, hp], by simp [endpointFailed],
      by simpa [endpointFailed] using hnot, by simp [endpointFailed],
      by simpa using f2, f1, f3, by simp [State.phaseOf, hc2],
      by simp [step, State.phaseOf, hc2], by simp [step, State.phaseOf, hc2]⟩
  · intro s0 id now hctx habs
    have hadm := lookup_new s0 id hctx habs
    refine ⟨by simp [handleUDP, hctx, habs], by simp [handleUDP, hctx, habs], ?_, ?_, ?_⟩
    · rw [hadm]; simp [State.phaseOf]
    · rw [hadm]
    · rw [hadm]

/-- Witness of C8: the first packet of `flowF`, right after its lookup. -/
theorem handleUDP_dial_failures_witness :
    Reachable (after [Action.lookup flowF]) ∧
    closes (endpointFailed 0 (after [Action.lookup flowF])) (Conn.real 0) = 1 ∧
    (dialFailed 0 (after [Action.lookup flowF])).conns = (after [Action.lookup flowF]).conns :=
  ⟨reachable_after _,
    (handleUDP_dial_failures (after [Action.lookup flowF]) (reachable_after _) 0
      (by decide)).2.1.2.2.2.2.1,
    (handleUDP_dial_failures (after [Action.lookup flowF]) (reachable_after _) 0
      (by decide)).1.2.1⟩
/-- C9: `handleUDP` is called for `id` in state `s` with a live lifetime context and the
key absent at the lookup; dial and endpoint creation succeed and the flow is stamped at
time `now` (attempt `a`, the next free index); `s2` is the state at the re-check of
l.171, where the cell of `a` is as `handleUDP` built it and the key is still absent.
Then after the insertion and the relay start the table is the table of `s2` plus the one
entry `id ↦ a`, every other key maps to what it mapped to, flow `a` carries
`lastSeen = now`, every other flow object is untouched, and the only call made is the
relay start.  With nothing interleaved, the whole call of `handleUDP` adds exactly that
entry and that flow to `s`. -/
theorem handleUDP_inserts (s s2 : State) (id : TransportEndpointID) (now : Int)
    (hctx : s.ctxDone = false) (habs : s.conns.get id = none)
    (hcell : s2.flows[s.flows.length]?
      = (build s.flows.length now (lookup id s)).flows[s.flows.length]?)
    (habs2 : s2.conns.get id = none) :
    (build s.flows.length now (lookup id s)).flows[s.flows.length]?
      = some { id := id, lastSeen := now, phase := Phase.built } ∧
    step (Action.insertLocked s.flows.length) s2 = some (insertLocked s.flows.length s2) ∧
    step (Action.spawn s.flows.length) (insertLocked s.flows.length s2)
      = some (spawn s.flows.length (insertLocked s.flows.length s2)) ∧
    (spawn s.flows.length (insertLocked s.flows.length s2)).conns
      = (id, s.flows.length) :: s2.conns ∧
    (spawn s.flows.length (insertLocked s.flows.length s2)).conns.get id
      = some s.flows.length ∧
    (∀ k, k ≠ id →
      (spawn s.flows.length (insertLocked s.flows.length s2)).conns.get k = s2.conns.get k) ∧
    (spawn s.flows.length (insertLocked s.flows.length s2)).flows[s.flows.length]?
      = some { id := id, lastSeen := now, phase := Phase.running } ∧
    (∀ p : Nat, p ≠ s.flows.length →
      (spawn s.flows.length (insertLocked s.flows.length s2)).flows[p]? = s2.flows[p]?) ∧
    (spawn s.flows.length (insertLocked s.flows.length s2)).log
      = s2.log ++ [Effect.spawn s.flows.length] ∧
    handleUDP id DialResult.ok now s
      = spawn s.flows.length (insertLocked s.flows.length
          (build s.flows.length now (lookup id s))) ∧
    (handleUDP id DialResult.ok now s).conns = (id, s.flows.length) :: s.conns ∧
    (handleUDP id DialResult.ok now s).flows
      = s.flows ++ [{ id := id, lastSeen := now, phase := Phase.running }] ∧
    (handleUDP id DialResult.ok now s).log
      = s.log ++ [Effect.dial s.flows.length, Effect.createEndpoint s.flows.length,
          Effect.spawn s.flows.length] := by
  have hadm := lookup_new s id hctx habs
  have hc0 : (lookup id s).flows[s.flows.length]?
      = some { id := id, lastSeen := 0, phase := Phase.dialing } := by
    rw [hadm]; simp
  have hbuilt : (build s.flows.length now (lookup id s)).flows[s.flows.length]?
      = some { id := id, lastSeen := now, phase := Phase.built } := by
    rw [build_flows _ _ _ _ hc0, getElem?_set_of_some _ _ _ _ _ hc0]; simp
  -- the write-locked section and the relay start, from any state `u` at the re-check
  have key : ∀ u : State,
      u.flows[s.flows.length]? = some { id := id, lastSeen := now, phase := Phase.built } →
      u.conns.get id = none →
      step (Action.insertLocked s.flows.length) u = some (insertLocked s.flows.length u) ∧
      step (Action.spawn s.flows.length) (insertLocked s.flows.length u)
        = some (spawn s.flows.length (insertLocked s.flows.length u)) ∧
      (spawn s.flows.length (insertLocked s.flows.length u)).conns
        = (id, s.flows.length) :: u.conns ∧
      (spawn s.flows.length (insertLocked s.flows.length u)).flows
        = u.flows.set s.flows.length { id := id, lastSeen := now, phase := Phase.running } ∧
      (spawn s.flows.length (insertLocked s.flows.length u)).log
        = u.log ++ [Effect.spawn s.flows.length] := by
    intro u hu habsu
    have hins : insertLocked s.flows.length u
        = { u with conns := (id, s.flows.length) :: u.conns }.setPhase s.flows.length
            Phase.inserted := by
      simp [insertLocked, hu, habsu, Table.set, Table.delete_eq_self _ _ habsu]
    have hfl1 : (insertLocked s.flows.length u).flows
        = u.flows.set s.flows.length { id := id, lastSeen := now, phase := Phase.inserted } := by
      rw [hins]
      exact setPhase_flows { u with conns := (id, s.flows.length) :: u.conns } _ _ _ hu
    have hc1 : (insertLocked s.flows.length u).flows[s.flows.length]?
        = some { id := id, lastSeen := now, phase := Phase.inserted } := by
      rw [hfl1, getElem?_set_of_some _ _ _ _ _ hu]; simp
    refine ⟨by simp [step, State.phaseOf, hu], by simp [step, State.phaseOf, hc1], ?_, ?_, ?_⟩
    · simp [spawn, hins]
    · rw [spawn, setPhase_flows _ _ _ _ (by simpa using hc1)]
      simp [hfl1, List.set_set]
    · simp [spawn, hins]
  rw [hbuilt] at hcell
  obtain ⟨k1, k2, k3, k4, k5⟩ := key s2 hcell habs2
  have hconns1 : (build s.flows.length now (lookup id s)).conns = s.conns := by
    rw [(build_rest _ _ _).1, hadm]
  obtain ⟨j1, j2, j3, j4, j5⟩ := key _ hbuilt (by rw [hconns1]; exact habs)
  have hseq : handleUDP id DialResult.ok now s
      = spawn s.flows.length (insertLocked s.flows.length
          (build s.flows.length now (lookup id s))) := by
    have hnot : ¬ (insertLocked s.flows.length (build s.flows.length now (lookup id s))).phaseOf
        s.flows.length = some Phase.lost := by
      have := j2
      simp only [step] at this
      split at this
      · rename_i hins
        rw [hins]; simp
      · cases this
    simp only [handleUDP, hctx, habs, Option.isSome_none, Bool.false_eq_true, if_false, hnot]
  refine ⟨hbuilt, k1, k2, k3, ?_, ?_, ?_, ?_, k5, hseq, ?_, ?_, ?_⟩
  · rw [k3]; simp [Table.get]
  · intro k hk
    rw [k3]; simp [Table.get, Ne.symm hk]
  · rw [k4, getElem?_set_of_some _ _ _ _ _ hcell]; simp
  · intro p hp
    rw [k4, getElem?_set_of_some _ _ _ _ _ hcell]; simp [hp]
  · rw [hseq, j3, hconns1]
  · rw [hseq, j4, build_flows _ _ _ _ hc0, List.set_set, hadm]
    simp
  · rw [hseq, j5, (build_rest _ _ _).2.2.2, hadm]
    simp

/-- Witness of C9: the first packet of `flowG` while `flowF` is being relayed. -/
theorem handleUDP_inserts_witness :
    (after startF).ctxDone = false ∧ (after startF).conns.get flowG = none ∧
    (handleUDP flowG DialResult.ok (7 * second) (after startF)).conns
      = (flowG, 1) :: (after startF).conns ∧
    (handleUDP flowG DialResult.ok (7 * second) (after startF)).flows
      = (after startF).flows ++ [{ id := flowG, lastSeen := 7 * second, phase := Phase.running }] :=
  ⟨by decide, by decide,
    (handleUDP_inserts (after startF) (build 1 (7 * second) (lookup flowG (after startF))) flowG
      (7 * second) (by decide) (by decide) rfl (by decide)).2.2.2.2.2.2.2.2.2.2.1,
    (handleUDP_inserts (after startF) (build 1 (7 * second) (lookup flowG (after startF))) flowG
      (7 * second) (by decide) (by decide) rfl (by decide)).2.2.2.2.2.2.2.2.2.2.2.1⟩
/-! ## The relay loop -/

theorem copyLoop_relays (direction : String) (rounds : List Round) (buffer : List Nat)
    (hlen : buffer.length = maxPacketSize)
    (hr : ∀ r ∈ rounds, r.done = none ∧ r.write = none ∧
      r.read = ReadResult.data r.payload ∧ r.payload.length ≤ 65535) :
    (copyLoop direction rounds buffer).1
      = rounds.flatMap (fun r => [CopyEvent.read r.payload.length, CopyEvent.write r.payload,
          CopyEvent.updateLastSeen r.now]) ∧
    (copyLoop direction rounds buffer).2 = none := by
  induction rounds generalizing buffer with
  | nil => simp [copyLoop]
  | cons r rest ih =>
    obtain ⟨hd, hw, hrd0, hdl0⟩ := hr r (List.mem_cons_self _ _)
    obtain ⟨d, hrd, hdl⟩ : ∃ d, r.read = ReadResult.data d ∧ d.length ≤ 65535 :=
      ⟨r.payload, hrd0, hdl0⟩
    have hmin : min d.length buffer.length = d.length := by
      rw [hlen, maxPacketSize]; omega
    have htake : (List.take d.length d ++ List.drop d.length buffer).take d.length = d := by
      rw [List.take_append_of_le_length (by simp)]
      simp
    have hlen1 : (List.take d.length d ++ List.drop d.length buffer).length = maxPacketSize := by
      simp only [List.length_append, List.length_take, List.length_drop, Nat.min_self]
      rw [hlen, maxPacketSize]; omega
    obtain ⟨ih1, ih2⟩ := ih (List.take d.length d ++ List.drop d.length buffer) hlen1
      (fun x hx => hr x (List.mem_cons_of_mem _ hx))
    have hpay : r.payload = d := by simp [Round.payload, hrd]
    simp only [copyLoop, hd, hrd, hw, hmin, htake, ih1, ih2, List.flatMap_cons, hpay]
    simp

theorem writesOf_relayed (rounds : List Round) :
    writesOf (rounds.flatMap (fun r => [CopyEvent.read r.payload.length,
      CopyEvent.write r.payload, CopyEvent.updateLastSeen r.now])) = rounds.map Round.payload := by
  induction rounds with
  | nil => rfl
  | cons r rest ih =>
    rw [List.flatMap_cons]
    show writesOf (CopyEvent.read r.payload.length :: CopyEvent.write r.payload
      :: CopyEvent.updateLastSeen r.now :: rest.flatMap _) = _
    simp only [writesOf, ih, List.map_cons]

theorem readsOf_relayed (rounds : List Round) :
    readsOf (rounds.flatMap (fun r => [CopyEvent.read r.payload.length,
      CopyEvent.write r.payload, CopyEvent.updateLastSeen r.now]))
      = rounds.map (fun r => r.payload.length) := by
  induction rounds with
  | nil => rfl
  | cons r rest ih =>
    rw [List.flatMap_cons]
    show readsOf (CopyEvent.read r.payload.length :: CopyEvent.write r.payload
      :: CopyEvent.updateLastSeen r.now :: rest.flatMap _) = _
    simp only [readsOf, ih, List.map_cons]

/-- C10: `copy` runs with a pool buffer of 65535 bytes (of any contents), both deadline
calls succeed, and every round is a successful read of a datagram of at most 65535
bytes followed by a successful write, with the context live.  Then the calls of `copy`
are the two deadline calls followed, round by round and in order, by the read, one write
carrying exactly the bytes of that datagram, and `updateLastSeen`; so the writes are the
datagrams in the order they were read, one write per read, and `copy` has not returned. -/
theorem copy_relays (direction : String) (buffer : List Nat) (t1 t2 : Int)
    (rounds : List Round) (hlen : buffer.length = maxPacketSize)
    (hr : ∀ r ∈ rounds, r.done = none ∧ r.write = none ∧
      r.read = ReadResult.data r.payload ∧ r.payload.length ≤ 65535) :
    (copy direction buffer t1 t2 none none rounds).1
      = CopyEvent.setReadDeadline (t1 + udpTimeout) :: CopyEvent.setWriteDeadline (t2 + udpTimeout)
        :: rounds.flatMap (fun r => [CopyEvent.read r.payload.length, CopyEvent.write r.payload,
          CopyEvent.updateLastSeen r.now]) ∧
    writesOf (copy direction buffer t1 t2 none none rounds).1 = rounds.map Round.payload ∧
    readsOf (copy direction buffer t1 t2 none none rounds).1
      = rounds.map (fun r => r.payload.length) ∧
    (writesOf (copy direction buffer t1 t2 none none rounds).1).length
      = (readsOf (copy direction buffer t1 t2 none none rounds).1).length ∧
    (copy direction buffer t1 t2 none none rounds).2 = none := by
  obtain ⟨h1, h2⟩ := copyLoop_relays direction rounds buffer hlen hr
  have hw : writesOf (copy direction buffer t1 t2 none none rounds).1
      = rounds.map Round.payload := by
    simp only [copy, h1, writesOf]
    exact writesOf_relayed rounds
  have hrd : readsOf (copy direction buffer t1 t2 none none rounds).1
      = rounds.map (fun r => r.payload.length) := by
    simp only [copy, h1, readsOf]
    exact readsOf_relayed rounds
  refine ⟨by simp only [copy, h1], hw, hrd, by rw [hw, hrd]; simp, by simp only [copy, h2]⟩

/-- Witness of C10: two datagrams through a pool buffer full of stale bytes. -/
theorem copy_relays_witness :
    (List.replicate maxPacketSize 7).length = maxPacketSize ∧
    writesOf (copy "inbound->outbound" (List.replicate maxPacketSize 7) 0 0 none none
      twoDatagrams).1 = [[104, 105], [1, 2, 3]] :=
  ⟨List.length_replicate _ _,
    (copy_relays "inbound->outbound" (List.replicate maxPacketSize 7) 0 0 twoDatagrams
      (List.length_replicate _ _) (by decide)).2.1⟩
/-! ## When `copy` returns -/

theorem copyLoop_result (direction : String) (rounds : List Round) (buffer : List Nat)
    (err : CopyErr) (h : (copyLoop direction rounds buffer).2 = some err) :
    (∃ r ∈ rounds, ∃ e, r.done = some e ∧ err = CopyErr.ctx e) ∨
    (∃ r ∈ rounds, ∃ e, r.read = ReadResult.fail e ∧ isTimeout e = false ∧
      err = CopyErr.read direction e) ∨
    (∃ r ∈ rounds, ∃ e, r.write = some e ∧ err = CopyErr.write direction e) := by
  induction rounds generalizing buffer with
  | nil => simp [copyLoop] at h
  | cons r rest ih =>
    have lift : ((∃ r ∈ rest, ∃ e, r.done = some e ∧ err = CopyErr.ctx e) ∨
        (∃ r ∈ rest, ∃ e, r.read = ReadResult.fail e ∧ isTimeout e = false ∧
          err = CopyErr.read direction e) ∨
        (∃ r ∈ rest, ∃ e, r.write = some e ∧ err = CopyErr.write direction e)) →
        ((∃ r1 ∈ r :: rest, ∃ e, r1.done = some e ∧ err = CopyErr.ctx e) ∨
        (∃ r1 ∈ r :: rest, ∃ e, r1.read = ReadResult.fail e ∧ isTimeout e = false ∧
          err = CopyErr.read direction e) ∨
        (∃ r1 ∈ r :: rest, ∃ e, r1.write = some e ∧ err = CopyErr.write direction e)) := by
      rintro (⟨x, hx, e, h1⟩ | ⟨x, hx, e, h1⟩ | ⟨x, hx, e, h1⟩)
      · exact Or.inl ⟨x, List.mem_cons_of_mem _ hx, e, h1⟩
      · exact Or.inr (Or.inl ⟨x, List.mem_cons_of_mem _ hx, e, h1⟩)
      · exact Or.inr (Or.inr ⟨x, List.mem_cons_of_mem _ hx, e, h1⟩)
    cases hd : r.done with
    | some e =>
      simp only [copyLoop, hd, Option.some.injEq] at h
      exact Or.inl ⟨r, List.mem_cons_self _ _, e, hd, h.symm⟩
    | none =>
      cases hrd : r.read with
      | fail e =>
        by_cases ht : isTimeout e = true
        · simp only [copyLoop, hd, hrd, ht, if_true] at h
          exact lift (ih buffer h)
        · simp only [copyLoop, hd, hrd, ht, Bool.false_eq_true, if_false,
            Option.some.injEq] at h
          exact Or.inr (Or.inl ⟨r, List.mem_cons_self _ _, e, hrd, by simpa using ht, h.symm⟩)
      | data d =>
        cases hw : r.write with
        | some e =>
          simp only [copyLoop, hd, hrd, hw, Option.some.injEq] at h
          exact Or.inr (Or.inr ⟨r, List.mem_cons_self _ _, e, hw, h.symm⟩)
        | none =>
          simp only [copyLoop, hd, hrd, hw] at h
          exact lift (ih _ h)

theorem copyLoop_timeouts (direction : String) (rounds : List Round) (buffer : List Nat)
    (h : ∀ r ∈ rounds, r.done = none ∧ ∃ e, r.read = ReadResult.fail e ∧ isTimeout e = true) :
    (copyLoop direction rounds buffer).1
      = rounds.map (fun r => match r.read with
          | ReadResult.fail e => CopyEvent.readFailed e
          | ReadResult.data d => CopyEvent.read d.length) ∧
    (copyLoop direction rounds buffer).2 = none := by
  induction rounds with
  | nil => simp [copyLoop]
  | cons r rest ih =>
    obtain ⟨hd, e, hrd, ht⟩ := h r (List.mem_cons_self _ _)
    obtain ⟨i1, i2⟩ := ih (fun x hx => h x (List.mem_cons_of_mem _ hx))
    simp [copyLoop, hd, hrd, ht, i1, i2]

/-- C11, counterexample: a write that fails with a timeout makes `copy` return that
timeout, wrapped with the direction (l.260-262); and a failing `SetReadDeadline` or
`SetWriteDeadline` makes `copy` return before the loop (l.239-244), which is neither a
cancellation nor a read or write error. -/
theorem copy_returns_on_write_timeout :
    (copy "inbound->outbound" (List.replicate maxPacketSize 0) 0 0 none none
      [Round.writeFails [1, 2] errTimeout]).2
      = some (CopyErr.write "inbound->outbound" errTimeout) ∧
    isTimeout errTimeout = true ∧
    (copy "inbound->outbound" (List.replicate maxPacketSize 0) 0 0 (some errReset) none
      [Round.ok [1, 2] 0]).2 = some (CopyErr.setReadDeadline errReset) ∧
    (copy "inbound->outbound" (List.replicate maxPacketSize 0) 0 0 none (some errReset)
      [Round.ok [1, 2] 0]).2 = some (CopyErr.setWriteDeadline errReset) := by
  refine ⟨?_, rfl, ?_, ?_⟩ <;> simp [copy, copyLoop, Round.writeFails]

/-- C11, amended: a read that fails with a timeout makes `copy` loop again, and `copy`
does not return however many reads time out in a row.  When `copy` returns, it returns
one of: the error of a failed `SetReadDeadline` or `SetWriteDeadline` before the loop
(wrapped), the error of its context at a select where the context was done, a read
error that is not a timeout wrapped with the direction, or a write error, timeout or
not, wrapped with the direction. -/
theorem copy_returns (direction : String) (buffer : List Nat) (t1 t2 : Int)
    (rd wd : Option Err) (rounds : List Round) :
    (∀ (r : Round) (rest : List Round) (e : Err), r.done = none →
      r.read = ReadResult.fail e → isTimeout e = true →
      copyLoop direction (r :: rest) buffer
        = (CopyEvent.readFailed e :: (copyLoop direction rest buffer).1,
            (copyLoop direction rest buffer).2)) ∧
    ((∀ r ∈ rounds, r.timesOut = true) →
      (copy direction buffer t1 t2 none none rounds).2 = none) ∧
    (∀ err, (copy direction buffer t1 t2 rd wd rounds).2 = some err →
      (∃ e, rd = some e ∧ err = CopyErr.setReadDeadline e) ∨
      (∃ e, rd = none ∧ wd = some e ∧ err = CopyErr.setWriteDeadline e) ∨
      (rd = none ∧ wd = none ∧
        ((∃ r ∈ rounds, ∃ e, r.done = some e ∧ err = CopyErr.ctx e) ∨
          (∃ r ∈ rounds, ∃ e, r.read = ReadResult.fail e ∧ isTimeout e = false ∧
            err = CopyErr.read direction e) ∨
          (∃ r ∈ rounds, ∃ e, r.write = some e ∧ err = CopyErr.write direction e)))) := by
  refine ⟨?_, ?_, ?_⟩
  · intro r rest e hd hrd ht
    simp [copyLoop, hd, hrd, ht]
  · intro h
    simp only [copy]
    refine (copyLoop_timeouts direction rounds buffer ?_).2
    intro r hr
    have ht := h r hr
    unfold Round.timesOut at ht
    cases hd : r.done with
    | some e => simp [hd] at ht
    | none =>
      cases hrd : r.read with
      | data d => simp [hd, hrd] at ht
      | fail e => exact ⟨rfl, e, rfl, by simpa [hd, hrd] using ht⟩
  · intro err h
    cases hrd : rd with
    | some e =>
      simp only [copy, hrd, Option.some.injEq] at h
      exact Or.inl ⟨e, rfl, h.symm⟩
    | none =>
      cases hwd : wd with
      | some e =>
        simp only [copy, hrd, hwd, Option.some.injEq] at h
        exact Or.inr (Or.inl ⟨e, rfl, rfl, h.symm⟩)
      | none =>
        simp only [copy, hrd, hwd] at h
        exact Or.inr (Or.inr ⟨rfl, rfl, copyLoop_result direction rounds buffer err h⟩)

/-- Witness of C11 (amended): three read timeouts in a row, `copy` has not returned. -/
theorem copy_returns_witness :
    (copy "outbound->inbound" (List.replicate maxPacketSize 0) 0 0 none none
      [Round.readFails errTimeout, Round.readFails errTimeout, Round.readFails errTimeout]).2
      = none :=
  (copy_returns "outbound->inbound" (List.replicate maxPacketSize 0) 0 0 none none
    [Round.readFails errTimeout, Round.readFails errTimeout, Round.readFails errTimeout]).2.1
    (by decide)
/-! ## Deadlines and stamps of `copy` -/

theorem copyLoop_no_deadline (direction : String) (rounds : List Round) (buffer : List Nat) :
    ∀ x ∈ (copyLoop direction rounds buffer).1, x.isDeadline = false := by
  induction rounds generalizing buffer with
  | nil => simp [copyLoop]
  | cons r rest ih =>
    intro x hx
    cases hd : r.done with
    | some e => simp [copyLoop, hd] at hx
    | none =>
      cases hrd : r.read with
      | fail e =>
        by_cases ht : isTimeout e = true
        · simp only [copyLoop, hd, hrd, ht, if_true, List.mem_cons] at hx
          rcases hx with hx | hx
          · subst hx; rfl
          · exact ih buffer x hx
        · simp only [copyLoop, hd, hrd, ht, Bool.false_eq_true, if_false,
            List.mem_singleton] at hx
          subst hx; rfl
      | data d =>
        cases hw : r.write with
        | some e =>
          simp only [copyLoop, hd, hrd, hw, List.mem_cons, List.mem_singleton,
            List.not_mem_nil, or_false] at hx
          rcases hx with hx | hx <;> subst hx <;> rfl
        | none =>
          simp only [copyLoop, hd, hrd, hw, List.mem_cons] at hx
          rcases hx with hx | hx | hx | hx
          · subst hx; rfl
          · subst hx; rfl
          · subst hx; rfl
          · exact ih _ x hx

/-- C12, the code at the failing input: the first read times out, the second delivers
two bytes at 70 s.  The calls of `copy` are the two deadline calls of l.239 and l.242,
made before the loop with the clock of the start, then the failed read, then the next
read, the write and the stamp: no deadline is set between the timed-out read and the
next read attempt.  For every input, no call made inside the loop sets a deadline. -/
theorem copy_arms_deadlines_once :
    (copy "inbound->outbound" (List.replicate maxPacketSize 0) 0 0 none none
      [Round.readFails errTimeout, Round.ok [1, 2] (70 * second)]).1
      = [CopyEvent.setReadDeadline (0 + udpTimeout), CopyEvent.setWriteDeadline (0 + udpTimeout),
          CopyEvent.readFailed errTimeout, CopyEvent.read 2, CopyEvent.write [1, 2],
          CopyEvent.updateLastSeen (70 * second)] ∧
    (∀ (direction : String) (rounds : List Round) (buffer : List Nat),
      ∀ x ∈ (copyLoop direction rounds buffer).1, x.isDeadline = false) ∧
    (∀ (direction : String) (buffer : List Nat) (t1 t2 : Int) (rounds : List Round),
      ((copy direction buffer t1 t2 none none rounds).1.filter CopyEvent.isDeadline)
        = [CopyEvent.setReadDeadline (t1 + udpTimeout),
            CopyEvent.setWriteDeadline (t2 + udpTimeout)]) := by
  refine ⟨?_, copyLoop_no_deadline, ?_⟩
  · have key : ∀ buffer : List Nat, 2 ≤ buffer.length →
        (copy "inbound->outbound" buffer 0 0 none none
          [Round.readFails errTimeout, Round.ok [1, 2] (70 * second)]).1
          = [CopyEvent.setReadDeadline (0 + udpTimeout),
              CopyEvent.setWriteDeadline (0 + udpTimeout),
              CopyEvent.readFailed errTimeout, CopyEvent.read 2, CopyEvent.write [1, 2],
              CopyEvent.updateLastSeen (70 * second)] := by
      intro buffer hb
      have hmin : min 2 buffer.length = 2 := by omega
      simp [copy, copyLoop, Round.readFails, Round.ok, isTimeout, errTimeout, hmin]
    exact key _ (by rw [List.length_replicate]; decide)
  · intro direction buffer t1 t2 rounds
    simp only [copy, List.filter_cons, CopyEvent.isDeadline, if_true]
    rw [List.filter_eq_nil_iff.mpr]
    intro x hx
    simp [copyLoop_no_deadline direction rounds buffer x hx]
theorem copyLoop_stamps (direction : String) (rounds : List Round) (buffer : List Nat) :
    stampsOf (copyLoop direction rounds buffer).1
      = ((rounds.takeWhile (fun r => !r.returns)).filter Round.transfers).map
          (fun r => r.now) := by
  induction rounds generalizing buffer with
  | nil => simp [copyLoop, stampsOf]
  | cons r rest ih =>
    cases hd : r.done with
    | some e => simp [copyLoop, hd, stampsOf, Round.returns, List.takeWhile_cons]
    | none =>
      cases hrd : r.read with
      | fail e =>
        by_cases ht : isTimeout e = true
        · simp [copyLoop, hd, hrd, ht, stampsOf, Round.returns, Round.transfers,
            List.takeWhile_cons, List.filter_cons, ih]
        · simp [copyLoop, hd, hrd, ht, stampsOf, Round.returns, List.takeWhile_cons]
      | data d =>
        cases hw : r.write with
        | some e => simp [copyLoop, hd, hrd, hw, stampsOf, Round.returns, List.takeWhile_cons]
        | none =>
          simp [copyLoop, hd, hrd, hw, stampsOf, Round.returns, Round.transfers,
            List.takeWhile_cons, List.filter_cons, ih]

/-- C13, counterexample: the schedule `staleStamp` runs under a clock that never goes
back, every stamp is stored at or after the time it was read, and `lastSeen` of flow 0
decreases from 5 s to 4 s. -/
theorem lastSeen_decreases :
    clockOK 0 staleStamp = true ∧
    (run (staleStamp.map Prod.snd) newUDPForwarder).isSome = true ∧
    lastSeenAfter ((staleStamp.take 5).map Prod.snd) 0 = some (5 * second) ∧
    lastSeenAfter (staleStamp.map Prod.snd) 0 = some (4 * second) := by
  decide

/-- C13, amended: for every run of `copy`, the stamps it stores are, in order, the
clock values of exactly the rounds in which both the read and the write succeeded (up to
the round where it returns): a round whose read timed out or whose read or write failed
stores nothing.  Hence, when the clock values of the rounds never decrease, the stamps
one direction stores never decrease.  `updateLastSeen` overwrites `lastSeen` of its flow
with the stamp, whatever it held, and changes nothing else; so `lastSeen` is always the
stamp stored last, by the admission or by either direction. -/
theorem copy_stamps (direction : String) (buffer : List Nat) (t1 t2 : Int)
    (rounds : List Round) :
    stampsOf (copy direction buffer t1 t2 none none rounds).1
      = ((rounds.takeWhile (fun r => !r.returns)).filter Round.transfers).map
          (fun r => r.now) ∧
    ((rounds.map (fun r => r.now)).Pairwise (fun a b => a ≤ b) →
      (stampsOf (copy direction buffer t1 t2 none none rounds).1).Pairwise
        (fun a b => a ≤ b)) ∧
    (∀ (s : State) (p : Nat) (c : udpPacketConn) (now : Int), s.flows[p]? = some c →
      (updateLastSeen p now s).flows[p]? = some { c with lastSeen := now } ∧
      (∀ q : Nat, q ≠ p → (updateLastSeen p now s).flows[q]? = s.flows[q]?) ∧
      (updateLastSeen p now s).conns = s.conns ∧ (updateLastSeen p now s).log = s.log) := by
  have h1 : stampsOf (copy direction buffer t1 t2 none none rounds).1
      = ((rounds.takeWhile (fun r => !r.returns)).filter Round.transfers).map
          (fun r => r.now) := by
    simp only [copy, stampsOf]
    exact copyLoop_stamps direction rounds buffer
  refine ⟨h1, ?_, ?_⟩
  · intro hp
    rw [h1]
    exact List.Pairwise.sublist
      (((List.filter_sublist _).trans (List.takeWhile_sublist _)).map _) hp
  · intro s p c now hc
    refine ⟨?_, ?_, ?_, ?_⟩
    · simp [updateLastSeen, hc, getElem?_set_of_some s.flows p p c _ hc]
    · intro q hq
      simp [updateLastSeen, hc, getElem?_set_of_some s.flows p q c _ hc, hq]
    · simp [updateLastSeen, hc]
    · simp [updateLastSeen, hc]

/-- Witness of C13 (amended): a read timeout between two transfers at 1 s and 3 s. -/
theorem copy_stamps_witness :
    stampsOf (copy "inbound->outbound" (List.replicate maxPacketSize 0) 0 0 none none
      [Round.ok [7] (1 * second), Round.readFails errTimeout, Round.ok [8] (3 * second)]).1
      = [1 * second, 3 * second] :=
  (copy_stamps "inbound->outbound" (List.replicate maxPacketSize 0) 0 0
    [Round.ok [7] (1 * second), Round.readFails errTimeout, Round.ok [8] (3 * second)]).1
/-! ## Teardown with failing `Close` calls; `proxyUDP` as one call -/

theorem emit_emit (s : State) (a b : List Effect) : (s.emit a).emit b = s.emit (a ++ b) := by
  simp [State.emit, List.append_assoc]

theorem teardownLogged_eq (level : Level) (site : Site) (p : Nat) (ve re : Option Err)
    (s : State) (l : List LogLine) :
    teardownLogged level site p ve re (s, l)
      = (s.emit (teardown site p),
          l ++ ((ve.map (LogLine.closeFailed level site (Conn.virt p))).toList
            ++ (re.map (LogLine.closeFailed level site (Conn.real p))).toList)) := by
  cases ve <;> cases re <;> simp [teardownLogged, closeLogged, emit_emit, teardown]

theorem proxyDeferLogged_eq (p : Nat) (ve re : Option Err) (s : State) :
    proxyDeferLogged p ve re s
      = (proxyDefer p s,
          (ve.map (LogLine.closeFailed Level.error Site.proxyUDP (Conn.virt p))).toList
            ++ (re.map (LogLine.closeFailed Level.error Site.proxyUDP (Conn.real p))).toList) := by
  simp [proxyDeferLogged, teardownLogged_eq, proxyDefer]

theorem reaperCloseLogged_fst (ve re : Option Err) (s : State) :
    (reaperCloseLogged ve re s).1 = reaperClose s := by
  unfold reaperCloseLogged reaperClose
  cases s.idleConns with
  | nil => rfl
  | cons e rest => simp [teardownLogged_eq]

theorem stopLoopLogged_fst (answers : Nat → Option Err × Option Err) (es : Table)
    (s : State) (l : List LogLine) :
    (stopLoopLogged answers es (s, l)).1 = stopLoop es s := by
  induction es generalizing s l with
  | nil => rfl
  | cons e rest ih =>
    simp only [stopLoopLogged, stopLoop, teardownLogged_eq]
    exact ih _ _

theorem Table.get_delete_self (t : Table) (id : TransportEndpointID) :
    (Table.delete t id).get id = none := by
  rw [Table.get_eq_none_iff]
  intro h
  obtain ⟨e, he, hk⟩ := List.mem_map.mp h
  exact ((Table.mem_delete _ _ _).mp he).2 hk

theorem proxyDelete_spec (p : Nat) (u : State) (c : udpPacketConn)
    (hc : u.flows[p]? = some c) :
    (proxyDelete p u).conns = Table.delete u.conns c.id ∧
    (proxyDelete p u).conns.get c.id = none ∧
    (∀ k, k ≠ c.id → (proxyDelete p u).conns.get k = u.conns.get k) ∧
    (proxyDelete p u).log = u.log ∧
    (proxyDelete p u).flows = u.flows.set p { c with phase := Phase.finished } ∧
    (proxyDelete p u).phaseOf p = some Phase.finished := by
  have h1 : (proxyDelete p u).conns = Table.delete u.conns c.id := by
    simp [proxyDelete, hc]
  have h2 : (proxyDelete p u).flows = u.flows.set p { c with phase := Phase.finished } := by
    simp only [proxyDelete, hc]
    exact setPhase_flows { u with conns := Table.delete u.conns c.id } _ _ _ hc
  refine ⟨h1, by rw [h1]; exact Table.get_delete_self _ _,
    fun k hk => by rw [h1]; exact Table.get_delete_ne _ _ _ hk, by simp [proxyDelete, hc], h2, ?_⟩
  simp [State.phaseOf, h2, getElem?_set_of_some u.flows p p c _ hc]

/-- C14: flow `p` is being relayed in state `s` when the select of `proxyUDP` leaves,
for whatever reason `x` (scope done, or a `nil` or non-`nil` result of a direction), and
`Close` answers `ve` and `re`.  The deferred function invokes the cancel function of `p`
and calls Close on both connections (l.191-197); `s2` is the state when it gets the
write lock, in which the cell of `p` is as the deferred function left it.  After the
delete of l.200 the table has no entry for the key of `p`, every other key maps to what
it mapped to in `s2`, and `proxyUDP` has returned.  With nothing interleaved, the whole
call leaves the table of `s` without the key of `p` and other keys untouched. -/
theorem proxyUDP_tears_down (x : Exit) (p : Nat) (ve re : Option Err) (s s2 : State)
    (c : udpPacketConn) (hc : s.flows[p]? = some c) (hph : c.phase = Phase.running)
    (hcell : s2.flows[p]? = (proxyDeferLogged p ve re s).1.flows[p]?) :
    step (Action.proxyDefer p) s = some (proxyDeferLogged p ve re s).1 ∧
    (proxyDeferLogged p ve re s).1.log = s.log ++ [Effect.cancel Site.proxyUDP p,
      Effect.close Site.proxyUDP (Conn.virt p), Effect.close Site.proxyUDP (Conn.real p)] ∧
    (proxyDeferLogged p ve re s).1.conns = s.conns ∧
    step (Action.proxyDelete p) s2 = some (proxyDelete p s2) ∧
    (proxyDelete p s2).conns.get c.id = none ∧
    (∀ k, k ≠ c.id → (proxyDelete p s2).conns.get k = s2.conns.get k) ∧
    (proxyDelete p s2).log = s2.log ∧
    (proxyDelete p s2).phaseOf p = some Phase.finished ∧
    (proxyUDP x p ve re s).1 = proxyDelete p (proxyDefer p s) ∧
    (proxyUDP x p ve re s).1.conns.get c.id = none ∧
    (∀ k, k ≠ c.id → (proxyUDP x p ve re s).1.conns.get k = s.conns.get k) ∧
    (proxyUDP x p ve re s).1.log = s.log ++ [Effect.cancel Site.proxyUDP p,
      Effect.close Site.proxyUDP (Conn.virt p), Effect.close Site.proxyUDP (Conn.real p)] ∧
    (proxyUDP x p ve re s).1.phaseOf p = some Phase.finished := by
  have hpa : s.phaseOf p = some Phase.running := by simp [State.phaseOf, hc, hph]
  have hdef : (proxyDeferLogged p ve re s).1 = proxyDefer p s := by rw [proxyDeferLogged_eq]
  have hlog : (proxyDefer p s).log = s.log ++ teardown Site.proxyUDP p := by simp [proxyDefer]
  have hconns : (proxyDefer p s).conns = s.conns := by simp [proxyDefer]
  have hc1 : (proxyDefer p s).flows[p]? = some { c with phase := Phase.closing } := by
    rw [proxyDefer, setPhase_flows _ p _ c (by simpa using hc),
      getElem?_set_of_some _ p p c _ (by simpa using hc)]
    simp
  rw [hdef, hc1] at hcell
  obtain ⟨-, a2, a3, a4, -, a6⟩ := proxyDelete_spec p s2 _ hcell
  obtain ⟨-, b2, b3, b4, -, b6⟩ := proxyDelete_spec p (proxyDefer p s) _ hc1
  have hu : (proxyUDP x p ve re s).1 = proxyDelete p (proxyDefer p s) := by
    simp [proxyUDP, hdef]
  refine ⟨by simp [step, hpa, hdef], by rw [hdef, hlog]; rfl, by rw [hdef, hconns],
    by simp [step, State.phaseOf, hcell], a2, a3, a4, a6, hu, by rw [hu]; exact b2, ?_, ?_,
    by rw [hu]; exact b6⟩
  · intro k hk
    rw [hu, b3 k hk, hconns]
  · rw [hu, b4, hlog]; rfl

/-- Witness of C14: the relay of `flowF` ends with a connection reset while `flowG` is
also in the table; both Close calls fail. -/
theorem proxyUDP_tears_down_witness :
    (proxyUDP (Exit.result (some (CopyErr.read "inbound->outbound" errReset))) 0
      (some errClosed) (some errClosed) twoFlows).1.conns.get flowF = none ∧
    (proxyUDP (Exit.result (some (CopyErr.read "inbound->outbound" errReset))) 0
      (some errClosed) (some errClosed) twoFlows).1.conns.get flowG = some 1 :=
  ⟨(proxyUDP_tears_down _ 0 (some errClosed) (some errClosed) twoFlows
      (proxyDeferLogged 0 (some errClosed) (some errClosed) twoFlows).1
      { id := flowF, lastSeen := 0, phase := Phase.running } rfl rfl rfl).2.2.2.2.2.2.2.2.2.1,
    ((proxyUDP_tears_down _ 0 (some errClosed) (some errClosed) twoFlows
      (proxyDeferLogged 0 (some errClosed) (some errClosed) twoFlows).1
      { id := flowF, lastSeen := 0, phase := Phase.running } rfl rfl rfl).2.2.2.2.2.2.2.2.2.2.1
      flowG (by decide)).trans (by decide)⟩
/-- C18: whatever the two Close calls answer (`ve` for the virtual side, `re` for the real
side, `answers` for the flows `Stop` visits), each teardown makes the same calls and the
same table update as when both succeed.  The deferred function of `proxyUDP` and `cleanup`
still call Close on the real side and their delete still removes the key; `Stop` still
closes the real side of every entry and empties the table.  The errors only become log
lines, one per failing Close; the teardown has no error result. -/
theorem teardown_tolerates_close_errors (ve re : Option Err)
    (answers : Nat → Option Err × Option Err) (s : State) :
    (∀ p : Nat,
      (proxyDeferLogged p ve re s).1 = proxyDefer p s ∧
      (proxyDeferLogged p ve re s).2
        = (ve.map (LogLine.closeFailed Level.error Site.proxyUDP (Conn.virt p))).toList
          ++ (re.map (LogLine.closeFailed Level.error Site.proxyUDP (Conn.real p))).toList ∧
      Effect.close Site.proxyUDP (Conn.real p) ∈ (proxyDeferLogged p ve re s).1.log ∧
      (∀ c, s.flows[p]? = some c →
        (proxyDelete p (proxyDeferLogged p ve re s).1).conns.get c.id = none)) ∧
    ((reaperCloseLogged ve re s).1 = reaperClose s ∧
      (∀ e rest, s.idleConns = e :: rest →
        (reaperCloseLogged ve re s).2
          = (ve.map (LogLine.closeFailed Level.error Site.cleanup (Conn.virt e.2))).toList
            ++ (re.map (LogLine.closeFailed Level.error Site.cleanup (Conn.real e.2))).toList ∧
        Effect.close Site.cleanup (Conn.real e.2) ∈ (reaperCloseLogged ve re s).1.log ∧
        (reaperDelete (reaperCloseLogged ve re s).1).conns.get e.1 = none)) ∧
    ((stopLockedLogged answers s).1 = stopLocked s ∧
      (stopLockedLogged answers s).1.conns = [] ∧
      (∀ e ∈ s.conns,
        Effect.close Site.Stop (Conn.real e.2) ∈ (stopLockedLogged answers s).1.log)) := by
  refine ⟨?_, ⟨reaperCloseLogged_fst ve re s, ?_⟩, ?_⟩
  · intro p
    have h := proxyDeferLogged_eq p ve re s
    refine ⟨by rw [h], by rw [h], ?_, ?_⟩
    · rw [h]; simp [proxyDefer, teardown]
    · intro c hc
      rw [h]
      have hc1 : (proxyDefer p s).flows[p]? = some { c with phase := Phase.closing } := by
        rw [proxyDefer, setPhase_flows _ p _ c (by simpa using hc),
          getElem?_set_of_some _ p p c _ (by simpa using hc)]
        simp
      exact (proxyDelete_spec p (proxyDefer p s) _ hc1).2.1
  · intro e rest hq
    refine ⟨?_, ?_, ?_⟩
    · simp [reaperCloseLogged, hq, teardownLogged_eq]
    · rw [reaperCloseLogged_fst]
      simp [reaperClose, hq, teardown]
    · rw [reaperCloseLogged_fst]
      have : (reaperDelete (reaperClose s)).conns = Table.delete s.conns e.1 := by
        simp [reaperClose, reaperDelete, hq]
      rw [this]
      exact Table.get_delete_self _ _
  · have h : (stopLockedLogged answers s).1 = stopLocked s := by
      unfold stopLockedLogged stopLocked
      exact stopLoopLogged_fst answers s.conns _ []
    refine ⟨h, by rw [h]; exact stopLocked_conns s, ?_⟩
    intro e he
    rw [h, stopLocked_log]
    apply List.mem_append_right
    exact List.mem_flatMap.mpr ⟨e, he, by simp [teardown]⟩

/-- C19: `proxyUDP` writes the error-level line of l.219 for an exit exactly when a
direction sent a non-`nil` result whose chain holds neither `net.ErrClosed` nor
`context.Canceled`, and it writes nothing else about the exit.  In particular a read or
write error of `copy` that wraps `net.ErrClosed`, and the error of a cancelled context,
are not logged.  Whatever the exit is, the deferred teardown runs the same way. -/
theorem proxyUDP_reports (x : Exit) :
    (∀ err, LogLine.copyFailed err ∈ proxyReport x ↔
      (x = Exit.result (some err) ∧ err.cause.closed = false ∧ err.cause.canceled = false)) ∧
    (∀ l ∈ proxyReport x, ∃ err, l = LogLine.copyFailed err) ∧
    (∀ (direction : String) (e : Err), e.closed = true →
      proxyReport (Exit.result (some (CopyErr.read direction e))) = [] ∧
      proxyReport (Exit.result (some (CopyErr.write direction e))) = []) ∧
    (∀ e : Err, e.canceled = true → proxyReport (Exit.result (some (CopyErr.ctx e))) = []) ∧
    proxyReport Exit.ctxDone = [] ∧ proxyReport (Exit.result none) = [] ∧
    (∀ (p : Nat) (ve re : Option Err) (s : State),
      (proxyUDP x p ve re s).1 = proxyDelete p (proxyDefer p s) ∧
      (proxyUDP x p ve re s).2 = proxyReport x ++
        ((ve.map (LogLine.closeFailed Level.error Site.proxyUDP (Conn.virt p))).toList
          ++ (re.map (LogLine.closeFailed Level.error Site.proxyUDP (Conn.real p))).toList)) := by
  refine ⟨?_, ?_, ?_, ?_, rfl, rfl, ?_⟩
  · intro err
    cases x with
    | ctxDone => simp [proxyReport]
    | result r =>
      cases r with
      | none => simp [proxyReport]
      | some e0 =>
        by_cases hcl : isClosedError e0.cause = true
        · have hcl2 := hcl
          simp only [isClosedError, Bool.or_eq_true] at hcl2
          simp only [proxyReport, hcl, if_true, List.not_mem_nil, false_iff, not_and]
          intro hx
          simp only [Exit.result.injEq, Option.some.injEq] at hx
          subst hx
          rcases hcl2 with h | h <;> simp [h]
        · have hcl2 : e0.cause.closed = false ∧ e0.cause.canceled = false := by
            simpa [isClosedError] using hcl
          simp only [proxyReport, hcl, Bool.false_eq_true, if_false, List.mem_singleton,
            LogLine.copyFailed.injEq, Exit.result.injEq, Option.some.injEq]
          constructor
          · intro h; subst h; exact ⟨rfl, hcl2⟩
          · intro h; exact h.1.symm
  · intro l hl
    cases x with
    | ctxDone => simp [proxyReport] at hl
    | result r =>
      cases r with
      | none => simp [proxyReport] at hl
      | some e0 =>
        by_cases hcl : isClosedError e0.cause = true
        · simp [proxyReport, hcl] at hl
        · simp only [proxyReport, hcl, Bool.false_eq_true, if_false, List.mem_singleton] at hl
          exact ⟨e0, hl⟩
  · intro direction e he
    simp [proxyReport, isClosedError, CopyErr.cause, he]
  · intro e he
    simp [proxyReport, isClosedError, CopyErr.cause, he]
  · intro p ve re s
    simp [proxyUDP, proxyDeferLogged_eq]
/-! ## Repeated teardown -/

theorem stopLoop_udpCtxDone (es : Table) (s : State) :
    (stopLoop es s).udpCtxDone = s.udpCtxDone ∧ (stopLoop es s).stops = s.stops ∧
    (stopLoop es s).ctxDone = s.ctxDone := by
  induction es generalizing s with
  | nil => exact ⟨rfl, rfl, rfl⟩
  | cons e rest ih =>
    obtain ⟨h1, h2, h3⟩ := ih { s.emit (teardown Site.Stop e.2) with
      conns := s.conns.delete e.1 }
    exact ⟨h1, h2, h3⟩

theorem Stop_of_stopped (t : State) (hc : t.conns = []) (hu : t.udpCtxDone = true) :
    Stop t = t := by
  obtain ⟨c1, c2, c3, c4, c5, c6, c7, c8⟩ := t
  simp only at hc hu
  subst hc hu
  simp [Stop, stopLocked, stopCancel, stopLoop]

theorem setPhase_kept (s : State) (p : Nat) (ph : Phase) :
    (s.setPhase p ph).flows.map udpPacketConn.kept = s.flows.map udpPacketConn.kept := by
  cases hc : s.flows[p]? with
  | none => simp [State.setPhase, hc]
  | some c =>
    rw [setPhase_flows s p ph c hc]
    apply List.ext_getElem?
    intro i
    simp only [List.getElem?_map, getElem?_set_of_some s.flows p i c _ hc]
    by_cases hi : i = p
    · subst hi; simp [hc, udpPacketConn.kept]
    · simp [hi]

theorem teardown_step (a : Action) (s t : State) (ha : a.isTeardown = true)
    (hst : step a s = some t) :
    (∀ e ∈ t.conns, e ∈ s.conns) ∧
    t.flows.map udpPacketConn.kept = s.flows.map udpPacketConn.kept ∧
    ∃ es, t.log = s.log ++ es ∧ ∀ x ∈ es, x.isTeardownCall = true := by
  cases a with
  | proxyDefer p =>
    simp only [step] at hst; split at hst <;> try cases hst
    refine ⟨by simp [proxyDefer], ?_, teardown Site.proxyUDP p, by simp [proxyDefer],
      by simp [teardown, Effect.isTeardownCall]⟩
    rw [proxyDefer, setPhase_kept]; rfl
  | proxyDelete p =>
    simp only [step] at hst; split at hst <;> try cases hst
    cases hc : s.flows[p]? with
    | none => exact ⟨by simp [proxyDelete, hc], by simp [proxyDelete, hc], [], by simp [proxyDelete, hc], by simp⟩
    | some c =>
      refine ⟨?_, ?_, [], by simp [proxyDelete, hc], by simp⟩
      · intro e he
        simp only [proxyDelete, hc, setPhase_conns] at he
        exact ((Table.mem_delete _ _ _).mp he).1
      · simp only [proxyDelete, hc]
        rw [setPhase_kept]
  | scan now =>
    simp only [step] at hst; split at hst <;> try cases hst
    exact ⟨fun e he => he, rfl, [], by simp [scan], by simp⟩
  | reaperClose =>
    simp only [step] at hst; split at hst <;> try cases hst
    unfold reaperClose
    cases hq : s.idleConns with
    | nil => exact ⟨fun e he => he, rfl, [], by simp, by simp⟩
    | cons e rest =>
      exact ⟨fun x hx => hx, rfl, teardown Site.cleanup e.2, rfl,
        by simp [teardown, Effect.isTeardownCall]⟩
  | reaperDelete =>
    simp only [step] at hst; split at hst <;> try cases hst
    unfold reaperDelete
    cases hq : s.idleConns with
    | nil => exact ⟨fun e he => he, rfl, [], by simp, by simp⟩
    | cons e rest =>
      exact ⟨fun x hx => ((Table.mem_delete _ _ _).mp hx).1, rfl, [], by simp, by simp⟩
  | stopCancel =>
    simp only [step, Option.some.injEq] at hst; subst hst
    exact ⟨fun e he => he, rfl, [], by simp [stopCancel], by simp⟩
  | stopLocked =>
    simp only [step] at hst; split at hst <;> try cases hst
    refine ⟨by simp [stopLocked_conns], ?_, _, stopLocked_log s, ?_⟩
    · unfold stopLocked; rw [stopLoop_flows]
    · intro x hx
      obtain ⟨e, -, he⟩ := List.mem_flatMap.mp hx
      simp only [teardown, List.mem_cons, List.mem_singleton, List.not_mem_nil, or_false] at he
      rcases he with he | he | he <;> subst he <;> rfl
  | ctxCancel => cases ha
  | lookup id => cases ha
  | dialFailed a => cases ha
  | endpointFailed a => cases ha
  | build a now => cases ha
  | insertLocked a => cases ha
  | discard a => cases ha
  | spawn a => cases ha
  | updateLastSeen p now => cases ha

theorem teardown_run (acts : List Action) (s t : State)
    (ha : ∀ a ∈ acts, a.isTeardown = true) (h : run acts s = some t) :
    (∀ e ∈ t.conns, e ∈ s.conns) ∧
    t.flows.map udpPacketConn.kept = s.flows.map udpPacketConn.kept ∧
    ∃ es, t.log = s.log ++ es ∧ ∀ x ∈ es, x.isTeardownCall = true := by
  induction acts generalizing s with
  | nil =>
    simp only [run, Option.some.injEq] at h
    subst h
    exact ⟨fun e he => he, rfl, [], by simp, by simp⟩
  | cons a rest ih =>
    simp only [run] at h
    cases hst : step a s with
    | none => rw [hst] at h; cases h
    | some u =>
      rw [hst] at h
      obtain ⟨a1, a2, es1, a3, a4⟩ := teardown_step a s u (ha a (List.mem_cons_self _ _)) hst
      obtain ⟨b1, b2, es2, b3, b4⟩ := ih u (fun x hx => ha x (List.mem_cons_of_mem _ hx)) h
      refine ⟨fun e he => a1 e (b1 e he), b2.trans a2, es1 ++ es2, ?_, ?_⟩
      · rw [b3, a3, List.append_assoc]
      · intro x hx
        rcases List.mem_append.mp hx with hx | hx
        · exact a4 x hx
        · exact b4 x hx

/-- C15: (1) `Stop` run a second time right after `Stop` changes nothing: the state,
hence the empty table and the log of calls, is the one the first `Stop` left; no further
Close call is made.  (2) Whatever schedule of steps of `Stop`, of the reaper and of
deferred functions of `proxyUDP` runs from a state, it only removes table entries,
leaves the key and `lastSeen` of every flow object as they were, and the only calls it
makes are cancel and Close calls.  (3) A teardown of a flow whose key is no longer in the
table leaves the table as it is: for `proxyUDP` and for the reaper all that happens is
the repeated cancel and Close calls; `Stop` on an empty table makes no call. -/
theorem Stop_idempotent (s : State) :
    (Stop (Stop s) = Stop s ∧ (Stop (Stop s)).conns = [] ∧ (Stop (Stop s)).log = (Stop s).log) ∧
    (∀ (acts : List Action) (t : State), (∀ a ∈ acts, a.isTeardown = true) →
      run acts s = some t →
      (∀ e ∈ t.conns, e ∈ s.conns) ∧
      t.flows.map udpPacketConn.kept = s.flows.map udpPacketConn.kept ∧
      ∃ es, t.log = s.log ++ es ∧ ∀ x ∈ es, x.isTeardownCall = true) ∧
    (∀ (p : Nat) (c : udpPacketConn), s.flows[p]? = some c → s.conns.get c.id = none →
      (proxyDelete p (proxyDefer p s)).conns = s.conns ∧
      (proxyDelete p (proxyDefer p s)).log = s.log ++ teardown Site.proxyUDP p) ∧
    (∀ (e : TransportEndpointID × Nat) (rest : Table), s.idleConns = e :: rest →
      s.conns.get e.1 = none →
      (reaperDelete (reaperClose s)).conns = s.conns ∧
      (reaperDelete (reaperClose s)).log = s.log ++ teardown Site.cleanup e.2) ∧
    (s.conns = [] → (stopLocked s).conns = [] ∧ (stopLocked s).log = s.log) := by
  have h1 : Stop (Stop s) = Stop s := by
    apply Stop_of_stopped
    · exact stopLocked_conns _
    · simp only [Stop, stopLocked]
      rw [(stopLoop_udpCtxDone _ _).1]
      rfl
  refine ⟨⟨h1, by rw [h1]; exact stopLocked_conns _, by rw [h1]⟩,
    fun acts t ha h => teardown_run acts s t ha h, ?_, ?_, ?_⟩
  · intro p c hc habs
    have hc1 : (proxyDefer p s).flows[p]? = some { c with phase := Phase.closing } := by
      rw [proxyDefer, setPhase_flows _ p _ c (by simpa using hc),
        getElem?_set_of_some _ p p c _ (by simpa using hc)]
      simp
    obtain ⟨a1, -, -, a4, -, -⟩ := proxyDelete_spec p (proxyDefer p s) _ hc1
    refine ⟨?_, ?_⟩
    · rw [a1]
      simp only [proxyDefer, setPhase_conns, emit_conns]
      exact Table.delete_eq_self _ _ habs
    · rw [a4]; simp [proxyDefer]
  · intro e rest hq habs
    refine ⟨?_, ?_⟩
    · have : (reaperDelete (reaperClose s)).conns = Table.delete s.conns e.1 := by
        simp [reaperClose, reaperDelete, hq]
      rw [this]
      exact Table.delete_eq_self _ _ habs
    · simp [reaperClose, reaperDelete, hq]
  · intro hc
    refine ⟨stopLocked_conns s, ?_⟩
    rw [stopLocked_log, hc]
    simp

/-- C15, a run: flow 0 is torn down by `Stop`, by the reaper and by its own `proxyUDP`;
the schedule runs to its end, the table is empty, flow 0 has finished and each of its
connections got three Close calls. -/
theorem Stop_idempotent_witness :
    (run tornDownThrice newUDPForwarder).isSome = true ∧
    (after tornDownThrice).conns = [] ∧
    (after tornDownThrice).phaseOf 0 = some Phase.finished ∧
    closes (after tornDownThrice) (Conn.virt 0) = 3 ∧
    closes (after tornDownThrice) (Conn.real 0) = 3 ∧
    Stop (Stop (after tornDownThrice)) = Stop (after tornDownThrice) :=
  ⟨by decide, by decide, by decide, by decide, by decide,
    (Stop_idempotent (after tornDownThrice)).1.1⟩
/-! ## The link endpoint -/

theorem count_range_shift (f : Nat → Bool) (n : Nat) :
    ((List.range (n + 1)).filter f).length
      = (if f 0 then 1 else 0) + ((List.range n).filter (fun j => f (j + 1))).length := by
  rw [List.range_succ_eq_map, List.filter_cons]
  have : (List.filter f (List.map Nat.succ (List.range n))).length
      = ((List.range n).filter (fun j => f (j + 1))).length := by
    rw [List.filter_map, List.length_map]
    rfl
  by_cases h : f 0 = true
  · simp only [h, if_true, List.length_cons, this]; omega
  · simp only [h, Bool.false_eq_true, if_false, this]; omega

theorem writeLoop_spec (device : Nat → Option Err) (pkts : List PacketBuffer)
    (acc : Nat × List OutboundCall) :
    (writeLoop device pkts acc).2 = acc.2 ++ pkts.filterMap PacketBuffer.call ∧
    (writeLoop device pkts acc).1
      = acc.1 + ((List.range (pkts.filterMap PacketBuffer.call).length).filter
          (fun j => (device (acc.2.length + j)).isNone)).length := by
  induction pkts generalizing acc with
  | nil => simp [writeLoop]
  | cons pkt rest ih =>
    cases hp : pkt.payloadSince with
    | none =>
      have hcall : pkt.call = none := by simp [PacketBuffer.call, hp]
      simp only [writeLoop, hp, List.filterMap_cons, hcall]
      exact ih acc
    | some data =>
      have hcall : pkt.call
          = some { data := data, address := DestinationAddress pkt.networkHeader } := by
        simp [PacketBuffer.call, hp]
      have hfun : (fun j => (device (acc.2.length + 1 + j)).isNone)
          = (fun j => (device (acc.2.length + (j + 1))).isNone) := by
        funext j
        rw [show acc.2.length + 1 + j = acc.2.length + (j + 1) by omega]
      have hcount := count_range_shift (fun j => (device (acc.2.length + j)).isNone)
        (List.filterMap PacketBuffer.call rest).length
      simp only [Nat.add_zero] at hcount
      cases hd : device acc.2.length with
      | some e =>
        obtain ⟨i1, i2⟩ := ih (acc.1, acc.2 ++
          [{ data := data, address := DestinationAddress pkt.networkHeader }])
        simp only [List.length_append, List.length_singleton, hfun] at i2
        simp only [hd, Option.isNone_some, Bool.false_eq_true, if_false] at hcount
        simp only [writeLoop, hp, hd, List.filterMap_cons, hcall, List.length_cons]
        refine ⟨by rw [i1]; simp, ?_⟩
        rw [i2, hcount]
        omega
      | none =>
        obtain ⟨i1, i2⟩ := ih (acc.1 + 1, acc.2 ++
          [{ data := data, address := DestinationAddress pkt.networkHeader }])
        simp only [List.length_append, List.length_singleton, hfun] at i2
        simp only [hd, Option.isNone_none, if_true] at hcount
        simp only [writeLoop, hp, hd, List.filterMap_cons, hcall, List.length_cons]
        refine ⟨by rw [i1]; simp, ?_⟩
        rw [i2, hcount]
        omega

/-- C16: for every batch and every device, `WritePackets` returns a `nil` error and the
count `k` of the calls of `CreateOutboundPacket` that answered no error, the calls being
made for exactly the packets whose payload could be extracted.  `k` is at most the number
of calls attempted, which is at most the batch length; on `batch3` with a device that
refuses the first call, three packets are in the batch, two calls are attempted and the
count returned is one. -/
theorem WritePackets_count (device : Nat → Option Err) (pkts : List PacketBuffer) :
    (WritePackets device pkts).2.1 = none ∧
    (WritePackets device pkts).2.2.length
      = (pkts.filter (fun pkt => pkt.payloadSince.isSome)).length ∧
    (WritePackets device pkts).1
      = ((List.range (WritePackets device pkts).2.2.length).filter
          (fun j => (device j).isNone)).length ∧
    (WritePackets device pkts).1 ≤ (WritePackets device pkts).2.2.length ∧
    (WritePackets device pkts).2.2.length ≤ pkts.length ∧
    (WritePackets device pkts).1 ≤ pkts.length ∧
    (batch3.length = 3 ∧ (WritePackets firstFails batch3).2.2.length = 2 ∧
      (WritePackets firstFails batch3).1 = 1) := by
  obtain ⟨h1, h2⟩ := writeLoop_spec device pkts (0, [])
  have hcalls : (WritePackets device pkts).2.2 = pkts.filterMap PacketBuffer.call := by
    simp [WritePackets, h1]
  have hlen : (pkts.filterMap PacketBuffer.call).length
      = (pkts.filter (fun pkt => pkt.payloadSince.isSome)).length := by
    clear h1 h2 hcalls
    induction pkts with
    | nil => rfl
    | cons pkt rest ih =>
      cases hp : pkt.payloadSince <;>
        simp [List.filterMap_cons, List.filter_cons, PacketBuffer.call, hp, ih]
  have hk : (WritePackets device pkts).1
      = ((List.range (WritePackets device pkts).2.2.length).filter
          (fun j => (device j).isNone)).length := by
    rw [hcalls]
    simp only [WritePackets, h2]
    simp
  have hle1 : (WritePackets device pkts).1 ≤ (WritePackets device pkts).2.2.length := by
    rw [hk]
    calc ((List.range (WritePackets device pkts).2.2.length).filter
            (fun j => (device j).isNone)).length
        ≤ (List.range (WritePackets device pkts).2.2.length).length :=
          List.length_filter_le _ _
      _ = (WritePackets device pkts).2.2.length := List.length_range _
  have hle2 : (WritePackets device pkts).2.2.length ≤ pkts.length := by
    rw [hcalls, hlen]
    exact List.length_filter_le _ _
  exact ⟨rfl, by rw [hcalls, hlen], hk, hle1, hle2, le_trans hle1 hle2,
    by decide, by decide, by decide⟩

/-- C17: for every batch and every device, the calls of `CreateOutboundPacket` are, in
batch order, one call for each packet whose payload could be extracted and none for the
others; the call passes the extracted bytes and bytes 16 to 19 of the network header, the
IPv4 destination address.  The calls do not depend on what the device answers: a refused
packet is not retried and the later packets are still handed over. -/
theorem WritePackets_calls (device : Nat → Option Err) (pkts : List PacketBuffer) :
    (WritePackets device pkts).2.2 = pkts.filterMap PacketBuffer.call ∧
    (∀ pkt : PacketBuffer, pkt.payloadSince = none → pkt.call = none) ∧
    (∀ (pkt : PacketBuffer) (data : List Nat), pkt.payloadSince = some data →
      pkt.call = some { data := data, address := (pkt.networkHeader.drop 16).take 4 }) ∧
    (∀ device2 : Nat → Option Err,
      (WritePackets device2 pkts).2.2 = (WritePackets device pkts).2.2) ∧
    (WritePackets firstFails batch3).2.2
      = [{ data := [69, 0, 0, 28, 0, 0, 0, 0, 64, 17, 0, 0, 10, 0, 0, 5, 10, 0, 0, 7, 1],
           address := [10, 0, 0, 7] },
         { data := [69, 0, 0, 28, 0, 0, 0, 0, 64, 17, 0, 0, 10, 0, 0, 5, 10, 0, 0, 7, 2, 3],
           address := [10, 0, 0, 7] }] := by
  have key : ∀ d : Nat → Option Err,
      (WritePackets d pkts).2.2 = pkts.filterMap PacketBuffer.call := by
    intro d
    simp [WritePackets, (writeLoop_spec d pkts (0, [])).1]
  refine ⟨key device, ?_, ?_, fun d2 => by rw [key d2, key device], by decide⟩
  · intro pkt h; simp [PacketBuffer.call, h]
  · intro pkt data h; simp [PacketBuffer.call, h, DestinationAddress]

end Forwarder

namespace Peer

/-! ## AddPeer and GetPeer -/

theorem mapDelete_eq_self {κ α : Type} [DecidableEq κ] (m : List (κ × α)) (k : κ)
    (h : mapGet m k = none) : mapDelete m k = m := by
  induction m with
  | nil => rfl
  | cons x rest ih =>
    obtain ⟨k1, v⟩ := x
    by_cases hk : k1 = k
    · simp [mapGet, hk] at h
    · simp only [mapGet, hk, if_false] at h
      have := ih h
      unfold mapDelete at this ⊢
      rw [List.filter_cons]
      simp only [ne_eq, hk, not_false_eq_true, decide_True, if_true]
      rw [show List.filter (fun e => decide (¬ e.1 = k)) rest = rest from this]

theorem mapGet_cons_ne {κ α : Type} [DecidableEq κ] (m : List (κ × α)) (k k1 : κ) (v : α)
    (h : k1 ≠ k) : mapGet ((k, v) :: m) k1 = mapGet m k1 := by
  simp [mapGet, Ne.symm h]

/-- C20: `AddPeer` returns an error exactly when the key is already in `peers`, and then
the recorder is unchanged.  Otherwise no error is returned, `peers` is the old map plus
the one entry for the key, whose state has the given key, FQDN and IP, `ConnStatus` equal
to `StatusDisconnected`, a fresh mutex and zero values elsewhere; every other key maps to
what it mapped to; the other fields keep their values, except the peer-list-changed flag,
which is set; and `GetPeer` for the key then returns that state and no error.  `GetPeer`
returns the zero state and `ErrPeerNotFound` for an absent key, the stored state and no
error for a present one, and never changes the recorder. -/
theorem AddPeer_spec (StatusDisconnected : ConnStatus) (peerPubKey fqdn ip : String)
    (d : Status) :
    ((AddPeer StatusDisconnected peerPubKey fqdn ip d).2.isSome = true ↔
      (mapGet d.peers peerPubKey).isSome = true) ∧
    ((mapGet d.peers peerPubKey).isSome = true →
      (AddPeer StatusDisconnected peerPubKey fqdn ip d).1 = d) ∧
    (mapGet d.peers peerPubKey = none →
      (AddPeer StatusDisconnected peerPubKey fqdn ip d).2 = none ∧
      (AddPeer StatusDisconnected peerPubKey fqdn ip d).1.peers
        = (peerPubKey, { State.zero with
            PubKey := peerPubKey, IP := ip, ConnStatus := StatusDisconnected, FQDN := fqdn,
            Mux := true }) :: d.peers ∧
      mapGet (AddPeer StatusDisconnected peerPubKey fqdn ip d).1.peers peerPubKey
        = some { State.zero with
            PubKey := peerPubKey, IP := ip, ConnStatus := StatusDisconnected, FQDN := fqdn,
            Mux := true } ∧
      (∀ k, k ≠ peerPubKey →
        mapGet (AddPeer StatusDisconnected peerPubKey fqdn ip d).1.peers k
          = mapGet d.peers k) ∧
      (AddPeer StatusDisconnected peerPubKey fqdn ip d).1.managementState
        = d.managementState ∧
      (AddPeer StatusDisconnected peerPubKey fqdn ip d).1.managementError
        = d.managementError ∧
      (AddPeer StatusDisconnected peerPubKey fqdn ip d).1.resolvedDomainsStates
        = d.resolvedDomainsStates ∧
      (AddPeer StatusDisconnected peerPubKey fqdn ip d).1.peerListChangedForNotification
        = true ∧
      GetPeer peerPubKey (AddPeer StatusDisconnected peerPubKey fqdn ip d).1
        = ({ State.zero with
            PubKey := peerPubKey, IP := ip, ConnStatus := StatusDisconnected, FQDN := fqdn,
            Mux := true }, none)) ∧
    (∀ k, mapGet d.peers k = none → GetPeer k d = (State.zero, some GoError.ErrPeerNotFound)) ∧
    (∀ k st, mapGet d.peers k = some st → GetPeer k d = (st, none)) := by
  refine ⟨?_, ?_, ?_, ?_, ?_⟩
  · cases h : mapGet d.peers peerPubKey <;> simp [AddPeer, h]
  · intro h
    cases hg : mapGet d.peers peerPubKey with
    | none => simp [hg] at h
    | some st => simp [AddPeer, hg]
  · intro h
    have hpeers : (AddPeer StatusDisconnected peerPubKey fqdn ip d).1.peers
        = (peerPubKey, { State.zero with
            PubKey := peerPubKey, IP := ip, ConnStatus := StatusDisconnected, FQDN := fqdn,
            Mux := true }) :: d.peers := by
      simp [AddPeer, h, mapSet, mapDelete_eq_self _ _ h]
    have hget : mapGet (AddPeer StatusDisconnected peerPubKey fqdn ip d).1.peers peerPubKey
        = some { State.zero with
            PubKey := peerPubKey, IP := ip, ConnStatus := StatusDisconnected, FQDN := fqdn,
            Mux := true } := by
      rw [hpeers]; simp [mapGet]
    refine ⟨by simp [AddPeer, h], hpeers, hget, ?_, by simp [AddPeer, h], by simp [AddPeer, h],
      by simp [AddPeer, h], by simp [AddPeer, h], ?_⟩
    · intro k hk
      rw [hpeers]
      exact mapGet_cons_ne _ _ _ _ hk
    · simp only [GetPeer, hget]
  · intro k h
    simp [GetPeer, h]
  · intro k st h
    simp [GetPeer, h]

/-- Witness of C20: adding `keyB` to a recorder that knows `keyA`, then adding it again. -/
theorem AddPeer_spec_witness :
    GetPeer "keyB" (AddPeer 2 "keyB" "b.netbird.cloud" "100.64.0.2" onePeer).1
      = ({ State.zero with
          PubKey := "keyB", IP := "100.64.0.2", ConnStatus := 2, FQDN := "b.netbird.cloud",
          Mux := true }, none) ∧
    (AddPeer 2 "keyA" "b.netbird.cloud" "100.64.0.2" onePeer).1 = onePeer :=
  ⟨((AddPeer_spec 2 "keyB" "b.netbird.cloud" "100.64.0.2" onePeer).2.2.1
      (by decide)).2.2.2.2.2.2.2.2,
    (AddPeer_spec 2 "keyA" "b.netbird.cloud" "100.64.0.2" onePeer).2.1 (by decide)⟩
/-! ## UpdatePeerFQDN -/

theorem mapGet_mapDelete {κ α : Type} [DecidableEq κ] (m : List (κ × α)) (k k1 : κ) :
    mapGet (mapDelete m k) k1 = if k1 = k then none else mapGet m k1 := by
  induction m with
  | nil => simp [mapDelete, mapGet]
  | cons x rest ih =>
    obtain ⟨k2, v⟩ := x
    unfold mapDelete at ih ⊢
    rw [List.filter_cons]
    by_cases h2 : k2 = k
    · subst h2
      simp only [ne_eq, not_true_eq_false, decide_False, Bool.false_eq_true, if_false, ih]
      by_cases h1 : k1 = k2
      · simp [h1]
      · simp [h1, mapGet, Ne.symm h1]
    · simp only [ne_eq, h2, not_false_eq_true, decide_True, if_true]
      by_cases h1 : k1 = k
      · subst h1
        simp only [mapGet, h2, if_false, ih, if_true]
      · simp only [mapGet, ih, h1, if_false]

theorem mapGet_mapSet_self {κ α : Type} [DecidableEq κ] (m : List (κ × α)) (k : κ) (v : α) :
    mapGet (mapSet m k v) k = some v := by
  simp [mapSet, mapGet]

theorem mapGet_mapSet_ne {κ α : Type} [DecidableEq κ] (m : List (κ × α)) (k k1 : κ) (v : α)
    (h : k1 ≠ k) : mapGet (mapSet m k v) k1 = mapGet m k1 := by
  unfold mapSet
  rw [mapGet_cons_ne _ _ _ _ h, mapGet_mapDelete, if_neg h]

/-- C21: for a key that is in `peers` with state `st`, `UpdatePeerFQDN` returns no error,
the key then maps to `st` with only `FQDN` replaced (every other field of the state is the
one of `st`), every other key maps to what it mapped to, and the peer-list-changed flag
and the other fields of the recorder are unchanged.  For a key that is not in `peers` it
returns the error `peer doesn't exist` and the recorder is unchanged. -/
theorem UpdatePeerFQDN_spec (peerPubKey fqdn : String) (d : Status) :
    (∀ st, mapGet d.peers peerPubKey = some st →
      (UpdatePeerFQDN peerPubKey fqdn d).2 = none ∧
      mapGet (UpdatePeerFQDN peerPubKey fqdn d).1.peers peerPubKey
        = some { st with FQDN := fqdn } ∧
      (∀ st1, mapGet (UpdatePeerFQDN peerPubKey fqdn d).1.peers peerPubKey = some st1 →
        st1.FQDN = fqdn ∧ st1.Mux = st.Mux ∧ st1.IP = st.IP ∧ st1.PubKey = st.PubKey ∧
        st1.ConnStatus = st.ConnStatus ∧ st1.ConnStatusUpdate = st.ConnStatusUpdate ∧
        st1.Relayed = st.Relayed ∧
        st1.LocalIceCandidateType = st.LocalIceCandidateType ∧
        st1.RemoteIceCandidateType = st.RemoteIceCandidateType ∧
        st1.LocalIceCandidateEndpoint = st.LocalIceCandidateEndpoint ∧
        st1.RemoteIceCandidateEndpoint = st.RemoteIceCandidateEndpoint ∧
        st1.RelayServerAddress = st.RelayServerAddress ∧
        st1.LastWireguardHandshake = st.LastWireguardHandshake ∧
        st1.BytesTx = st.BytesTx ∧ st1.BytesRx = st.BytesRx ∧ st1.Latency = st.Latency ∧
        st1.RosenpassEnabled = st.RosenpassEnabled ∧ st1.routes = st.routes) ∧
      (∀ k, k ≠ peerPubKey →
        mapGet (UpdatePeerFQDN peerPubKey fqdn d).1.peers k = mapGet d.peers k) ∧
      (UpdatePeerFQDN peerPubKey fqdn d).1.peerListChangedForNotification
        = d.peerListChangedForNotification ∧
      (UpdatePeerFQDN peerPubKey fqdn d).1.managementState = d.managementState ∧
      (UpdatePeerFQDN peerPubKey fqdn d).1.managementError = d.managementError ∧
      (UpdatePeerFQDN peerPubKey fqdn d).1.resolvedDomainsStates
        = d.resolvedDomainsStates) ∧
    (mapGet d.peers peerPubKey = none →
      UpdatePeerFQDN peerPubKey fqdn d = (d, some (GoError.text "peer doesn't exist"))) := by
  constructor
  · intro st h
    have hp : (UpdatePeerFQDN peerPubKey fqdn d).1.peers
        = mapSet d.peers peerPubKey { st with FQDN := fqdn } := by
      simp [UpdatePeerFQDN, h]
    refine ⟨by simp [UpdatePeerFQDN, h], ?_, ?_, ?_, by simp [UpdatePeerFQDN, h],
      by simp [UpdatePeerFQDN, h], by simp [UpdatePeerFQDN, h], by simp [UpdatePeerFQDN, h]⟩
    · rw [hp, mapGet_mapSet_self]
    · intro st1 h1
      rw [hp, mapGet_mapSet_self] at h1
      cases h1
      exact ⟨rfl, rfl, rfl, rfl, rfl, rfl, rfl, rfl, rfl, rfl, rfl, rfl, rfl, rfl, rfl, rfl,
        rfl, rfl⟩
    · intro k hk
      rw [hp, mapGet_mapSet_ne _ _ _ _ hk]
  · intro h
    simp [UpdatePeerFQDN, h]

/-- Witness of C21: renaming `keyA`, which the recorder knows, and `keyB`, which it does
not. -/
theorem UpdatePeerFQDN_spec_witness :
    mapGet (UpdatePeerFQDN "keyA" "new.netbird.cloud" onePeer).1.peers "keyA"
      = some { State.zero with
          PubKey := "keyA", IP := "100.64.0.1", ConnStatus := 1, FQDN := "new.netbird.cloud",
          Mux := true } ∧
    UpdatePeerFQDN "keyB" "new.netbird.cloud" onePeer
      = (onePeer, some (GoError.text "peer doesn't exist")) :=
  ⟨((UpdatePeerFQDN_spec "keyA" "new.netbird.cloud" onePeer).1
      { State.zero with
        PubKey := "keyA", IP := "100.64.0.1", ConnStatus := 1, FQDN := "a.netbird.cloud",
        Mux := true } (by decide)).2.1,
    (UpdatePeerFQDN_spec "keyB" "new.netbird.cloud" onePeer).2 (by decide)⟩

/-! ## IsLoginRequired -/

/-- C22: `IsLoginRequired` is false whenever the management connection is marked
connected, so also right after `MarkManagementConnected`.  When it is not marked
connected, the result is true exactly when the stored error carries a gRPC status whose
code is `InvalidArgument` or `PermissionDenied`; it is false for the `nil` error, so also
after `MarkManagementDisconnected(nil)`, and `MarkManagementDisconnected(err)` makes the
result depend on `err` alone. -/
theorem IsLoginRequired_spec (d : Status) :
    (d.managementState = true → IsLoginRequired d = false) ∧
    IsLoginRequired (MarkManagementConnected d) = false ∧
    (d.managementState = false →
      (IsLoginRequired d = true ↔
        (d.managementError = some (GoError.status codesInvalidArgument) ∨
          d.managementError = some (GoError.status codesPermissionDenied)))) ∧
    (d.managementState = false → d.managementError = none → IsLoginRequired d = false) ∧
    IsLoginRequired (MarkManagementDisconnected none d) = false ∧
    (∀ err, IsLoginRequired (MarkManagementDisconnected err d) = true ↔
      (err = some (GoError.status codesInvalidArgument) ∨
        err = some (GoError.status codesPermissionDenied))) := by
  have key : ∀ e : Status, e.managementState = false →
      (IsLoginRequired e = true ↔
        (e.managementError = some (GoError.status codesInvalidArgument) ∨
          e.managementError = some (GoError.status codesPermissionDenied))) := by
    intro e he
    unfold IsLoginRequired
    rw [he]
    cases hm : e.managementError with
    | none => simp [FromError, codesOK, codesInvalidArgument, codesPermissionDenied]
    | some err =>
      cases err with
      | text msg =>
        simp [FromError]
      | ErrPeerNotFound => simp [FromError]
      | status code =>
        simp [FromError]
  refine ⟨?_, ?_, key d, ?_, ?_, ?_⟩
  · intro h
    simp [IsLoginRequired, h]
  · simp [IsLoginRequired, MarkManagementConnected]
  · intro h hn
    have := key d h
    rw [hn] at this
    simpa using this
  · have := key (MarkManagementDisconnected none d) rfl
    simpa [MarkManagementDisconnected] using this
  · intro err
    exact key (MarkManagementDisconnected err d) rfl

/-- Witness of C22: a recorder marked disconnected with a `PermissionDenied` status
requires login, one with a plain error does not, and the connected recorder does not. -/
theorem IsLoginRequired_spec_witness :
    IsLoginRequired (MarkManagementDisconnected (some (GoError.status 7)) onePeer) = true ∧
    IsLoginRequired (MarkManagementDisconnected (some (GoError.text "timeout")) onePeer)
      = false ∧
    IsLoginRequired onePeer = false :=
  ⟨((IsLoginRequired_spec onePeer).2.2.2.2.2 (some (GoError.status 7))).2 (Or.inr rfl),
    by decide,
    (IsLoginRequired_spec onePeer).1 rfl⟩
/-! ## DeleteResolvedDomainsStates -/

theorem mapGet_deleteLoop (domain : String) (order m : List (String × ResolvedDomainInfo))
    (k : String) :
    mapGet (deleteLoop domain order m) k
      = if order.any (fun e => decide (e.1 = k ∧ e.2.ParentDomain = domain)) then none
        else mapGet m k := by
  induction order generalizing m with
  | nil => simp [deleteLoop]
  | cons x rest ih =>
    obtain ⟨k1, v⟩ := x
    unfold deleteLoop
    by_cases hv : v.ParentDomain = domain
    · rw [if_pos hv, ih, mapGet_mapDelete]
      by_cases hk : k = k1
      · subst hk
        simp [hv]
      · have hd : decide (k1 = k ∧ v.ParentDomain = domain) = false :=
          decide_eq_false (fun h => hk h.1.symm)
        rw [if_neg hk, List.any_cons, hd, Bool.false_or]
    · have hd : decide (k1 = k ∧ v.ParentDomain = domain) = false :=
        decide_eq_false (fun h => hv h.2)
      rw [if_neg hv, ih, List.any_cons, hd, Bool.false_or]

theorem mem_of_mapGet {κ α : Type} [DecidableEq κ] (m : List (κ × α)) (k : κ) (v : α)
    (h : mapGet m k = some v) : (k, v) ∈ m := by
  induction m with
  | nil => simp [mapGet] at h
  | cons x rest ih =>
    obtain ⟨k1, v1⟩ := x
    by_cases hk : k1 = k
    · simp only [mapGet, hk, if_true, Option.some.injEq] at h
      simp [hk, h]
    · simp only [mapGet, hk, if_false] at h
      exact List.mem_cons_of_mem _ (ih h)

theorem mapGet_of_mem {κ α : Type} [DecidableEq κ] (m : List (κ × α)) (k : κ) (v : α)
    (hwf : mapWF m) (h : (k, v) ∈ m) : mapGet m k = some v := by
  induction m with
  | nil => simp at h
  | cons x rest ih =>
    obtain ⟨k1, v1⟩ := x
    unfold mapWF at hwf ih
    simp only [List.map_cons, List.nodup_cons, List.mem_map, not_exists, not_and] at hwf
    rcases List.mem_cons.1 h with heq | hmem
    · cases heq
      simp [mapGet]
    · have hne : k1 ≠ k := fun hk => hwf.1 (k, v) hmem hk.symm
      simp only [mapGet, hne, if_false]
      exact ih hwf.2 hmem

theorem deleteLoop_sublist (domain : String) (order m : List (String × ResolvedDomainInfo)) :
    (deleteLoop domain order m).Sublist m := by
  induction order generalizing m with
  | nil => exact List.Sublist.refl _
  | cons x rest ih =>
    obtain ⟨k1, v⟩ := x
    unfold deleteLoop
    by_cases hv : v.ParentDomain = domain
    · rw [if_pos hv]
      exact (ih _).trans (List.filter_sublist _)
    · rw [if_neg hv]
      exact ih _

/-- C23: let the keys of the resolved-domains map be pairwise different and let the
`range` yield its entries in any order.  After `DeleteResolvedDomainsStates(domain)` no
key maps to an entry whose `ParentDomain` is `domain`, and no entry of the map has that
parent; every key that mapped to an entry with a different parent still maps to the same
entry; no key maps to anything it did not map to before; the keys are still pairwise
different, and the other fields of the recorder are unchanged. -/
theorem DeleteResolvedDomainsStates_spec (domain : String)
    (order : List (String × ResolvedDomainInfo)) (d : Status)
    (hwf : mapWF d.resolvedDomainsStates) (hord : order.Perm d.resolvedDomainsStates) :
    (∀ k v, mapGet (DeleteResolvedDomainsStates domain order d).resolvedDomainsStates k
        = some v → v.ParentDomain ≠ domain) ∧
    (∀ e, e ∈ (DeleteResolvedDomainsStates domain order d).resolvedDomainsStates →
      e.2.ParentDomain ≠ domain) ∧
    (∀ k v, mapGet d.resolvedDomainsStates k = some v → v.ParentDomain ≠ domain →
      mapGet (DeleteResolvedDomainsStates domain order d).resolvedDomainsStates k
        = some v) ∧
    (∀ k v, mapGet (DeleteResolvedDomainsStates domain order d).resolvedDomainsStates k
        = some v → mapGet d.resolvedDomainsStates k = some v) ∧
    mapWF (DeleteResolvedDomainsStates domain order d).resolvedDomainsStates ∧
    (DeleteResolvedDomainsStates domain order d).peers = d.peers ∧
    (DeleteResolvedDomainsStates domain order d).managementState = d.managementState ∧
    (DeleteResolvedDomainsStates domain order d).managementError = d.managementError ∧
    (DeleteResolvedDomainsStates domain order d).peerListChangedForNotification
      = d.peerListChangedForNotification := by
  have hsub := deleteLoop_sublist domain order d.resolvedDomainsStates
  have hwf2 : mapWF (deleteLoop domain order d.resolvedDomainsStates) := by
    unfold mapWF at hwf ⊢
    exact List.Nodup.sublist (hsub.map _) hwf
  have h1 : ∀ k v, mapGet (deleteLoop domain order d.resolvedDomainsStates) k = some v →
      v.ParentDomain ≠ domain ∧ mapGet d.resolvedDomainsStates k = some v := by
    intro k v h
    rw [mapGet_deleteLoop] at h
    split at h
    · cases h
    · rename_i hany
      refine ⟨?_, h⟩
      intro hv
      apply hany
      rw [List.any_eq_true]
      exact ⟨(k, v), hord.symm.subset (mem_of_mapGet _ _ _ h), by simp [hv]⟩
  refine ⟨fun k v h => (h1 k v h).1, ?_, ?_, fun k v h => (h1 k v h).2, hwf2, rfl, rfl, rfl,
    rfl⟩
  · intro e he
    obtain ⟨k, v⟩ := e
    exact (h1 k v (mapGet_of_mem _ _ _ hwf2 he)).1
  · intro k v h hv
    show mapGet (deleteLoop domain order d.resolvedDomainsStates) k = some v
    rw [mapGet_deleteLoop, if_neg, h]
    intro hany
    rw [List.any_eq_true] at hany
    obtain ⟨⟨k1, v1⟩, hmem, hdec⟩ := hany
    simp only [decide_eq_true_eq] at hdec
    obtain ⟨hk, hp⟩ := hdec
    subst hk
    have := mapGet_of_mem _ _ _ hwf (hord.subset hmem)
    rw [h] at this
    cases this
    exact hv hp

/-- Witness of C23: of three resolved domains, the two under `*.example.com` are deleted
and `other.org` stays, the `range` running in the reverse of the stored order. -/
theorem DeleteResolvedDomainsStates_spec_witness :
    mapWF threeDomains.resolvedDomainsStates ∧
    mapGet (DeleteResolvedDomainsStates "*.example.com"
        threeDomains.resolvedDomainsStates.reverse threeDomains).resolvedDomainsStates
        "other.org"
      = some { Prefixes := [([10, 0, 0, 3], 32)], ParentDomain := "other.org" } ∧
    mapGet (DeleteResolvedDomainsStates "*.example.com"
        threeDomains.resolvedDomainsStates.reverse threeDomains).resolvedDomainsStates
        "a.example.com"
      = none :=
  ⟨by decide,
    (DeleteResolvedDomainsStates_spec "*.example.com"
      threeDomains.resolvedDomainsStates.reverse threeDomains (by decide)
      (List.reverse_perm _)).2.2.1 "other.org" _ (by decide) (by decide),
    by decide⟩
/-! ## The event queue -/

theorem Add_of_le (s : Nat) (event : SystemEvent) (q : EventQueue) (hs : q.maxSize = (s : Int))
    (hlen : q.events.length ≤ s) :
    q.Add event = some
      { maxSize := (s : Int)
        events := (q.events ++ [event]).drop ((q.events ++ [event]).length - s) } := by
  obtain ⟨ms, evs⟩ := q
  simp only at hs hlen
  subst hs
  unfold EventQueue.Add
  simp only [List.length_append, List.length_singleton]
  by_cases h : evs.length + 1 ≤ s
  · have h1 : ¬ (((evs.length + 1 : Nat) : Int) > (s : Int)) := by omega
    rw [if_neg h1]
    have h2 : evs.length + 1 - s = 0 := by omega
    rw [h2, List.drop_zero]
  · have h1 : (((evs.length + 1 : Nat) : Int) > (s : Int)) := by omega
    rw [if_pos h1]
    have h3 : ¬ (((evs.length + 1 : Nat) : Int) - (s : Int) > ((evs.length + 1 : Nat) : Int)) := by
      omega
    rw [if_neg h3]
    have h2 : (((evs.length + 1 : Nat) : Int) - (s : Int)).toNat = evs.length + 1 - s := by
      omega
    rw [h2]

theorem addAll_of_le (s : Nat) (evs : List SystemEvent) (q : EventQueue)
    (hs : q.maxSize = (s : Int)) (hlen : q.events.length ≤ s) :
    addAll evs q = some
      { maxSize := (s : Int)
        events := (q.events ++ evs).drop ((q.events ++ evs).length - s) } := by
  induction evs generalizing q with
  | nil =>
    obtain ⟨ms, es⟩ := q
    simp only at hs hlen
    subst hs
    have h2 : (es ++ ([] : List SystemEvent)).length - s = 0 := by
      simp only [List.append_nil]; omega
    rw [h2]
    simp [addAll]
  | cons event rest ih =>
    unfold addAll
    rw [Add_of_le s event q hs hlen, Option.some_bind]
    rw [ih _ rfl (by simp only [List.length_drop, List.length_append, List.length_singleton]; omega)]
    congr 2
    simp only [List.length_drop, List.length_append, List.length_singleton, List.length_cons,
      List.length_nil, Nat.zero_add]
    have hl : q.events ++ event :: rest = (q.events ++ [event]) ++ rest := by simp
    by_cases h : q.events.length + 1 ≤ s
    · have h2 : q.events.length + 1 - s = 0 := by omega
      rw [h2, List.drop_zero, hl]
      congr 1
      omega
    · have h2 : q.events.length + 1 - s = 1 := by omega
      have h3 : q.events.length + 1 - 1 + rest.length - s = rest.length := by omega
      have h4 : q.events.length + (rest.length + 1) - s = 1 + rest.length := by omega
      have hd : (q.events ++ [event] ++ rest).drop 1 = (q.events ++ [event]).drop 1 ++ rest :=
        List.drop_append_of_le_length (by simp)
      rw [h2, h3, h4, ← List.drop_drop, hl, hd]

/-- C26: for `size >= 0`, `NewEventQueue(size)` returns a queue, any sequence of `Add`
calls on it returns (none of them panics), and afterwards the queue still has
`maxSize = size`, its stored length is `min(n, size)` for the `n` events added, and
`GetAll`, which is what `GetEventHistory` returns, is the list of the last `min(n, size)`
events added, in the order they were added. -/
theorem EventQueue_keeps_latest (size : Int) (hsize : 0 ≤ size) (evs : List SystemEvent) :
    ∃ q0 q, NewEventQueue size = some q0 ∧ q0.GetAll = [] ∧ addAll evs q0 = some q ∧
      q.maxSize = size ∧
      q.events.length = min evs.length size.toNat ∧
      q.GetAll = evs.drop (evs.length - min evs.length size.toNat) ∧
      GetEventHistory q = q.GetAll := by
  have hns : ¬ size < 0 := by omega
  have hsz : size = ((size.toNat : Nat) : Int) := by omega
  refine ⟨{ maxSize := size, events := [] }, _, by simp [NewEventQueue, hns], rfl,
    addAll_of_le size.toNat evs { maxSize := size, events := [] } hsz (Nat.zero_le _),
    hsz.symm, ?_, ?_, rfl⟩
  · simp only [List.nil_append, List.length_drop]
    omega
  · simp only [List.nil_append, EventQueue.GetAll]
    congr 1
    omega

/-- Witness of C26: five events into a queue of size three. -/
theorem EventQueue_keeps_latest_witness :
    ∃ q0 q, NewEventQueue 3 = some q0 ∧ q0.GetAll = [] ∧
      addAll [11, 12, 13, 14, 15] q0 = some q ∧
      q.maxSize = 3 ∧
      q.events.length = min [11, 12, 13, 14, 15].length (3 : Int).toNat ∧
      q.GetAll = [11, 12, 13, 14, 15].drop
        ([11, 12, 13, 14, 15].length - min [11, 12, 13, 14, 15].length (3 : Int).toNat) ∧
      GetEventHistory q = q.GetAll :=
  EventQueue_keeps_latest 3 (by decide) [11, 12, 13, 14, 15]

end Peer

namespace Netflow

/-! ## Manager.Update -/

theorem Update_keeps_client (update : Option FlowConfig) (ans : Answers) (m : Manager)
    (hinv : m.holdsOpenClient = m.enabled) (hnil : (Update update ans m).2 = none) :
    (Update update ans m).1.holdsOpenClient = (Update update ans m).1.enabled := by
  cases update with
  | none => simpa [Update] using hinv
  | some u =>
    obtain ⟨fc, hc, rc, calls⟩ := m
    obtain ⟨st, nc, cl⟩ := ans
    obtain ⟨url, tp, ts, en, cn⟩ := u
    rcases fc with _ | ⟨url1, tp1, ts1, _ | _, cn1⟩ <;> rcases rc with _ | ⟨url2, isOpen⟩ <;>
      cases en <;> cases hc <;> cases st <;> cases nc <;> cases cl <;>
      simp_all [Update, Manager.holdsOpenClient, Manager.enabled, wasEnabled]

/-- C24 fails on the code.  `Update(nil)` returns `nil` and changes nothing, as the claim
says.  But on a fresh manager, let `Update` with an enabled configuration return the
error of `client.NewClient` (or, with a connection tracker, the error of
`conntrack.Start`), and let a second `Update` with the same configuration meet no error:
the second call returns `nil`, makes no client, and leaves a manager whose stored
configuration is enabled and whose `receiverClient` is `nil`, so it holds no open
client. -/
theorem Update_enabled_without_client :
    (∀ ans m, Update none ans m = (m, none)) ∧
    (Update (some cfgOn) dialFails (NewManager false)).2 = some "connection refused" ∧
    (updates [(some cfgOn, dialFails), (some cfgOn, allFine)] (NewManager false)).2 = none ∧
    (updates [(some cfgOn, dialFails), (some cfgOn, allFine)] (NewManager false)).1.enabled
      = true ∧
    (updates [(some cfgOn, dialFails), (some cfgOn, allFine)]
      (NewManager false)).1.receiverClient = none ∧
    (updates [(some cfgOn, dialFails), (some cfgOn, allFine)]
      (NewManager false)).1.holdsOpenClient = false ∧
    (updates [(some cfgOn, dialFails), (some cfgOn, allFine)] (NewManager false)).1.calls
      = [Call.loggerEnable, Call.newClient cfgOn.URL, Call.loggerEnable] ∧
    (Update (some cfgOn) startFails (NewManager true)).2
      = some "start conntrack: netlink: permission denied" ∧
    (updates [(some cfgOn, startFails), (some cfgOn, allFine)] (NewManager true)).2 = none ∧
    (updates [(some cfgOn, startFails), (some cfgOn, allFine)] (NewManager true)).1.enabled
      = true ∧
    (updates [(some cfgOn, startFails), (some cfgOn, allFine)]
      (NewManager true)).1.holdsOpenClient = false := by
  refine ⟨fun ans m => rfl, ?_, ?_, ?_, ?_, ?_, ?_, ?_, ?_, ?_, ?_⟩ <;> decide

end Netflow

namespace Internal

/-! ## convertToIP -/

/-- C27: `convertToIP` returns an error exactly when the input is `nil` or its length is
neither 4 nor 16, so also for the empty slice that is not `nil`; it returns a value
exactly when the input is a slice of length 4 or 16, and the value is then the input
itself.  The error of a `nil` input is `input bytes cannot be nil`, the other one names
the length. -/
theorem convertToIP_spec (rawIP : Option (List Nat)) :
    ((∃ e, convertToIP rawIP = Except.error e) ↔
      (rawIP = none ∨ ∃ b, rawIP = some b ∧ b.length ≠ 4 ∧ b.length ≠ 16)) ∧
    ((∃ ip, convertToIP rawIP = Except.ok ip) ↔
      ∃ b, rawIP = some b ∧ (b.length = 4 ∨ b.length = 16)) ∧
    (∀ ip, convertToIP rawIP = Except.ok ip → rawIP = some ip) ∧
    (∀ b, rawIP = some b → (b.length = 4 ∨ b.length = 16) →
      convertToIP rawIP = Except.ok b) ∧
    convertToIP none = Except.error "input bytes cannot be nil" ∧
    convertToIP (some []) = Except.error "invalid IP length: 0" := by
  refine ⟨?_, ?_, ?_, ?_, rfl, rfl⟩
  · cases rawIP with
    | none => simp [convertToIP]
    | some b =>
      by_cases h : b.length ≠ 4 ∧ b.length ≠ 16
      · simp [convertToIP, h]
      · simp only [convertToIP, if_neg h]
        simp [h]
  · cases rawIP with
    | none => simp [convertToIP]
    | some b =>
      by_cases h : b.length ≠ 4 ∧ b.length ≠ 16
      · simp only [convertToIP, if_pos h]
        constructor
        · rintro ⟨ip, hip⟩
          cases hip
        · rintro ⟨b1, hb1, hlen⟩
          cases hb1
          omega
      · simp only [convertToIP, if_neg h]
        constructor
        · intro _
          exact ⟨b, rfl, by omega⟩
        · intro _
          exact ⟨b, rfl⟩
  · intro ip hip
    cases rawIP with
    | none => simp [convertToIP] at hip
    | some b =>
      by_cases h : b.length ≠ 4 ∧ b.length ≠ 16
      · simp [convertToIP, h] at hip
      · simp only [convertToIP, if_neg h, Except.ok.injEq] at hip
        rw [hip]
  · intro b hb hlen
    subst hb
    have h : ¬ (b.length ≠ 4 ∧ b.length ≠ 16) := by omega
    simp only [convertToIP, if_neg h]

/-- Witness of C27: an IPv4 address comes back unchanged, three bytes are refused. -/
theorem convertToIP_spec_witness :
    convertToIP (some [100, 64, 0, 1]) = Except.ok [100, 64, 0, 1] ∧
    (∃ e, convertToIP (some [100, 64, 0]) = Except.error e) :=
  ⟨(convertToIP_spec (some [100, 64, 0, 1])).2.2.2.1 [100, 64, 0, 1] rfl (Or.inl rfl),
    (convertToIP_spec (some [100, 64, 0])).1.2
      (Or.inr ⟨[100, 64, 0], rfl, by decide, by decide⟩)⟩

/-! ## convertPortInfo -/

theorem toInt_of_lt (bits x : Nat) (h : x < 2 ^ (bits - 1)) : toInt bits x = (x : Int) := by
  have hle : 2 ^ (bits - 1) ≤ 2 ^ bits := Nat.pow_le_pow_right (by decide) (Nat.sub_le _ _)
  have hmod : x % 2 ^ bits = x := Nat.mod_eq_of_lt (lt_of_lt_of_le h hle)
  unfold toInt
  rw [hmod, if_pos h]

/-- C28: `convertPortInfo` returns `nil` for a `nil` input and for an input with port 0 and
no range.  For a port other than 0 it returns a `Port` that is not a range and whose
values are that one port, whether or not a range is set as well.  For port 0 with a range
it returns a `Port` with `IsRange` true and the values `Start`, `End` in that order,
whatever their order by size.  The numbers are uint32 and `int` is 64 bits wide; the same
holds at 32 bits for numbers below 2^31. -/
theorem convertPortInfo_spec (p : PortInfo) (hp : p.isUint32 = true) :
    convertPortInfo 64 none = none ∧
    (p.GetPort = 0 → p.GetRange = none → convertPortInfo 64 (some p) = none) ∧
    (p.GetPort ≠ 0 →
      convertPortInfo 64 (some p) = some { IsRange := false, Values := [(p.GetPort : Int)] }) ∧
    (∀ r, p.GetPort = 0 → p.GetRange = some r →
      convertPortInfo 64 (some p)
        = some { IsRange := true, Values := [(r.Start : Int), (r.End : Int)] }) ∧
    (∀ bits, p.GetPort ≠ 0 → p.GetPort < 2 ^ (bits - 1) →
      convertPortInfo bits (some p)
        = some { IsRange := false, Values := [(p.GetPort : Int)] }) ∧
    (∀ bits r, p.GetPort = 0 → p.GetRange = some r → r.Start < 2 ^ (bits - 1) →
      r.End < 2 ^ (bits - 1) →
      convertPortInfo bits (some p)
        = some { IsRange := true, Values := [(r.Start : Int), (r.End : Int)] }) := by
  have h32 : (2 : Nat) ^ 32 ≤ 2 ^ (64 - 1) := by decide
  have hgen1 : ∀ bits, p.GetPort ≠ 0 → p.GetPort < 2 ^ (bits - 1) →
      convertPortInfo bits (some p)
        = some { IsRange := false, Values := [(p.GetPort : Int)] } := by
    intro bits h0 hlt
    simp only [convertPortInfo, if_pos h0, toInt_of_lt _ _ hlt]
  have hgen2 : ∀ bits r, p.GetPort = 0 → p.GetRange = some r → r.Start < 2 ^ (bits - 1) →
      r.End < 2 ^ (bits - 1) →
      convertPortInfo bits (some p)
        = some { IsRange := true, Values := [(r.Start : Int), (r.End : Int)] } := by
    intro bits r h0 hr hs he
    simp only [convertPortInfo, h0, ne_eq, not_true_eq_false, if_false, hr,
      toInt_of_lt _ _ hs, toInt_of_lt _ _ he]
  refine ⟨rfl, ?_, ?_, ?_, hgen1, hgen2⟩
  · intro h0 hr
    simp [convertPortInfo, h0, hr]
  · intro h0
    apply hgen1 64 h0
    simp only [PortInfo.isUint32, Bool.and_eq_true, decide_eq_true_eq] at hp
    exact lt_of_lt_of_le hp.1 h32
  · intro r h0 hr
    simp only [PortInfo.isUint32, hr, Bool.and_eq_true, decide_eq_true_eq] at hp
    exact hgen2 64 r h0 hr (lt_of_lt_of_le hp.2.1 h32) (lt_of_lt_of_le hp.2.2 h32)

/-- Witness of C28: a port together with a range gives the port, and port 0 with the
range 9000 to 8000 gives the range as it is. -/
theorem convertPortInfo_spec_witness :
    convertPortInfo 64 (some { GetPort := 443, GetRange := some { Start := 1, End := 2 } })
      = some { IsRange := false, Values := [443] } ∧
    convertPortInfo 64 (some { GetPort := 0, GetRange := some { Start := 9000, End := 8000 } })
      = some { IsRange := true, Values := [9000, 8000] } :=
  ⟨(convertPortInfo_spec { GetPort := 443, GetRange := some { Start := 1, End := 2 } }
      (by decide)).2.2.1 (by decide),
    (convertPortInfo_spec { GetPort := 0, GetRange := some { Start := 9000, End := 8000 } }
      (by decide)).2.2.2.1 { Start := 9000, End := 8000 } rfl rfl⟩
/-! ## ConnMgr.AddPeerConn -/

theorem storeAddPeerConn_snd (store : List (String × Nat)) (peerKey : String) (conn : Nat) :
    (storeAddPeerConn store peerKey conn).2 = false ↔ ∃ c, (peerKey, c) ∈ store := by
  unfold storeAddPeerConn
  by_cases h : store.any (fun e => decide (e.1 = peerKey)) = true
  · rw [if_pos h]
    simp only [true_iff]
    rw [List.any_eq_true] at h
    obtain ⟨⟨k, c⟩, hmem, hk⟩ := h
    simp only [decide_eq_true_eq] at hk
    subst hk
    exact ⟨c, hmem⟩
  · rw [if_neg h]
    simp only [Bool.true_eq_false, false_iff, not_exists]
    intro c hmem
    apply h
    rw [List.any_eq_true]
    exact ⟨(peerKey, c), hmem, by simp⟩

/-- C25: `AddPeerConn` returns `exists = true` exactly when the peer store already holds a
connection for the key, and then the manager is unchanged: `Open` is not called on the
given connection, the peer is not passed to the lazy connection manager and the store is
as it was.  When it returns `false`, the store has the new entry, and `Open` is called on
the connection, once, unless the manager is started and the lazy manager answered no
error and not excluded, in which case `Open` is not called; the peer is passed to the lazy
manager exactly when the manager is started.  So a manager that is not started, an error
of the lazy manager and an excluded peer each open the connection. -/
theorem AddPeerConn_spec (peerKey : String) (conn : Nat) (excluded err : Bool) (e : ConnMgr) :
    ((e.AddPeerConn peerKey conn excluded err).2 = true ↔
      ∃ c, (peerKey, c) ∈ e.peerStore) ∧
    ((e.AddPeerConn peerKey conn excluded err).2 = true →
      (e.AddPeerConn peerKey conn excluded err).1 = e) ∧
    ((e.AddPeerConn peerKey conn excluded err).2 = false →
      (e.AddPeerConn peerKey conn excluded err).1.peerStore
        = (peerKey, conn) :: e.peerStore ∧
      (e.AddPeerConn peerKey conn excluded err).1.lazyConnMgr = e.lazyConnMgr ∧
      (e.AddPeerConn peerKey conn excluded err).1.ctxCancel = e.ctxCancel ∧
      (e.AddPeerConn peerKey conn excluded err).1.opened
        = (if e.isStarted = true ∧ err = false ∧ excluded = false then e.opened
          else e.opened ++ [conn]) ∧
      (e.AddPeerConn peerKey conn excluded err).1.lazyPeers
        = (if e.isStarted = true then e.lazyPeers ++ [peerKey] else e.lazyPeers) ∧
      (e.isStarted = false →
        (e.AddPeerConn peerKey conn excluded err).1.opened = e.opened ++ [conn]) ∧
      (err = true →
        (e.AddPeerConn peerKey conn excluded err).1.opened = e.opened ++ [conn]) ∧
      (excluded = true →
        (e.AddPeerConn peerKey conn excluded err).1.opened = e.opened ++ [conn])) := by
  have hs := storeAddPeerConn_snd e.peerStore peerKey conn
  by_cases h : (storeAddPeerConn e.peerStore peerKey conn).2 = false
  · have h1 : e.AddPeerConn peerKey conn excluded err = (e, true) := by
      simp only [ConnMgr.AddPeerConn, if_pos h]
    rw [h1]
    exact ⟨⟨fun _ => hs.1 h, fun _ => rfl⟩, fun _ => rfl, fun hf => by cases hf⟩
  · have hno : ¬ ∃ c, (peerKey, c) ∈ e.peerStore := fun hex => h (hs.2 hex)
    have hst : (storeAddPeerConn e.peerStore peerKey conn).1 = (peerKey, conn) :: e.peerStore := by
      unfold storeAddPeerConn at h ⊢
      by_cases ha : e.peerStore.any (fun e => decide (e.1 = peerKey)) = true
      · rw [if_pos ha] at h
        exact absurd rfl h
      · rw [if_neg ha]
    have hfalse : (e.AddPeerConn peerKey conn excluded err).2 = false := by
      simp only [ConnMgr.AddPeerConn, if_neg h]
      cases e.isStarted <;> cases err <;> cases excluded <;> simp
    refine ⟨⟨fun ht => ?_, fun hex => absurd hex hno⟩, fun ht => ?_, fun _ => ?_⟩
    · rw [hfalse] at ht
      cases ht
    · rw [hfalse] at ht
      cases ht
    · simp only [ConnMgr.AddPeerConn, if_neg h, hst]
      cases e.isStarted <;> cases err <;> cases excluded <;> simp

/-- Witness of C25: on a started manager that holds `keyA`, adding `keyA` again changes
nothing, and adding `keyB`, which the lazy manager accepts, stores it without opening. -/
theorem AddPeerConn_spec_witness :
    startedMgr.AddPeerConn "keyA" 2 false false = (startedMgr, true) ∧
    (startedMgr.AddPeerConn "keyB" 2 false false).1.opened = [] ∧
    (startedMgr.AddPeerConn "keyB" 2 true false).1.opened = [2] :=
  ⟨Prod.ext ((AddPeerConn_spec "keyA" 2 false false startedMgr).2.1 (by decide)) (by decide),
    ((AddPeerConn_spec "keyB" 2 false false startedMgr).2.2 (by decide)).2.2.2.1,
    ((AddPeerConn_spec "keyB" 2 true false startedMgr).2.2 (by decide)).2.2.2.2.2.2.2 rfl⟩

end Internal
